import Mathlib

/-!
# Varangian ledger: transaction processing engine and identifier codec

A shallow embedding of the Go sources

* `txn/service/service.go`  (`ProcessTxn`, the transaction processing engine),
* `txn/store/store.go`, `lot/store/store.go` (the store operations the engine calls, the list
  filters and the balance operations of the roll),
* `lot/service/service.go` (`CreateLot`, `RollLots`),
* `internal/vxid/vxid.go` (the identifier codec),
* `port/store/store.go`, `acct/store/store.go`, `strat/store/store.go` and the `Create` and
  `Update` handlers of the services (identifiers on the way in and out of the stores),

together with theorems about them.

Modelling conventions.

* The database is a record of three tables (`txns`, `lots`, `lotBals`), each a list of rows in
  insertion order, plus the state of the database's id generator.
* Identifiers are the internal ids of the storage rows.  The stores decode every id they
  receive and encode every id they return, the engine never inspects an id, so the engine is
  modelled on internal ids directly.  The zero value of Go's `string` (the empty id) is `0`.
* Dates are calendar days (the value of a `date` column).
* Sizes and amounts are Go `float64` values.  They are modelled as elements of an arbitrary
  linearly ordered ring `R` with exact arithmetic, so rounding, infinities and NaN are outside
  the model.  Every concrete input used below is a small integer, on which `float64` arithmetic
  is exact.
* A Go call that returns a non-nil `error` is `Except.error` with a `Fault` for which
  `Fault.isPanic` is false; a run-time panic (index out of range, nil dereference) is a `Fault`
  for which it is true.  Every engine function returns the store as it is when the call ends,
  also when it ends with a fault: the engine does not roll back.
-/

namespace Varangian

/-- Internal identifier of a row; `0` is the empty id. -/
abbrev Id := Nat

/-- Calendar day, the value of a `date` column. -/
abbrev Dt := Nat

/-- Row of the transaction table (`storage.Txn`). -/
structure Txn (R : Type) where
  id : Id
  parentId : Id
  instId : Id
  srcLotId : Id
  tgtLotId : Id
  txnDt : Dt
  settleDt : Dt
  txnType : String
  txnSubType : String
  txnSize : R
  tradeAmtCcyId : Id
  tradeAmtGross : R
  tradeAmtNet : R
  settleAmtCcyId : Id
  settleAmtGross : R
  settleAmtNet : R
  state : String
deriving DecidableEq, Repr

/-- Row of the lot table (`storage.Lot` without its balances). -/
structure Lot (R : Type) where
  id : Id
  instId : Id
  srcTxnId : Id
  leOrgId : Id
  acctId : Id
  origDt : Dt
  origSize : R
deriving DecidableEq, Repr

/-- Row of the lot balance table (`storage.LotBal`), keyed by `(lotId, lotDt)`. -/
structure LotBal (R : Type) where
  lotId : Id
  lotDt : Dt
  lotSize : R
  settledSize : R
  unsettledSize : R
deriving DecidableEq, Repr

/-- The database: three tables and the next id the database hands out on insert. -/
structure Store (R : Type) where
  txns : List (Txn R)
  lots : List (Lot R)
  lotBals : List (LotBal R)
  nextId : Id
deriving DecidableEq, Repr

/-- Ways a call can end other than by returning a result. -/
inductive Fault where
  | notFound
  | duplicateKey
  | fundingMismatch
  | sizeMismatch
  | multiplePayRec
  | unsettledSweep
  | indexOutOfRange
  | nilDereference
  | invalidArgument
  | databaseError
  | parseError
deriving DecidableEq, Repr

/-- The faults that are Go panics rather than returned errors. -/
def Fault.isPanic : Fault → Bool
  | .indexOutOfRange => true
  | .nilDereference => true
  | _ => false

deriving instance DecidableEq for Except

/-- Request of `ProcessTxn`: the transaction id and the optional lot list. -/
structure ProcessTxnRequest where
  id : Id
  lotIds : List Id
deriving DecidableEq, Repr

/-- Response of `ProcessTxn`. -/
structure ProcessTxnResponse where
  id : Id
  state : String
deriving DecidableEq, Repr

/-! ## Constants of `txn/service/service.go` -/

namespace TxnType
def Trade : String := "trade"
def Settle : String := "settle"
def Income : String := "income"
def Sweep : String := "sweep"
def Transfer : String := "xfer"
def Allocation : String := "allocation"
end TxnType

namespace TxnSubType
def Buy : String := "buy"
def Sell : String := "sell"
def Reinvest : String := "reinvest"
def Dividend : String := "dividend"
def Interest : String := "interest"
def In : String := "in"
def Out : String := "out"
end TxnSubType

namespace TxnState
def Open : String := "open"
def Pending : String := "pending"
def Processed : String := "processed"
end TxnState

section Engine

variable {R : Type} [LinearOrderedRing R]

/-- The zero value of `storage.Txn` (`var allocTxn storage.Txn`). -/
def Txn.zero : Txn R :=
  { id := 0, parentId := 0, instId := 0, srcLotId := 0, tgtLotId := 0, txnDt := 0, settleDt := 0,
    txnType := "", txnSubType := "", txnSize := 0, tradeAmtCcyId := 0, tradeAmtGross := 0,
    tradeAmtNet := 0, settleAmtCcyId := 0, settleAmtGross := 0, settleAmtNet := 0, state := "" }

/-- The zero value of `storage.Lot` (`var lot storage.Lot`). -/
def Lot.zero : Lot R :=
  { id := 0, instId := 0, srcTxnId := 0, leOrgId := 0, acctId := 0, origDt := 0, origSize := 0 }

/-! ## Store operations (`txn/store/store.go`, `lot/store/store.go`) -/

/-- `GetTxn`: the row with the given id, or NotFound. -/
def getTxn (s : Store R) (id : Id) : Except Fault (Txn R) :=
  match s.txns.find? (fun t => t.id = id) with
  | some t => .ok t
  | none => .error .notFound

/-- `ListTxns` with a `TxnFilter` that has `TxnType` and `ParentID` set: the rows whose type is
in `txnTypes` and whose parent is in `parentIds`, in table order. -/
def listTxns (s : Store R) (txnTypes : List String) (parentIds : List Id) : List (Txn R) :=
  s.txns.filter (fun t => txnTypes.contains t.txnType && parentIds.contains t.parentId)

/-- `UpdateTxn` with a nil field mask: full replace of the row with the transaction's id. -/
def updateTxn (s : Store R) (txn : Txn R) : Store R :=
  { s with txns := s.txns.map (fun t => if t.id = txn.id then txn else t) }

/-- `CreateTxn`: insert the row; the database generates the id when the row carries none, and
rejects a duplicate primary key. -/
def createTxn (s : Store R) (txn : Txn R) : Except Fault (Txn R) × Store R :=
  let row : Txn R := { txn with id := if txn.id = 0 then s.nextId else txn.id }
  if s.txns.any (fun t => t.id = row.id) then (.error .duplicateKey, s)
  else (.ok row, { s with txns := s.txns ++ [row], nextId := s.nextId + 1 })

/-- `ListLots` with a `LotFilter` that has `SrcTxnID` set. -/
def listLots (s : Store R) (srcTxnIds : List Id) : List (Lot R) :=
  s.lots.filter (fun l => srcTxnIds.contains l.srcTxnId)

/-- `GetLotBal`: the balance row with key `(id, dt)`, or NotFound. -/
def getLotBal (s : Store R) (id : Id) (dt : Dt) : Except Fault (LotBal R) :=
  match s.lotBals.find? (fun b => b.lotId = id ∧ b.lotDt = dt) with
  | some b => .ok b
  | none => .error .notFound

/-- `UpdateLotBal`: `UPDATE ... WHERE` primary key `(lotId, lotDt)`, all columns replaced.  An
update that matches no row is not an error. -/
def updateLotBal (s : Store R) (b : LotBal R) : Store R :=
  { s with lotBals := s.lotBals.map (fun x => if x.lotId = b.lotId ∧ x.lotDt = b.lotDt then b else x) }

/-- `CreateLot` for a lot without balances in the body (the branch `balFlag == false`, the only
one the engine reaches): insert the lot row, then its initial balance dated `origDt` with
`settledSize = 0` and `unsettledSize = origSize`.  The lot row stays inserted when the balance
insert fails. -/
def createLot (s : Store R) (lot : Lot R) : Except Fault (Lot R) × Store R :=
  let row : Lot R := { lot with id := if lot.id = 0 then s.nextId else lot.id }
  if s.lots.any (fun l => l.id = row.id) then (.error .duplicateKey, s)
  else
    let s1 : Store R := { s with lots := s.lots ++ [row], nextId := s.nextId + 1 }
    let lotBal : LotBal R :=
      { lotId := row.id, lotDt := row.origDt, lotSize := row.origSize, settledSize := 0,
        unsettledSize := row.origSize }
    if s1.lotBals.any (fun b => b.lotId = lotBal.lotId ∧ b.lotDt = lotBal.lotDt) then
      (.error .duplicateKey, s1)
    else (.ok row, { s1 with lotBals := s1.lotBals ++ [lotBal] })

/-! ## The engine (`ProcessTxn` of `txn/service/service.go`) -/

/-- One pass of the body of the sell loop on the loaded balance: the allocation size, the
remaining sell size afterwards and the balance to persist. -/
def sellStep (balRemaining : R) (lotBal : LotBal R) : R × R × LotBal R :=
  if balRemaining < lotBal.lotSize then
    (balRemaining, 0,
      { lotBal with lotSize := lotBal.lotSize - balRemaining,
                    unsettledSize := lotBal.unsettledSize - balRemaining })
  else
    (lotBal.lotSize, balRemaining - lotBal.lotSize,
      { lotBal with lotSize := 0, unsettledSize := 0 })

/-- The allocation transaction generated for one lot of a sell. -/
def allocTxnFor (txn : Txn R) (lotID : Id) (allocSize : R) : Txn R :=
  { (Txn.zero : Txn R) with
    txnDt := txn.txnDt, settleDt := txn.txnDt, txnType := TxnType.Allocation,
    txnSize := allocSize, parentId := txn.id, tgtLotId := lotID, state := TxnState.Processed }

/-- The sell loop: `for _, lotID := range saleLotIDs` with the running `balRemaining`. -/
def sellLoop (txn : Txn R) : List Id → R → Store R → Except Fault Unit × Store R
  | [], _, s => (.ok (), s)
  | lotID :: rest, balRemaining, s =>
    match getLotBal s lotID txn.txnDt with
    | .error e => (.error e, s)
    | .ok lotBal =>
      let step := sellStep balRemaining lotBal
      let s1 := updateLotBal s step.2.2
      match createTxn s1 (allocTxnFor txn lotID step.1) with
      | (.error e, s2) => (.error e, s2)
      | (.ok _, s2) =>
        if step.2.1 = 0 then (.ok (), s2) else sellLoop txn rest step.2.1 s2

/-- The lot a buy or a reinvest creates in the traded instrument. -/
def tradeLot (txn : Txn R) : Lot R :=
  { (Lot.zero : Lot R) with
    instId := txn.instId, srcTxnId := txn.id, origDt := txn.txnDt, origSize := txn.txnSize }

/-- The payable/receivable lot of a trade. -/
def payRecLotFor (txn : Txn R) : Lot R :=
  { (Lot.zero : Lot R) with
    instId := txn.settleAmtCcyId, srcTxnId := txn.id, origDt := txn.txnDt,
    origSize := txn.settleAmtNet }

/-- The lot a dividend creates. -/
def dividendLot (txn : Txn R) : Lot R :=
  { (Lot.zero : Lot R) with
    instId := txn.settleAmtCcyId, srcTxnId := txn.id, origDt := txn.settleDt,
    origSize := txn.txnSize }

/-- The `case TxnSubType.Trade.Buy` block. -/
def processBuy (txn : Txn R) (s : Store R) : Except Fault Unit × Store R :=
  match createLot s (tradeLot txn) with
  | (.error e, s1) => (.error e, s1)
  | (.ok _, s1) => (.ok (), s1)

/-- The `case TxnSubType.Trade.Sell` block. -/
def processSell (txn : Txn R) (saleLotIDs : List Id) (s : Store R) : Except Fault Unit × Store R :=
  sellLoop txn saleLotIDs txn.txnSize s

/-- The `case TxnSubType.Trade.Reinvest` block. -/
def processReinvest (txn : Txn R) (s : Store R) : Except Fault Unit × Store R :=
  match createLot s (tradeLot txn) with
  | (.error e, s1) => (.error e, s1)
  | (.ok reinvestLot, s1) =>
    match getLotBal s1 reinvestLot.id txn.settleDt with
    | .error e => (.error e, s1)
    | .ok reinvestLotBal =>
      let s2 := updateLotBal s1
        { reinvestLotBal with settledSize := reinvestLotBal.lotSize, unsettledSize := 0 }
      match getLotBal s2 txn.srcLotId txn.settleDt with
      | .error e => (.error e, s2)
      | .ok fundingLotBal =>
        if fundingLotBal.lotSize ≠ txn.settleAmtNet then (.error .fundingMismatch, s2)
        else
          (.ok (), updateLotBal s2
            { fundingLotBal with lotSize := 0, settledSize := 0, unsettledSize := 0 })

/-- The `switch txn.TxnSubType` of the trade block; a sub-type without a case does nothing. -/
def tradeSwitch (txn : Txn R) (saleLotIDs : List Id) (s : Store R) : Except Fault Unit × Store R :=
  if txn.txnSubType = TxnSubType.Buy then processBuy txn s
  else if txn.txnSubType = TxnSubType.Sell then processSell txn saleLotIDs s
  else if txn.txnSubType = TxnSubType.Reinvest then processReinvest txn s
  else (.ok (), s)

/-- The `case TxnType.Trade` block: the switch on the sub-type, then the payable/receivable lot
for every sub-type other than reinvest. -/
def processTrade (txn : Txn R) (saleLotIDs : List Id) (s : Store R) : Except Fault Unit × Store R :=
  match tradeSwitch txn saleLotIDs s with
  | (.error e, s1) => (.error e, s1)
  | (.ok _, s1) =>
    if txn.txnSubType ≠ TxnSubType.Reinvest then
      match createLot s1 (payRecLotFor txn) with
      | (.error e, s2) => (.error e, s2)
      | (.ok _, s2) => (.ok (), s2)
    else (.ok (), s1)

/-- The total the settle branch computes, `allocTotTxnSize`. -/
def allocTotTxnSize (allocTxns : List (Txn R)) : R :=
  allocTxns.foldl (fun acc allocTxn => acc + allocTxn.txnSize) 0

/-- The loop of the settle branch over the allocating transactions. -/
def settleLoop (txn origTxn : Txn R) : List (Txn R) → Store R → Except Fault Unit × Store R
  | [], s => (.ok (), s)
  | allocTxn :: rest, s =>
    match getLotBal s allocTxn.tgtLotId txn.settleDt with
    | .error e => (.error e, s)
    | .ok lotBal =>
      let multiplier : R := if origTxn.txnSubType = TxnSubType.Sell then -1 else 1
      let settleSize := allocTxn.txnSize * multiplier
      settleLoop txn origTxn rest
        (updateLotBal s { lotBal with settledSize := lotBal.settledSize + settleSize })

/-- The payable/receivable step of the settle branch.  `payRecLots[0]` panics on an empty list,
and the error of `GetLotBal` is not checked before the result is dereferenced. -/
def settlePayRec (txn : Txn R) (s : Store R) : Except Fault Unit × Store R :=
  let payRecLots := listLots s [txn.parentId]
  if payRecLots.length > 1 then (.error .multiplePayRec, s)
  else
    match payRecLots with
    | [] => (.error .indexOutOfRange, s)
    | payRecLot :: _ =>
      match getLotBal s payRecLot.id txn.settleDt with
      | .error _ => (.error .nilDereference, s)
      | .ok payRecLotBal =>
        (.ok (), updateLotBal s
          { payRecLotBal with settledSize := payRecLotBal.lotSize, unsettledSize := 0 })

/-- The `case TxnType.Settle` block. -/
def processSettle (txn : Txn R) (s : Store R) : Except Fault Unit × Store R :=
  match getTxn s txn.parentId with
  | .error e => (.error e, s)
  | .ok origTxn =>
    let allocTxns := listTxns s [TxnType.Allocation] [origTxn.id]
    if origTxn.txnSize ≠ allocTotTxnSize allocTxns then (.error .sizeMismatch, s)
    else
      match settleLoop txn origTxn allocTxns s with
      | (.error e, s1) => (.error e, s1)
      | (.ok _, s1) => settlePayRec txn s1

/-- The `case TxnType.Sweep` block.  The results of both `UpdateLotBal` calls are dropped. -/
def processSweep (txn : Txn R) (s : Store R) : Except Fault Unit × Store R :=
  let sweepLotBalID := if txn.txnSubType = TxnSubType.In then txn.tgtLotId else txn.srcLotId
  let cashLotBalID := if txn.txnSubType = TxnSubType.In then txn.srcLotId else txn.tgtLotId
  match getLotBal s cashLotBalID txn.settleDt with
  | .error e => (.error e, s)
  | .ok cashLotBal =>
    if cashLotBal.unsettledSize ≠ 0 then (.error .unsettledSweep, s)
    else
      match getLotBal s sweepLotBalID txn.settleDt with
      | .error e => (.error e, s)
      | .ok sweepLotBal =>
        let newSize := sweepLotBal.lotSize + cashLotBal.lotSize
        let s1 := updateLotBal s { sweepLotBal with lotSize := newSize, settledSize := newSize }
        (.ok (), updateLotBal s1 { cashLotBal with lotSize := 0, settledSize := 0 })

/-- The `case TxnType.Income` block; only the dividend sub-type has a case. -/
def processIncome (txn : Txn R) (s : Store R) : Except Fault Unit × Store R :=
  if txn.txnSubType = TxnSubType.Dividend then
    match createLot s (dividendLot txn) with
    | (.error e, s1) => (.error e, s1)
    | (.ok divLot, s1) =>
      match getLotBal s1 divLot.id divLot.origDt with
      | .error e => (.error e, s1)
      | .ok divLotBal =>
        (.ok (), updateLotBal s1
          { divLotBal with settledSize := divLotBal.lotSize, unsettledSize := 0 })
  else (.ok (), s)

/-- The `switch txn.TxnType` inside `if txn.State == TxnState.Open`. -/
def dispatch (txn : Txn R) (saleLotIDs : List Id) (s : Store R) : Except Fault Unit × Store R :=
  if txn.txnType = TxnType.Trade then processTrade txn saleLotIDs s
  else if txn.txnType = TxnType.Settle then processSettle txn s
  else if txn.txnType = TxnType.Sweep then processSweep txn s
  else if txn.txnType = TxnType.Income then processIncome txn s
  else (.ok (), s)

/-- `ProcessTxn`: load the transaction, run the dispatch when it is open, then write
`state = processed` with a full-replace `UpdateTxn` and answer with that state. -/
def ProcessTxn (s : Store R) (request : ProcessTxnRequest) :
    Except Fault ProcessTxnResponse × Store R :=
  match getTxn s request.id with
  | .error e => (.error e, s)
  | .ok txn =>
    let r : Except Fault Unit × Store R :=
      if txn.state = TxnState.Open then dispatch txn request.lotIds s else (.ok (), s)
    match r with
    | (.error e, s1) => (.error e, s1)
    | (.ok _, s1) =>
      (.ok { id := request.id, state := TxnState.Processed },
        updateTxn s1 { txn with state := TxnState.Processed })

/-- The `case TxnType.Sweep` block over a store whose `UpdateLotBal` can fail: `update`
gives the error of the call and the store after it.  The two calls are statements of their own
in the source, so their errors are dropped and the block goes on. -/
def processSweepWith (update : Store R → LotBal R → Except Fault Unit × Store R) (txn : Txn R)
    (s : Store R) : Except Fault Unit × Store R :=
  let sweepLotBalID := if txn.txnSubType = TxnSubType.In then txn.tgtLotId else txn.srcLotId
  let cashLotBalID := if txn.txnSubType = TxnSubType.In then txn.srcLotId else txn.tgtLotId
  match getLotBal s cashLotBalID txn.settleDt with
  | .error e => (.error e, s)
  | .ok cashLotBal =>
    if cashLotBal.unsettledSize ≠ 0 then (.error .unsettledSweep, s)
    else
      match getLotBal s sweepLotBalID txn.settleDt with
      | .error e => (.error e, s)
      | .ok sweepLotBal =>
        let newSize := sweepLotBal.lotSize + cashLotBal.lotSize
        let s1 := (update s { sweepLotBal with lotSize := newSize, settledSize := newSize }).2
        (.ok (), (update s1 { cashLotBal with lotSize := 0, settledSize := 0 }).2)

/-- `ProcessTxn` with `update` as the `UpdateLotBal` of the sweep block. -/
def ProcessTxnWith (update : Store R → LotBal R → Except Fault Unit × Store R) (s : Store R)
    (request : ProcessTxnRequest) : Except Fault ProcessTxnResponse × Store R :=
  match getTxn s request.id with
  | .error e => (.error e, s)
  | .ok txn =>
    let r : Except Fault Unit × Store R :=
      if txn.state = TxnState.Open then
        if txn.txnType = TxnType.Sweep then processSweepWith update txn s
        else dispatch txn request.lotIds s
      else (.ok (), s)
    match r with
    | (.error e, s1) => (.error e, s1)
    | (.ok _, s1) =>
      (.ok { id := request.id, state := TxnState.Processed },
        updateTxn s1 { txn with state := TxnState.Processed })

end Engine

section Reference

variable {R : Type} [LinearOrderedRing R]

/-- Total signed size of the allocations in `allocTxns` that target `lot`: a size counts
negative when the parent `origTxn` is a sell and positive otherwise. -/
def settleDelta (origTxn : Txn R) (allocTxns : List (Txn R)) (lot : Id) : R :=
  ((allocTxns.filter (fun a => a.tgtLotId = lot)).map
    (fun a => if origTxn.txnSubType = TxnSubType.Sell then -a.txnSize else a.txnSize)).sum

/-- The balance decomposition: lot size is settled size plus unsettled size. -/
def LotBal.Decomposed (b : LotBal R) : Prop :=
  b.lotSize = b.settledSize + b.unsettledSize

instance (b : LotBal R) : Decidable b.Decomposed :=
  inferInstanceAs (Decidable (b.lotSize = b.settledSize + b.unsettledSize))

/-- The remainder of a sell of size `S` after the sizes of a list are taken off one by one, in
order, as the sell loop does with `balRemaining -= ...`. -/
def remainingAfter (S : R) (sizes : List R) : R :=
  sizes.foldl (fun r size => r - size) S

/-- The `lotSize` of the balance of lot `id` on `dt`, and 0 when there is no such balance. -/
def lotSizeOn (s : Store R) (dt : Dt) (id : Id) : R :=
  match getLotBal s id dt with
  | .ok b => b.lotSize
  | .error _ => 0

end Reference

/-! ## Concrete stores used as test inputs (amounts in `ℤ`) -/

namespace Example

/-- An open transaction with only the fields the engine reads filled in. -/
def mkTxn (id parentId : Id) (txnType txnSubType : String) (txnDt settleDt : Dt) (txnSize : ℤ)
    (srcLotId tgtLotId : Id) (settleAmtNet : ℤ) : Txn ℤ :=
  { (Txn.zero : Txn ℤ) with
    id := id, parentId := parentId, txnType := txnType, txnSubType := txnSubType,
    txnDt := txnDt, settleDt := settleDt, txnSize := txnSize, srcLotId := srcLotId,
    tgtLotId := tgtLotId, instId := 7, settleAmtCcyId := 8, settleAmtNet := settleAmtNet,
    state := TxnState.Open }

/-- A balance row. -/
def mkBal (lotId : Id) (lotDt : Dt) (lotSize settledSize unsettledSize : ℤ) : LotBal ℤ :=
  { lotId := lotId, lotDt := lotDt, lotSize := lotSize, settledSize := settledSize,
    unsettledSize := unsettledSize }

/-- A lot row. -/
def mkLot (id instId srcTxnId : Id) (origDt : Dt) (origSize : ℤ) : Lot ℤ :=
  { (Lot.zero : Lot ℤ) with
    id := id, instId := instId, srcTxnId := srcTxnId, origDt := origDt, origSize := origSize }

/-- Scenario S5: an open sell of 100 on day 3 against lots 10 and 11, whose balances on day 3
total 50 + 30 = 80. -/
def shortSellStore : Store ℤ :=
  { txns := [mkTxn 1 0 "trade" "sell" 3 5 100 0 0 5000],
    lots := [mkLot 10 7 90 2 50, mkLot 11 7 91 2 30],
    lotBals := [mkBal 10 3 50 0 50, mkBal 11 3 30 0 30],
    nextId := 100 }

/-- Scenario S1: an open buy of 100 on day 2, settling on day 4 for 10000. -/
def buyStore : Store ℤ :=
  { txns := [mkTxn 1 0 "trade" "buy" 2 4 100 0 0 10000], lots := [], lotBals := [],
    nextId := 100 }

/-- The store after the engine processed the buy of `buyStore`, the two balances rolled forward
to day 4, and an open settle transaction 2 for the buy. -/
def buySettleStore : Store ℤ :=
  let s := (ProcessTxn buyStore { id := 1, lotIds := [] }).2
  { s with
    txns := s.txns ++ [mkTxn 2 1 "settle" "" 4 4 0 0 0 0],
    lotBals := s.lotBals ++ [mkBal 100 4 100 0 100, mkBal 101 4 10000 0 10000] }

/-- Scenario S2: lot 100 of size 100 (all unsettled) on day 3 and an open sell of 40. -/
def sellStore : Store ℤ :=
  { txns := [mkTxn 2 0 "trade" "sell" 3 5 40 0 0 4000],
    lots := [mkLot 100 7 1 2 100],
    lotBals := [mkBal 100 3 100 0 100],
    nextId := 200 }

/-- Scenario S3: the store after the engine processed the sell of `sellStore`, the balances
rolled forward to day 5, and an open settle transaction 3 for the sell. -/
def sellSettleStore : Store ℤ :=
  let s := (ProcessTxn sellStore { id := 2, lotIds := [100] }).2
  { s with
    txns := s.txns ++ [mkTxn 3 2 "settle" "" 5 5 0 0 0 0],
    lotBals := s.lotBals ++ [mkBal 100 5 60 0 60, mkBal 201 5 4000 0 4000] }

/-- A fully settled lot of 100 and an open sell of 100 against it. -/
def settledLotSellStore : Store ℤ :=
  { txns := [mkTxn 2 0 "trade" "sell" 3 5 100 0 0 4000],
    lots := [mkLot 100 7 1 2 100],
    lotBals := [mkBal 100 3 100 100 0],
    nextId := 200 }

/-- A settled cash lot 20 of 50 and a target lot 21 holding 30 unsettled, with an open sweep
from 20 into 21 on day 5. -/
def sweepStore : Store ℤ :=
  { txns := [mkTxn 4 0 "sweep" "in" 5 5 50 20 21 0],
    lots := [mkLot 20 8 90 2 50, mkLot 21 8 91 2 30],
    lotBals := [mkBal 20 5 50 50 0, mkBal 21 5 30 0 30],
    nextId := 300 }

/-- The store of scenario S3 after an operator deleted the sell's payable/receivable lot 201
and its balances: the sell 2 has its allocation of 40 and no lot with `srcTxnId = 2`. -/
def noPayRecStore : Store ℤ :=
  { sellSettleStore with
    lots := sellSettleStore.lots.filter (fun l => l.id ≠ 201),
    lotBals := sellSettleStore.lotBals.filter (fun b => b.lotId ≠ 201) }

/-- Scenario S4 with trade date 2 and settle date 4: the dividend cash lot 30 holds 50 (settled)
on day 4, and the open reinvest 5 buys 2 units funded by lot 30 for 50. -/
def reinvestStore : Store ℤ :=
  { txns := [mkTxn 5 0 "trade" "reinvest" 2 4 2 30 0 50],
    lots := [mkLot 30 8 90 1 50],
    lotBals := [mkBal 30 4 50 50 0],
    nextId := 400 }

/-- A buy of 100 whose state is pending. -/
def pendingStore : Store ℤ :=
  { txns := [{ mkTxn 1 0 "trade" "buy" 2 4 100 0 0 10000 with state := TxnState.Pending }],
    lots := [], lotBals := [], nextId := 100 }

/-- A cash lot 20 that still has 50 unsettled and an open sweep from 20 into 21 on day 5. -/
def unsettledSweepStore : Store ℤ :=
  { txns := [mkTxn 4 0 "sweep" "in" 5 5 50 20 21 0],
    lots := [mkLot 20 8 90 2 50, mkLot 21 8 91 2 30],
    lotBals := [mkBal 20 5 50 0 50, mkBal 21 5 30 30 0],
    nextId := 300 }

/-- A settled cash lot 20 of 50 and a settled lot 21 of 30, with an open sweep of sub-type out
whose `srcLotId` is 21 and whose `tgtLotId` is 20, on day 5. -/
def sweepOutStore : Store ℤ :=
  { txns := [mkTxn 4 0 "sweep" "out" 5 5 50 21 20 0],
    lots := [mkLot 20 8 90 2 50, mkLot 21 8 91 2 30],
    lotBals := [mkBal 20 5 50 50 0, mkBal 21 5 30 30 0],
    nextId := 300 }

/-- The store of scenario S3 when the balance of the payable/receivable lot 201 was not rolled
forward to the settle date, day 5. -/
def payRecNotRolledStore : Store ℤ :=
  { sellSettleStore with
    lotBals := sellSettleStore.lotBals.filter (fun b => ¬ (b.lotId = 201 ∧ b.lotDt = 5)) }

/-- A settled cash lot 20 of 50 and an open sweep on day 5 whose source and target are both
lot 20. -/
def sameLotSweepStore : Store ℤ :=
  { txns := [mkTxn 4 0 "sweep" "in" 5 5 50 20 20 0],
    lots := [mkLot 20 8 90 2 50],
    lotBals := [mkBal 20 5 50 50 0],
    nextId := 300 }

/-- An open trade of 100 without a sub-type, settling for 10000. -/
def plainTradeStore : Store ℤ :=
  { txns := [mkTxn 1 0 "trade" "" 2 4 100 0 0 10000], lots := [], lotBals := [],
    nextId := 100 }

/-- An `UpdateLotBal` that fails and writes nothing. -/
def failingUpdateLotBal (s : Store ℤ) (_ : LotBal ℤ) : Except Fault Unit × Store ℤ :=
  (.error .databaseError, s)

/-- Lot 10 of 60 on day 3 and an open sell of 100 on day 3. -/
def repeatedLotStore : Store ℤ :=
  { txns := [mkTxn 1 0 "trade" "sell" 3 5 100 0 0 5000],
    lots := [mkLot 10 7 90 2 60],
    lotBals := [mkBal 10 3 60 0 60],
    nextId := 100 }

end Example

/-! ## The identifier codec (`internal/vxid/vxid.go`) -/

namespace vxid

/-- Errors of the codec. -/
inductive CodecError where
  | invalidUUID
  | invalidChar
  | overflow
  | lengthMismatch
  | indexOutOfRange
deriving DecidableEq, Repr

/-- The separator between the tag and the short form. -/
def pfxDelim : String := "_"

namespace PfxMap
def Organization : String := "org"
def User : String := "usr"
def Account : String := "acct"
def Portfolio : String := "prt"
def Strategy : String := "str"
def Instrument : String := "inst"
def Transaction : String := "txn"
def Lot : String := "lot"
end PfxMap

/-- The values of `PfxMap`. -/
def pfxTable : List String :=
  [PfxMap.Organization, PfxMap.User, PfxMap.Account, PfxMap.Portfolio, PfxMap.Strategy,
   PfxMap.Instrument, PfxMap.Transaction, PfxMap.Lot]

/-- The `k` least significant digits of `n` in base `b`, least significant first. -/
def toDigits (b : Nat) : Nat → Nat → List Nat
  | 0, _ => []
  | k + 1, n => n % b :: toDigits b k (n / b)

/-- The number with the given base `b` digits, least significant first. -/
def ofDigits (b : Nat) : List Nat → Nat
  | [] => 0
  | d :: ds => d + b * ofDigits b ds

/-- The lower-case hexadecimal digits. -/
def hexChars : List Char := "0123456789abcdef".data

/-- The character of a hexadecimal digit. -/
def hexDigit (d : Nat) : Char := hexChars.getD d '0'

/-- The value of a hexadecimal digit character, in either case. -/
def hexValue (c : Char) : Option Nat :=
  if '0' ≤ c ∧ c ≤ '9' then some (c.toNat - 48)
  else if 'a' ≤ c ∧ c ≤ 'f' then some (c.toNat - 87)
  else if 'A' ≤ c ∧ c ≤ 'F' then some (c.toNat - 55)
  else none

/-- The layout `xxxxxxxx-xxxx-xxxx-xxxx-xxxxxxxxxxxx` of 32 hexadecimal digits. -/
def addDashes (h : List Char) : List Char :=
  h.take 8 ++ '-' :: ((h.drop 8).take 4 ++ '-' :: ((h.drop 12).take 4 ++
    '-' :: ((h.drop 16).take 4 ++ '-' :: h.drop 20)))

/-- The 32 characters of a 36 character string that are not at the positions 8, 13, 18, 23. -/
def dropDashes (s : List Char) : List Char :=
  s.take 8 ++ ((s.drop 9).take 4 ++ ((s.drop 14).take 4 ++ ((s.drop 19).take 4 ++ s.drop 24)))

/-- Modelled from the spec: `UUID.String` of the UUID library (github.com/google/uuid, not part
of the sources), the canonical lower-case form of a 128-bit identifier, most significant digit
first. -/
def uuidString (u : Nat) : List Char :=
  addDashes (((toDigits 16 32 u).reverse).map hexDigit)

/-- Modelled from the spec: `uuid.Parse` of the UUID library (not part of the sources) on the
36 character form: dashes at the positions 8, 13, 18 and 23 and hexadecimal digits elsewhere. -/
def uuidParse (s : List Char) : Option Nat :=
  if s.length = 36 ∧ s.get? 8 = some '-' ∧ s.get? 13 = some '-' ∧ s.get? 18 = some '-' ∧
      s.get? 23 = some '-' then
    ((dropDashes s).mapM hexValue).map (fun ds => ofDigits 16 ds.reverse)
  else none

/-- Modelled from the spec: the 57 character alphabet of the short-uuid library
(github.com/lithammer/shortuuid, not part of the sources). -/
def alphabet : List Char := "23456789ABCDEFGHJKLMNPQRSTUVWXYZabcdefghijkmnopqrstuvwxyz".data

/-- Modelled from the spec: the fixed length of the short form. -/
def encodedLength : Nat := 22

/-- The alphabet character of a base 57 digit. -/
def alphaChar (d : Nat) : Char := alphabet.getD d '2'

/-- The base 57 digit of an alphabet character. -/
def alphaIndex (c : Char) : Option Nat :=
  if alphabet.indexOf c < alphabet.length then some (alphabet.indexOf c) else none

/-- Modelled from the spec: the short-uuid encoder, base 57 over `alphabet`, least significant
digit first, padded with the first alphabet character to `encodedLength` characters (the digit
order is the one fixed by the vector of `vxid_test.go`). -/
def shortEncode (u : Nat) : List Char :=
  (toDigits alphabet.length encodedLength u).map alphaChar

/-- Modelled from the spec: the short-uuid decoder; a character outside the alphabet or a value
that does not fit 128 bits is an error. -/
def shortDecode (s : List Char) : Except CodecError Nat :=
  match s.mapM alphaIndex with
  | none => .error .invalidChar
  | some ds =>
    if ofDigits alphabet.length ds < 2 ^ 128 then .ok (ofDigits alphabet.length ds)
    else .error .overflow

/-- The components of `s` between the occurrences of `sep` (`strings.Split`). -/
def split (sep : Char) : List Char → List (List Char)
  | [] => [[]]
  | c :: cs =>
    if c = sep then [] :: split sep cs
    else
      match split sep cs with
      | [] => [[c]]
      | x :: xs => (c :: x) :: xs

/-- `Encode` converts an internal id (vid) to an external id (vxid). -/
def Encode (vid pfx : String) : Except CodecError String :=
  if vid = "" then .ok ""
  else
    let pfx' := if pfx ≠ "" then pfx ++ pfxDelim else pfx
    match uuidParse vid.data with
    | none => .error .invalidUUID
    | some vuuid => .ok (pfx' ++ String.mk (shortEncode vuuid))

/-- `Decode` converts an external id (vxid) to an internal id (vid). -/
def Decode (vxid : String) : Except CodecError String :=
  if vxid = "" then .ok ""
  else
    let vxidComponents := split '_' vxid.data
    let vxidIndex := if vxidComponents.length > 1 then 1 else 0
    match shortDecode (vxidComponents.getD vxidIndex []) with
    | .error e => .error e
    | .ok vuuid => .ok (String.mk (uuidString vuuid))

/-- The loop of `Encodes`: the i-th id is encoded with `pfxs[i]` when there is more than one
tag, and with the first tag `pfx` otherwise. -/
def encodesLoop (pfx : String) (many : Bool) : List String → List String →
    Except CodecError (List String)
  | [], _ => .ok []
  | vid :: vids, pfxs =>
    match Encode vid (if many then pfxs.headD "" else pfx) with
    | .error e => .error e
    | .ok vxid =>
      match encodesLoop pfx many vids pfxs.tail with
      | .error e => .error e
      | .ok vxids => .ok (vxid :: vxids)

/-- `Encodes` converts a slice of internal ids into a slice of external ids.  `vids[0]` and
`pfxs[0]` are read without a length check: on an empty slice they panic
(`CodecError.indexOutOfRange`). -/
def Encodes (vids pfxs : List String) : Except CodecError (List String) :=
  match vids with
  | [] => .error .indexOutOfRange
  | vid0 :: _ =>
    if vid0 = "" then .ok vids
    else if pfxs.length > 1 ∧ vids.length ≠ pfxs.length then .error .lengthMismatch
    else
      match pfxs with
      | [] => .error .indexOutOfRange
      | pfx :: _ => encodesLoop pfx (decide (pfxs.length > 1)) vids pfxs

/-- The loop of `Decodes`. -/
def decodesLoop : List String → Except CodecError (List String)
  | [] => .ok []
  | vxid :: vxids =>
    match Decode vxid with
    | .error e => .error e
    | .ok vid =>
      match decodesLoop vxids with
      | .error e => .error e
      | .ok vids => .ok (vid :: vids)

/-- `Decodes` converts a slice of external ids into a slice of internal ids.  `vxids[0]` is
read without a length check; when it is empty the slice is returned as it came. -/
def Decodes (vxids : List String) : Except CodecError (List String) :=
  match vxids with
  | [] => .error .indexOutOfRange
  | vxid0 :: _ =>
    if vxid0 = "" then .ok vxids
    else decodesLoop vxids

end vxid

/-! ## Entity stores with a parent reference (`port/store`, `acct/store`, `strat/store`) -/

namespace EntityStore

/-- Errors of an entity store. -/
inductive StoreError where
  | codec (e : vxid.CodecError)
  | notFound
deriving DecidableEq, Repr

/-- Modelled from the spec: the rows `storage.Port`, `storage.Acct` and `storage.Strat`
(generated code, absent from the sources): the id, the optional parent reference, and `name`
standing for the columns that are not references.  In a table the ids are internal. -/
structure Row where
  id : String
  parentId : String
  name : String
deriving DecidableEq, Repr

/-- Modelled from the spec: the field mask overlay (`fieldmask_utils.StructToStruct` with the
camel-cased paths of `casing.Camel`, both absent from the sources): every field of `dst` whose
path is in the mask is replaced by the field of `src`; a mask without paths names every
field. -/
def StructToStruct (fieldMask : List String) (src dst : Row) : Row :=
  { id := if fieldMask.isEmpty || fieldMask.contains "id" then src.id else dst.id,
    parentId :=
      if fieldMask.isEmpty || fieldMask.contains "parentId" then src.parentId else dst.parentId,
    name := if fieldMask.isEmpty || fieldMask.contains "name" then src.name else dst.name }

/-- The common shape of `GetPort`, `GetAcct` and `GetStrat`: decode the id, select the row,
answer with the id as it was asked and the parent encoded with the tag `parentPfx`. -/
def getRow (parentPfx : String) (db : List Row) (id : String) : Except StoreError Row :=
  match vxid.Decode id with
  | .error e => .error (.codec e)
  | .ok vid =>
    match db.find? (fun r => r.id = vid) with
    | none => .error .notFound
    | some row =>
      if row.parentId ≠ "" then
        match vxid.Encode row.parentId parentPfx with
        | .error e => .error (.codec e)
        | .ok x => .ok { row with id := id, parentId := x }
      else .ok { row with id := id }

/-- The common shape of `ListPorts`, `ListAccts` and `ListStrats`: every row with its id encoded
with the tag `idPfx` and its parent, when it has one, with the tag `parentPfx`. -/
def listRows (idPfx parentPfx : String) (db : List Row) : Except StoreError (List Row) :=
  db.mapM (fun row =>
    match vxid.Encode row.id idPfx with
    | .error e => .error (.codec e)
    | .ok xid =>
      if row.parentId ≠ "" then
        match vxid.Encode row.parentId parentPfx with
        | .error e => .error (.codec e)
        | .ok x => .ok { row with id := xid, parentId := x }
      else .ok { row with id := xid })

/-- `GetPort`: the parent is encoded with `PfxMap.Portfolio`. -/
def GetPort (db : List Row) (id : String) : Except StoreError Row :=
  getRow vxid.PfxMap.Portfolio db id

/-- `GetAcct`: the parent is encoded with `PfxMap.Account`. -/
def GetAcct (db : List Row) (id : String) : Except StoreError Row :=
  getRow vxid.PfxMap.Account db id

/-- `GetStrat`: the parent is encoded with `PfxMap.Organization`. -/
def GetStrat (db : List Row) (id : String) : Except StoreError Row :=
  getRow vxid.PfxMap.Organization db id

/-- `ListStrats`: id and parent are encoded with `PfxMap.Strategy`. -/
def ListStrats (db : List Row) : Except StoreError (List Row) :=
  listRows vxid.PfxMap.Strategy vxid.PfxMap.Strategy db

/-- The end of every `Update`: decode the id of the target, decode its parent when
`decodeParent` holds, and hand the row to the database (`WherePK().Update()`).  The result is
the row handed over and the table afterwards. -/
def writeRow (db : List Row) (tgt : Row) (decodeParent : Bool) :
    Except StoreError (Row × List Row) :=
  match vxid.Decode tgt.id with
  | .error e => .error (.codec e)
  | .ok vid =>
    if decodeParent then
      match vxid.Decode tgt.parentId with
      | .error e => .error (.codec e)
      | .ok pid =>
        let row : Row := { tgt with id := vid, parentId := pid }
        .ok (row, db.map (fun r => if r.id = row.id then row else r))
    else
      let row : Row := { tgt with id := vid }
      .ok (row, db.map (fun r => if r.id = row.id then row else r))

/-- `UpdatePort`: with a field mask the stored portfolio is loaded with `GetPort` and overlaid;
the parent of the target is decoded when the parent of the request body `port` is not empty
(`if port.GetParentId() != ""`). -/
def UpdatePort (db : List Row) (port : Row) (fieldMask : Option (List String)) :
    Except StoreError (Row × List Row) :=
  match fieldMask with
  | none => writeRow db port (port.parentId ≠ "")
  | some paths =>
    match GetPort db port.id with
    | .error e => .error e
    | .ok tgtPort =>
      writeRow db (StructToStruct paths port tgtPort) (port.parentId ≠ "")

/-- `UpdateAcct`: as `UpdatePort`, but the parent of the target is decoded when the parent of
the target `tgtAcct` is not empty (`if tgtAcct.GetParentId() != ""`). -/
def UpdateAcct (db : List Row) (acct : Row) (fieldMask : Option (List String)) :
    Except StoreError (Row × List Row) :=
  match fieldMask with
  | none => writeRow db acct (acct.parentId ≠ "")
  | some paths =>
    match GetAcct db acct.id with
    | .error e => .error e
    | .ok tgtAcct =>
      let tgt := StructToStruct paths acct tgtAcct
      writeRow db tgt (tgt.parentId ≠ "")

/-- A table with a parent row and a child row `…21` whose parent is the identifier of
`vxid_test.go`. -/
def sampleTable : List Row :=
  [{ id := "9dd05581-2562-4142-89b5-eaa601b8dcda", parentId := "", name := "parent" },
   { id := "00000000-0000-0000-0000-000000000021",
     parentId := "9dd05581-2562-4142-89b5-eaa601b8dcda", name := "child" }]

end EntityStore

/-! ## Service facade (`*/service/service.go`) and the rest of the lot store -/

section Facade

variable {R : Type} [LinearOrderedRing R]

/-- The message `storage.Lot`: the lot columns and the list `Bal` of its balances. -/
structure LotMsg (R : Type) where
  lot : Lot R
  bal : List (LotBal R)
deriving DecidableEq, Repr

/-- The loop of the balance branch of the store's `CreateLot`: every balance of the body is
inserted for the lot with settled size 0 and all of it unsettled; a duplicate key ends the
loop with the rows inserted so far.  The result lists the balances as the loop left them. -/
def insertLotBals (lotId : Id) :
    List (LotBal R) → Store R → Except Fault (List (LotBal R)) × Store R
  | [], s => (.ok [], s)
  | lotBal :: rest, s =>
    let row : LotBal R :=
      { lotBal with lotId := lotId, settledSize := 0, unsettledSize := lotBal.lotSize }
    if s.lotBals.any (fun b => b.lotId = row.lotId ∧ b.lotDt = row.lotDt) then
      (.error .duplicateKey, s)
    else
      match insertLotBals lotId rest { s with lotBals := s.lotBals ++ [row] } with
      | (.error e, s1) => (.error e, s1)
      | (.ok rows, s1) => (.ok (row :: rows), s1)

/-- The store's `CreateLot` with both branches: a body with balances inserts the balances for
the lot id of the body, a body without balances inserts the lot (`createLot`). -/
def storeCreateLot (s : Store R) (lot : LotMsg R) : Except Fault (LotMsg R) × Store R :=
  if lot.bal.length > 0 then
    match insertLotBals lot.lot.id lot.bal s with
    | (.error e, s1) => (.error e, s1)
    | (.ok rows, s1) => (.ok { lot := lot.lot, bal := rows }, s1)
  else
    match createLot s lot.lot with
    | (.error e, s1) => (.error e, s1)
    | (.ok row, s1) => (.ok { lot := row, bal := [] }, s1)

end Facade

namespace Service

/-- The handler shared by `CreateOrg`, `CreateAcct`, `CreatePort`, `CreateStrat`, `CreateInst` and
`CreateTxn`, over the store `storeCreate` of the entity with state `σ`: a nil request and a body
with a non-empty id (`hasId`) are answered with InvalidArgument, every other body goes to the
store. -/
def CreateEntity {β σ : Type} (hasId : β → Bool) (storeCreate : σ → β → Except Fault β × σ)
    (s : σ) (request : Option β) : Except Fault β × σ :=
  match request with
  | none => (.error .invalidArgument, s)
  | some body =>
    if hasId body then (.error .invalidArgument, s)
    else storeCreate s body

/-- `CreateLot` of the lot service: the body is refused when it has an id and no balance
(`(id != "") && (len(bal) == 0)`). -/
def CreateLot {R σ : Type} (storeCreate : σ → LotMsg R → Except Fault (LotMsg R) × σ)
    (s : σ) (request : Option (LotMsg R)) : Except Fault (LotMsg R) × σ :=
  match request with
  | none => (.error .invalidArgument, s)
  | some body =>
    if body.lot.id ≠ 0 ∧ body.bal.length = 0 then (.error .invalidArgument, s)
    else storeCreate s body

/-- The handler shared by `UpdateOrg`, `UpdateAcct`, `UpdateInst`, `UpdateTxn` and `UpdateLot`:
the id of the body is overwritten with the id of the request (`setId`), then the body and the
paths of the update mask go to the store. -/
def UpdateEntity {β ι ρ : Type} (setId : β → ι → β)
    (storeUpdate : β → Option (List String) → ρ) (id : ι) (body : β)
    (paths : Option (List String)) : ρ :=
  storeUpdate (setId body id) paths

/-- `UpdatePort` of the portfolio service: the body and the paths go to the store as they
came; the id of the request is not used. -/
def UpdatePort {ρ : Type} (storeUpdate : EntityStore.Row → Option (List String) → ρ)
    (_id : String) (port : EntityStore.Row) (paths : Option (List String)) : ρ :=
  storeUpdate port paths

/-- `UpdateStrat` of the strategy service: as `UpdatePort`. -/
def UpdateStrat {ρ : Type} (storeUpdate : EntityStore.Row → Option (List String) → ρ)
    (_id : String) (strat : EntityStore.Row) (paths : Option (List String)) : ρ :=
  storeUpdate strat paths

/-- `UpdateAcct` of the account service, an instance of `UpdateEntity`. -/
def UpdateAcct {ρ : Type} (storeUpdate : EntityStore.Row → Option (List String) → ρ)
    (id : String) (acct : EntityStore.Row) (paths : Option (List String)) : ρ :=
  UpdateEntity (fun (b : EntityStore.Row) (i : String) => { b with id := i }) storeUpdate id acct
    paths

end Service

/-! ## List filters (`TxnFilter`, `LotFilter`) and the list operations of the stores -/

/-- `TxnFilter` of `txn/store/store.go`; a field is `none` when the slice is nil. -/
structure TxnFilter where
  ID : Option (List Id)
  TxnType : Option (List String)
  TxnTypeNEQ : Option (List String)
  ParentID : Option (List Id)
deriving DecidableEq, Repr

/-- `LotFilter` of `lot/store/store.go`; a field is `none` when the slice is nil. -/
structure LotFilter where
  ID : Option (List Id)
  SrcTxnID : Option (List Id)
deriving DecidableEq, Repr

/-- The value of `new(TxnFilter)`: every slice nil. -/
def TxnFilter.zero : TxnFilter :=
  { ID := none, TxnType := none, TxnTypeNEQ := none, ParentID := none }

/-- The value of `new(LotFilter)`: every slice nil. -/
def LotFilter.zero : LotFilter :=
  { ID := none, SrcTxnID := none }

/-- Outcome of `json.Unmarshal(text, &f)` for `f` a pointer to a freshly allocated filter:
`rejected` when the decoder returns an error and leaves the filter as allocated (the text is not
JSON, or is a JSON value other than an object or `null`), `null` when the text is the literal
`null` (the pointer is set to nil, no error), `value f` when the fields were filled. -/
inductive Unmarshalled (F : Type) where
  | rejected
  | null
  | value (f : F)
deriving DecidableEq, Repr

/-- `vxid.Decodes` on the identifiers of a filter or of a lot list: `vxids[0]` is read without
a length check, so the empty slice panics.  Rows are keyed by their identifier here, so decoding
a well-formed identifier gives the key itself.  A slice whose first id is empty comes back
undecoded: what reaches the query are external ids and empty ids, none of which is the key of
a row, so the predicate built from it selects no row; that is the empty list of keys. -/
def decodeIds (ids : List Id) : Except Fault (List Id) :=
  match ids with
  | [] => .error .indexOutOfRange
  | id0 :: _ => if id0 = 0 then .ok [] else .ok ids

section Filters

variable {R : Type} [LinearOrderedRing R]

/-- `TxnFilter.query` followed by the select: each slice that is not nil adds a membership
predicate; the identifier slices go through `Decodes` first. -/
def TxnFilter.query (f : TxnFilter) (rows : List (Txn R)) : Except Fault (List (Txn R)) :=
  let byId : Except Fault (List (Txn R)) :=
    match f.ID with
    | none => .ok rows
    | some ids =>
      match decodeIds ids with
      | .error e => .error e
      | .ok vids => .ok (rows.filter (fun t => vids.contains t.id))
  match byId with
  | .error e => .error e
  | .ok r1 =>
    let r2 :=
      match f.TxnType with
      | none => r1
      | some ts => r1.filter (fun t => ts.contains t.txnType)
    let r3 :=
      match f.TxnTypeNEQ with
      | none => r2
      | some ts => r2.filter (fun t => !ts.contains t.txnType)
    match f.ParentID with
    | none => .ok r3
    | some ids =>
      match decodeIds ids with
      | .error e => .error e
      | .ok vids => .ok (r3.filter (fun t => vids.contains t.parentId))

/-- `LotFilter.query` followed by the select. -/
def LotFilter.query (f : LotFilter) (rows : List (Lot R)) : Except Fault (List (Lot R)) :=
  let byId : Except Fault (List (Lot R)) :=
    match f.ID with
    | none => .ok rows
    | some ids =>
      match decodeIds ids with
      | .error e => .error e
      | .ok vids => .ok (rows.filter (fun l => vids.contains l.id))
  match byId with
  | .error e => .error e
  | .ok r1 =>
    match f.SrcTxnID with
    | none => .ok r1
    | some ids =>
      match decodeIds ids with
      | .error e => .error e
      | .ok vids => .ok (r1.filter (fun l => vids.contains l.srcTxnId))

/-- `ListTxns` of the transaction store, with `unmarshal` for `json.Unmarshal` into the filter.
The error of `json.Unmarshal` is not looked at: a rejected text leaves the zero filter, and the
literal `null` leaves a nil filter whose fields the query then reads. -/
def ListTxns (unmarshal : String → Unmarshalled TxnFilter) (s : Store R) (filter : String) :
    Except Fault (List (Txn R)) :=
  match unmarshal filter with
  | .rejected => TxnFilter.zero.query s.txns
  | .null => .error .nilDereference
  | .value f => f.query s.txns

/-- `ListLots` of the lot store, with `unmarshal` as in `ListTxns`. -/
def ListLots (unmarshal : String → Unmarshalled LotFilter) (s : Store R) (filter : String) :
    Except Fault (List (Lot R)) :=
  match unmarshal filter with
  | .rejected => LotFilter.zero.query s.lots
  | .null => .error .nilDereference
  | .value f => f.query s.lots

end Filters

/-! ## Calendar dates and the lot roll (`RollLots` of `lot/service/service.go`)

The Go package `time` and the date type of the database are not part of the repository.  The
calendar below is modelled from the spec ("dates are ISO calendar dates; arithmetic is +1 day
in UTC"): the text of a date has the layout `2006-01-02`, and the value of a `date` column is
the number of days since `0000-01-01` in the proleptic Gregorian calendar. -/

/-- A calendar date. -/
structure Date where
  year : Nat
  month : Nat
  day : Nat
deriving DecidableEq, Repr

/-- Modelled from the spec: the leap years of the Gregorian calendar. -/
def isLeapYear (y : Nat) : Bool :=
  y % 4 = 0 ∧ (y % 100 ≠ 0 ∨ y % 400 = 0)

/-- Modelled from the spec: the number of days of month `m` in year `y`. -/
def daysInMonth (y m : Nat) : Nat :=
  if m = 2 then (if isLeapYear y then 29 else 28)
  else if m = 4 ∨ m = 6 ∨ m = 9 ∨ m = 11 then 30
  else 31

/-- Modelled from the spec: the dates of the calendar with a year of four digits, from year 1
on (what both `time.Parse` with the layout `2006-01-02` and the database accept). -/
def Date.Valid (d : Date) : Prop :=
  1 ≤ d.year ∧ d.year ≤ 9999 ∧ 1 ≤ d.month ∧ d.month ≤ 12 ∧ 1 ≤ d.day ∧
    d.day ≤ daysInMonth d.year d.month

instance (d : Date) : Decidable d.Valid := by
  unfold Date.Valid
  infer_instance

/-- Modelled from the spec: `AddDate(0, 0, 1)`, the next day of the calendar. -/
def nextDay (d : Date) : Date :=
  if d.day < daysInMonth d.year d.month then { d with day := d.day + 1 }
  else if d.month < 12 then { d with month := d.month + 1, day := 1 }
  else { year := d.year + 1, month := 1, day := 1 }

/-- The number of days of year `y` before its month `m`. -/
def daysBeforeMonth (y : Nat) : Nat → Nat
  | 0 => 0
  | 1 => 0
  | m + 2 => daysBeforeMonth y (m + 1) + daysInMonth y (m + 1)

/-- The number of days from `0000-01-01` to the first day of year `y`: 365 for every year
before `y` and one more for each leap year among them. -/
def daysBeforeYear (y : Nat) : Nat :=
  365 * y + (y + 3) / 4 - (y + 99) / 100 + (y + 399) / 400

/-- The value of a `date` column: the number of days from `0000-01-01` to the date. -/
def dayNumber (d : Date) : Dt :=
  daysBeforeYear d.year + daysBeforeMonth d.year d.month + (d.day - 1)

/-- The character of a decimal digit. -/
def decChar (d : Nat) : Char := "0123456789".data.getD d '0'

/-- The value of a decimal digit character. -/
def decValue (c : Char) : Option Nat :=
  if '0' ≤ c ∧ c ≤ '9' then some (c.toNat - 48) else none

/-- The `k` decimal digits of `n`, most significant first. -/
def decDigits (k n : Nat) : List Char :=
  (vxid.toDigits 10 k n).reverse.map decChar

/-- The number written by a list of decimal digit characters. -/
def decNumber (cs : List Char) : Option Nat :=
  (cs.mapM decValue).map (fun ds => vxid.ofDigits 10 ds.reverse)

/-- The text of a date in the layout `2006-01-02`. -/
def formatDate (d : Date) : String :=
  String.mk (decDigits 4 d.year ++ '-' :: (decDigits 2 d.month ++ '-' :: decDigits 2 d.day))

/-- Modelled from the spec: `time.Parse("2006-01-02", dt)`: four digits, two digits and two
digits between dashes, with the month in 1..12 and the day within the month. -/
def parseDate (dt : String) : Option Date :=
  match dt.data with
  | [y1, y2, y3, y4, '-', m1, m2, '-', d1, d2] =>
    match decNumber [y1, y2, y3, y4], decNumber [m1, m2], decNumber [d1, d2] with
    | some y, some m, some d =>
      if 1 ≤ m ∧ m ≤ 12 ∧ 1 ≤ d ∧ d ≤ daysInMonth y m then
        some { year := y, month := m, day := d }
      else none
    | _, _, _ => none
  | _ => none

/-- Modelled from the spec: the date the database reads from the text of a query parameter,
an ISO calendar date from year 1 on, as the value of the column. -/
def dateInput (dt : String) : Option Dt :=
  match parseDate dt with
  | some d => if 1 ≤ d.year then some (dayNumber d) else none
  | none => none

/-- The optional lot list of `ListLotBals` and `DeleteLotBal` after `vxid.Decodes`; a nil list
is not decoded. -/
def decodeLots (ids : Option (List Id)) : Except Fault (Option (List Id)) :=
  match ids with
  | none => .ok none
  | some l =>
    match decodeIds l with
    | .error e => .error e
    | .ok vids => .ok (some vids)

/-- The predicate `lot_id = ANY (vids)` of the two queries, true for every lot when no list was
passed. -/
def lotSelected (vids : Option (List Id)) (id : Id) : Bool :=
  match vids with
  | none => true
  | some l => l.contains id

/-- `RollLotsRequest`; `lots` is `none` when the list is nil. -/
structure RollLotsRequest where
  dt : String
  direction : String
  lots : Option (List Id)
deriving DecidableEq, Repr

section Roll

variable {R : Type} [LinearOrderedRing R]

/-- `ListLotBals`: the balance rows dated `dt`, of the lots of the list when one is passed, in
table order. -/
def listLotBals (s : Store R) (dt : String) (ids : Option (List Id)) :
    Except Fault (List (LotBal R)) :=
  match decodeLots ids with
  | .error e => .error e
  | .ok vids =>
    match dateInput dt with
    | none => .error .databaseError
    | some day => .ok (s.lotBals.filter (fun b => b.lotDt = day && lotSelected vids b.lotId))

/-- `CreateLotBal`: insert the balance row; the database rejects a duplicate primary key
`(lotId, lotDt)`. -/
def createLotBal (s : Store R) (lotBal : LotBal R) : Except Fault Unit × Store R :=
  if s.lotBals.any (fun b => b.lotId = lotBal.lotId ∧ b.lotDt = lotBal.lotDt) then
    (.error .duplicateKey, s)
  else (.ok (), { s with lotBals := s.lotBals ++ [lotBal] })

/-- `DeleteLotBal`: delete the balance rows dated `dt`, of the lots of the list when one is
passed. -/
def deleteLotBal (s : Store R) (dt : String) (ids : Option (List Id)) :
    Except Fault Unit × Store R :=
  match decodeLots ids with
  | .error e => (.error e, s)
  | .ok vids =>
    match dateInput dt with
    | none => (.error .databaseError, s)
    | some day =>
      (.ok (), { s with
        lotBals := s.lotBals.filter (fun b => !(b.lotDt = day && lotSelected vids b.lotId)) })

/-- The loop of the forward roll: a balance with a component that is not zero is inserted again
under the next date, a balance of three zeros is skipped. -/
def rollLoop (nextDt : Dt) : List (LotBal R) → Store R → Except Fault Unit × Store R
  | [], s => (.ok (), s)
  | lotBal :: rest, s =>
    if lotBal.lotSize ≠ 0 ∨ lotBal.settledSize ≠ 0 ∨ lotBal.unsettledSize ≠ 0 then
      match createLotBal s { lotBal with lotDt := nextDt } with
      | (.error e, s1) => (.error e, s1)
      | (.ok _, s1) => rollLoop nextDt rest s1
    else rollLoop nextDt rest s

/-- `RollLots`: an empty date is refused; the direction `back` deletes the rows of the date;
every other direction (the default is `forward`) lists the rows of the date, computes the next
day and inserts the rows again under it. -/
def RollLots (s : Store R) (request : RollLotsRequest) : Except Fault String × Store R :=
  if request.dt = "" then (.error .invalidArgument, s)
  else
    let direction := if request.direction ≠ "" then request.direction else "forward"
    if direction = "back" then
      match deleteLotBal s request.dt request.lots with
      | (.error e, s1) => (.error e, s1)
      | (.ok _, s1) => (.ok "completed", s1)
    else
      match listLotBals s request.dt request.lots with
      | .error e => (.error e, s)
      | .ok lotBals =>
        match parseDate request.dt with
        | none => (.error .parseError, s)
        | some d =>
          match rollLoop (dayNumber (nextDay d)) lotBals s with
          | (.error e, s1) => (.error e, s1)
          | (.ok _, s1) => (.ok "completed", s1)

end Roll

namespace Example

/-- Scenario S6 on the 28th of February 2024: lot 10 holds 10, lot 11 holds nothing. -/
def rollStore : Store ℤ :=
  { txns := [], lots := [mkLot 10 7 90 2 10, mkLot 11 7 91 2 0],
    lotBals := [mkBal 10 (dayNumber { year := 2024, month := 2, day := 28 }) 10 0 10,
                mkBal 11 (dayNumber { year := 2024, month := 2, day := 28 }) 0 0 0],
    nextId := 100 }

end Example

end Varangian

/-! # Theorems -/

set_option linter.unusedSectionVars false

namespace Varangian

open Example

/-! ## Lemmas on the store operations and the engine loops -/

section EngineLemmas

variable {R : Type} [LinearOrderedRing R]

theorem getLotBal_ok {s : Store R} {id : Id} {dt : Dt} {b : LotBal R}
    (h : getLotBal s id dt = .ok b) : b ∈ s.lotBals ∧ b.lotId = id ∧ b.lotDt = dt := by
  unfold getLotBal at h
  split at h
  · next t ht =>
    injection h with h
    subst h
    have h1 := List.find?_some ht
    have h2 := List.mem_of_find?_eq_some ht
    simp at h1
    exact ⟨h2, h1.1, h1.2⟩
  · cases h

theorem find_update_same (l : List (LotBal R)) (b b0 : LotBal R)
    (h : l.find? (fun x => x.lotId = b.lotId ∧ x.lotDt = b.lotDt) = some b0) :
    (l.map (fun x => if x.lotId = b.lotId ∧ x.lotDt = b.lotDt then b else x)).find?
      (fun x => x.lotId = b.lotId ∧ x.lotDt = b.lotDt) = some b := by
  induction l with
  | nil => simp at h
  | cons x xs ih =>
    by_cases hx : x.lotId = b.lotId ∧ x.lotDt = b.lotDt
    · simp [List.find?, hx]
    · have h' : xs.find? (fun x => x.lotId = b.lotId ∧ x.lotDt = b.lotDt) = some b0 := by
        simpa [List.find?, hx] using h
      simpa [List.find?, hx] using ih h'

theorem find_update_other (l : List (LotBal R)) (b : LotBal R) (id : Id) (dt : Dt)
    (h : ¬ (b.lotId = id ∧ b.lotDt = dt)) :
    (l.map (fun x => if x.lotId = b.lotId ∧ x.lotDt = b.lotDt then b else x)).find?
      (fun x => x.lotId = id ∧ x.lotDt = dt) = l.find? (fun x => x.lotId = id ∧ x.lotDt = dt) := by
  induction l with
  | nil => rfl
  | cons x xs ih =>
    by_cases hx : x.lotId = b.lotId ∧ x.lotDt = b.lotDt
    · have hx' : ¬ (x.lotId = id ∧ x.lotDt = dt) := by
        rw [hx.1, hx.2]; exact h
      simp only [List.map_cons, if_pos hx, List.find?_cons, decide_eq_false h, decide_eq_false hx']
      exact ih
    · simp only [List.map_cons, if_neg hx, List.find?_cons]
      rw [ih]

theorem getLotBal_updateLotBal_same {s : Store R} {b b0 : LotBal R}
    (h : getLotBal s b.lotId b.lotDt = .ok b0) :
    getLotBal (updateLotBal s b) b.lotId b.lotDt = .ok b := by
  unfold getLotBal at h ⊢
  split at h
  · next t ht =>
    simp only [updateLotBal]
    rw [find_update_same _ _ _ ht]
  · cases h

theorem getLotBal_updateLotBal_other {s : Store R} {b : LotBal R} {id : Id} {dt : Dt}
    (h : ¬ (b.lotId = id ∧ b.lotDt = dt)) :
    getLotBal (updateLotBal s b) id dt = getLotBal s id dt := by
  unfold getLotBal
  simp only [updateLotBal]
  rw [find_update_other _ _ _ _ h]

theorem allocTot_foldl (l : List (Txn R)) (a : R) :
    l.foldl (fun acc allocTxn => acc + allocTxn.txnSize) a = a + (l.map Txn.txnSize).sum := by
  induction l generalizing a with
  | nil => simp
  | cons x xs ih => simp [List.foldl, ih, add_assoc]

theorem allocTotTxnSize_eq_sum (l : List (Txn R)) :
    allocTotTxnSize l = (l.map Txn.txnSize).sum := by
  simp [allocTotTxnSize, allocTot_foldl]

theorem getTxn_ok {s : Store R} {id : Id} {t : Txn R} (h : getTxn s id = .ok t) :
    t ∈ s.txns ∧ t.id = id := by
  unfold getTxn at h
  split at h
  · next t' ht =>
    injection h with h
    subst h
    have h1 := List.find?_some ht
    simp at h1
    exact ⟨List.mem_of_find?_eq_some ht, h1⟩
  · cases h

theorem createLot_ok {s s' : Store R} {lot l : Lot R} (h : createLot s lot = (.ok l, s')) :
    l = { lot with id := if lot.id = 0 then s.nextId else lot.id } ∧
    s' = { txns := s.txns, lots := s.lots ++ [l],
           lotBals := s.lotBals ++ [{ lotId := l.id, lotDt := l.origDt, lotSize := l.origSize,
                                       settledSize := 0, unsettledSize := l.origSize }],
           nextId := s.nextId + 1 } := by
  unfold createLot at h
  simp only at h
  by_cases h1 : (s.lots.any fun l => l.id = if lot.id = 0 then s.nextId else lot.id) = true
  · rw [if_pos h1] at h
    cases h
  · rw [if_neg h1] at h
    by_cases h2 : ((s.lotBals.any fun b => b.lotId = (if lot.id = 0 then s.nextId else lot.id) ∧
        b.lotDt = lot.origDt) = true)
    · rw [if_pos h2] at h
      cases h
    · rw [if_neg h2] at h
      injection h with h3 h4
      injection h3 with h3
      subst h3
      subst h4
      exact ⟨rfl, rfl⟩

theorem settleDelta_cons (origTxn a : Txn R) (rest : List (Txn R)) (lot : Id) :
    settleDelta origTxn (a :: rest) lot =
      (if a.tgtLotId = lot then
        (if origTxn.txnSubType = TxnSubType.Sell then -a.txnSize else a.txnSize) else 0)
      + settleDelta origTxn rest lot := by
  unfold settleDelta
  by_cases h : a.tgtLotId = lot
  · simp [List.filter, h]
  · simp [List.filter, h]

theorem settleLoop_spec (txn origTxn : Txn R) (allocTxns : List (Txn R)) :
    ∀ s : Store R, (∀ a ∈ allocTxns, ∃ b, getLotBal s a.tgtLotId txn.settleDt = .ok b) →
    ∃ s' : Store R, settleLoop txn origTxn allocTxns s = (.ok (), s') ∧
      s'.txns = s.txns ∧ s'.lots = s.lots ∧ s'.nextId = s.nextId ∧
      (∀ lot b, getLotBal s lot txn.settleDt = .ok b →
        getLotBal s' lot txn.settleDt =
          .ok { b with settledSize := b.settledSize + settleDelta origTxn allocTxns lot }) ∧
      (∀ lot dt, dt ≠ txn.settleDt → getLotBal s' lot dt = getLotBal s lot dt) := by
  induction allocTxns with
  | nil =>
    intro s _
    refine ⟨s, rfl, rfl, rfl, rfl, ?_, fun _ _ _ => rfl⟩
    intro lot b hb
    simp [settleDelta, hb]
  | cons a rest ih =>
    intro s hbal
    obtain ⟨b0, hb0⟩ := hbal a (List.mem_cons_self _ _)
    obtain ⟨-, hid0, hdt0⟩ := getLotBal_ok hb0
    let b1 : LotBal R :=
      { b0 with settledSize := b0.settledSize +
          a.txnSize * (if origTxn.txnSubType = TxnSubType.Sell then -1 else 1) }
    have hkey1 : getLotBal (updateLotBal s b1) a.tgtLotId txn.settleDt = .ok b1 := by
      have := @getLotBal_updateLotBal_same R _ s b1 b0
        (by show getLotBal s b0.lotId b0.lotDt = .ok b0; rw [hid0, hdt0]; exact hb0)
      have e1 : b1.lotId = a.tgtLotId := hid0
      have e2 : b1.lotDt = txn.settleDt := hdt0
      rw [e1, e2] at this
      exact this
    have hother : ∀ lot dt, ¬ (a.tgtLotId = lot ∧ txn.settleDt = dt) →
        getLotBal (updateLotBal s b1) lot dt = getLotBal s lot dt := by
      intro lot dt h
      apply getLotBal_updateLotBal_other
      show ¬ (b0.lotId = lot ∧ b0.lotDt = dt)
      rw [hid0, hdt0]
      exact h
    have hbal1 : ∀ a' ∈ rest, ∃ b, getLotBal (updateLotBal s b1) a'.tgtLotId txn.settleDt = .ok b := by
      intro a' ha'
      by_cases h : a.tgtLotId = a'.tgtLotId
      · exact ⟨b1, by rw [← h]; exact hkey1⟩
      · obtain ⟨b, hb⟩ := hbal a' (List.mem_cons_of_mem _ ha')
        exact ⟨b, by rw [hother _ _ (fun hh => h hh.1)]; exact hb⟩
    obtain ⟨s', hrun, htx, hlots, hnext, hsame, hdiff⟩ := ih (updateLotBal s b1) hbal1
    refine ⟨s', ?_, htx, hlots, hnext, ?_, ?_⟩
    · simp only [settleLoop, hb0]
      exact hrun
    · intro lot b hb
      rw [settleDelta_cons]
      by_cases h : a.tgtLotId = lot
      · subst h
        have hbb : b = b0 := by
          rw [hb0] at hb
          injection hb with hb
          exact hb.symm
        subst hbb
        rw [hsame _ _ hkey1]
        simp only [if_true, b1]
        congr 2
        by_cases hs : origTxn.txnSubType = TxnSubType.Sell
        · simp [hs, add_assoc]
        · simp [hs, add_assoc]
      · have := hsame lot b (by rw [hother _ _ (fun hh => h hh.1)]; exact hb)
        rw [this]
        simp [h]
    · intro lot dt hdt
      rw [hdiff lot dt hdt]
      exact hother _ _ (fun hh => hdt hh.2.symm)

/-- The part of a balance row the settle loop never writes. -/
theorem getLotBal_updateLotBal_frame {α : Type} (f : LotBal R → α) {s : Store R} {b b0 : LotBal R}
    (h : getLotBal s b.lotId b.lotDt = .ok b0) (hf : f b = f b0) (id : Id) (dt : Dt) :
    (getLotBal (updateLotBal s b) id dt).map f = (getLotBal s id dt).map f := by
  by_cases hk : b.lotId = id ∧ b.lotDt = dt
  · obtain ⟨h1, h2⟩ := hk
    subst h1
    subst h2
    rw [getLotBal_updateLotBal_same h, h]
    simp [Except.map, hf]
  · rw [getLotBal_updateLotBal_other hk]

theorem settleLoop_frame (txn origTxn : Txn R) (allocTxns : List (Txn R)) :
    ∀ (s s' : Store R) (r : Except Fault Unit), settleLoop txn origTxn allocTxns s = (r, s') →
      s'.txns = s.txns ∧ s'.lots = s.lots ∧
      ∀ id dt, (getLotBal s' id dt).map (fun b => (b.lotSize, b.unsettledSize))
        = (getLotBal s id dt).map (fun b => (b.lotSize, b.unsettledSize)) := by
  induction allocTxns with
  | nil =>
    intro s s' r h
    simp only [settleLoop, Prod.mk.injEq] at h
    obtain ⟨-, rfl⟩ := h
    exact ⟨rfl, rfl, fun _ _ => rfl⟩
  | cons a rest ih =>
    intro s s' r h
    simp only [settleLoop] at h
    cases hb : getLotBal s a.tgtLotId txn.settleDt with
    | error e =>
      rw [hb] at h
      simp only [Prod.mk.injEq] at h
      obtain ⟨-, rfl⟩ := h
      exact ⟨rfl, rfl, fun _ _ => rfl⟩
    | ok b0 =>
      rw [hb] at h
      simp only at h
      obtain ⟨h1, h2, h3⟩ := ih _ _ _ h
      obtain ⟨-, hid0, hdt0⟩ := getLotBal_ok hb
      refine ⟨h1, h2, ?_⟩
      intro id dt
      rw [h3]
      apply getLotBal_updateLotBal_frame
      · show getLotBal s b0.lotId b0.lotDt = .ok b0
        rw [hid0, hdt0]
        exact hb
      · rfl

theorem settlePayRec_ok {txn : Txn R} {s s' : Store R} {u : Unit}
    (h : settlePayRec txn s = (.ok u, s')) :
    ∃ (p : Lot R) (b : LotBal R), listLots s [txn.parentId] = [p] ∧
      getLotBal s p.id txn.settleDt = .ok b ∧
      s' = updateLotBal s { b with settledSize := b.lotSize, unsettledSize := 0 } := by
  unfold settlePayRec at h
  simp only at h
  by_cases hlen : (listLots s [txn.parentId]).length > 1
  · rw [if_pos hlen] at h
    simp at h
  · rw [if_neg hlen] at h
    cases hlist : listLots s [txn.parentId] with
    | nil => rw [hlist] at h; simp at h
    | cons p ps =>
      rw [hlist] at h hlen
      have hps : ps = [] := by
        cases ps with
        | nil => rfl
        | cons q qs => simp at hlen
      subst hps
      simp only at h
      cases hb : getLotBal s p.id txn.settleDt with
      | error e => rw [hb] at h; simp at h
      | ok b =>
        rw [hb] at h
        simp only [Prod.mk.injEq] at h
        exact ⟨p, b, rfl, hb, h.2.symm⟩

theorem updateLotBal_forall {P : LotBal R → Prop} {s : Store R} {b' : LotBal R}
    (h : ∀ b ∈ s.lotBals, P b) (hb' : P b') : ∀ b ∈ (updateLotBal s b').lotBals, P b := by
  intro b hb
  simp only [updateLotBal, List.mem_map] at hb
  obtain ⟨x, hx, rfl⟩ := hb
  split
  · exact hb'
  · exact h x hx

theorem createLot_forall {P : LotBal R → Prop} (s : Store R) (lot : Lot R)
    (h : ∀ b ∈ s.lotBals, P b)
    (hnew : ∀ id, P { lotId := id, lotDt := lot.origDt, lotSize := lot.origSize,
                      settledSize := 0, unsettledSize := lot.origSize }) :
    ∀ b ∈ (createLot s lot).2.lotBals, P b := by
  unfold createLot
  simp only
  generalize (if lot.id = 0 then s.nextId else lot.id) = nid
  split
  · exact h
  · split
    · exact h
    · intro b hb
      simp only [List.mem_append, List.mem_singleton] at hb
      rcases hb with hb | rfl
      · exact h b hb
      · exact hnew _

theorem createTxn_lotBals (s : Store R) (t : Txn R) : (createTxn s t).2.lotBals = s.lotBals := by
  unfold createTxn
  simp only
  generalize (if t.id = 0 then s.nextId else t.id) = nid
  split <;> rfl

theorem sellLoop_forall (txn : Txn R) (ids : List Id) :
    ∀ (l : List Id) (r : R) (s : Store R), (∀ x ∈ l, x ∈ ids) →
      (∀ b ∈ s.lotBals, b.Decomposed ∧ (b.lotId ∈ ids → b.lotDt = txn.txnDt → b.settledSize = 0)) →
      ∀ b ∈ (sellLoop txn l r s).2.lotBals,
        b.Decomposed ∧ (b.lotId ∈ ids → b.lotDt = txn.txnDt → b.settledSize = 0) := by
  intro l
  induction l with
  | nil => intro r s _ h; exact h
  | cons lotID rest ih =>
    intro r s hsub h
    simp only [sellLoop]
    cases hb : getLotBal s lotID txn.txnDt with
    | error e => exact h
    | ok lotBal =>
      simp only
      obtain ⟨hmem, hid, hdt⟩ := getLotBal_ok hb
      obtain ⟨hdec, hset⟩ := h lotBal hmem
      have hs0 : lotBal.settledSize = 0 :=
        hset (by rw [hid]; exact hsub lotID (List.mem_cons_self _ _)) hdt
      have hnew : (sellStep r lotBal).2.2.Decomposed ∧
          ((sellStep r lotBal).2.2.lotId ∈ ids → (sellStep r lotBal).2.2.lotDt = txn.txnDt →
            (sellStep r lotBal).2.2.settledSize = 0) := by
        unfold LotBal.Decomposed at hdec ⊢
        unfold sellStep
        split
        · refine ⟨?_, fun _ _ => hs0⟩
          simp only [hs0, zero_add] at hdec ⊢
          rw [hdec]
        · refine ⟨?_, fun _ _ => hs0⟩
          simp [hs0]
      have h1 := updateLotBal_forall h hnew
      rcases hc : createTxn (updateLotBal s (sellStep r lotBal).2.2)
        (allocTxnFor txn lotID (sellStep r lotBal).1) with ⟨rc, s2⟩
      have h2 : ∀ b ∈ s2.lotBals,
          b.Decomposed ∧ (b.lotId ∈ ids → b.lotDt = txn.txnDt → b.settledSize = 0) := by
        have := createTxn_lotBals (updateLotBal s (sellStep r lotBal).2.2)
          (allocTxnFor txn lotID (sellStep r lotBal).1)
        rw [hc] at this
        simp only at this
        rw [this]
        exact h1
      cases rc with
      | error e => exact h2
      | ok t =>
        simp only
        split
        · exact h2
        · exact ih _ _ (fun x hx => hsub x (List.mem_cons_of_mem _ hx)) h2

theorem settleLoop_forall (txn origTxn : Txn R) (P : LotBal R → Prop) (all : List (Txn R))
    (hP : ∀ b : LotBal R, b.lotDt = txn.settleDt → (∃ a ∈ all, a.tgtLotId = b.lotId) → P b) :
    ∀ (l : List (Txn R)) (s : Store R), (∀ a ∈ l, a ∈ all) → (∀ b ∈ s.lotBals, P b) →
      ∀ b ∈ (settleLoop txn origTxn l s).2.lotBals, P b := by
  intro l
  induction l with
  | nil => intro s _ h; exact h
  | cons a rest ih =>
    intro s hsub h
    simp only [settleLoop]
    cases hb : getLotBal s a.tgtLotId txn.settleDt with
    | error e => exact h
    | ok lotBal =>
      simp only
      obtain ⟨-, hid, hdt⟩ := getLotBal_ok hb
      apply ih _ (fun x hx => hsub x (List.mem_cons_of_mem _ hx))
      apply updateLotBal_forall h
      exact hP _ hdt ⟨a, hsub a (List.mem_cons_self _ _), hid.symm⟩

theorem settlePayRec_forall (txn : Txn R) (P : LotBal R → Prop) (s : Store R)
    (hP : ∀ b : LotBal R, b.Decomposed → P b) (h : ∀ b ∈ s.lotBals, P b) :
    ∀ b ∈ (settlePayRec txn s).2.lotBals, P b := by
  unfold settlePayRec
  simp only
  split
  · exact h
  · split
    · exact h
    · split
      · exact h
      · apply updateLotBal_forall h
        apply hP
        simp [LotBal.Decomposed]

theorem decomposed_initial (id : Id) (dt : Dt) (x : R) :
    ({ lotId := id, lotDt := dt, lotSize := x, settledSize := 0, unsettledSize := x }
      : LotBal R).Decomposed := by
  simp [LotBal.Decomposed]

theorem processReinvest_forall (txn : Txn R) (s : Store R)
    (h : ∀ b ∈ s.lotBals, b.Decomposed) :
    ∀ b ∈ (processReinvest txn s).2.lotBals, b.Decomposed := by
  have h1 := createLot_forall s (tradeLot txn) h (fun id => decomposed_initial id _ _)
  unfold processReinvest
  rcases hc : createLot s (tradeLot txn) with ⟨rc, s1⟩
  rw [hc] at h1
  cases rc with
  | error e => exact h1
  | ok l =>
    simp only
    cases hg : getLotBal s1 l.id txn.settleDt with
    | error e => exact h1
    | ok rb =>
      simp only
      have h2 := @updateLotBal_forall R _ LotBal.Decomposed s1
        { rb with settledSize := rb.lotSize, unsettledSize := 0 }
        h1 (by simp [LotBal.Decomposed])
      split
      · exact h2
      · split
        · exact h2
        · exact updateLotBal_forall h2 (by simp [LotBal.Decomposed])

theorem tradeSwitch_forall (txn : Txn R) (ids : List Id) (s : Store R)
    (h : ∀ b ∈ s.lotBals, b.Decomposed)
    (hsell : txn.txnSubType = TxnSubType.Sell →
      ∀ b ∈ s.lotBals, b.lotId ∈ ids → b.lotDt = txn.txnDt → b.settledSize = 0) :
    ∀ b ∈ (tradeSwitch txn ids s).2.lotBals, b.Decomposed := by
  unfold tradeSwitch
  split
  · unfold processBuy
    have h1 := createLot_forall s (tradeLot txn) h (fun id => decomposed_initial id _ _)
    rcases hc : createLot s (tradeLot txn) with ⟨rc, s1⟩
    rw [hc] at h1
    cases rc <;> exact h1
  · split
    · next hs =>
      intro b hb
      exact (sellLoop_forall txn ids ids txn.txnSize s (fun _ hx => hx)
        (fun b hb => ⟨h b hb, hsell hs b hb⟩) b hb).1
    · split
      · exact processReinvest_forall txn s h
      · exact h

theorem processTrade_forall (txn : Txn R) (ids : List Id) (s : Store R)
    (h : ∀ b ∈ s.lotBals, b.Decomposed)
    (hsell : txn.txnSubType = TxnSubType.Sell →
      ∀ b ∈ s.lotBals, b.lotId ∈ ids → b.lotDt = txn.txnDt → b.settledSize = 0) :
    ∀ b ∈ (processTrade txn ids s).2.lotBals, b.Decomposed := by
  have hr := tradeSwitch_forall txn ids s h hsell
  unfold processTrade
  rcases hsw : tradeSwitch txn ids s with ⟨r, s1⟩
  rw [hsw] at hr
  cases r with
  | error e => exact hr
  | ok u =>
    simp only
    split
    · have h1 := createLot_forall s1 (payRecLotFor txn) hr (fun id => decomposed_initial id _ _)
      rcases hc : createLot s1 (payRecLotFor txn) with ⟨rc, s2⟩
      rw [hc] at h1
      cases rc <;> exact h1
    · exact hr

theorem processSweep_forall (txn : Txn R) (s : Store R)
    (h : ∀ b ∈ s.lotBals, b.Decomposed)
    (hsweep : ∀ b ∈ s.lotBals,
      b.lotId = (if txn.txnSubType = TxnSubType.In then txn.tgtLotId else txn.srcLotId) →
      b.lotDt = txn.settleDt → b.unsettledSize = 0) :
    ∀ b ∈ (processSweep txn s).2.lotBals, b.Decomposed := by
  unfold processSweep
  simp only
  split
  · exact h
  · next cash hcash =>
    split
    · exact h
    · next hun =>
      split
      · exact h
      · next sweep hsw =>
        obtain ⟨hm, hid, hdt⟩ := getLotBal_ok hsw
        have hu : sweep.unsettledSize = 0 := hsweep sweep hm hid hdt
        apply updateLotBal_forall
        · apply updateLotBal_forall h
          simp [LotBal.Decomposed, hu]
        · have : cash.unsettledSize = 0 := by
            by_contra hne
            exact hun hne
          simp [LotBal.Decomposed, this]

theorem processIncome_forall (txn : Txn R) (s : Store R)
    (h : ∀ b ∈ s.lotBals, b.Decomposed) :
    ∀ b ∈ (processIncome txn s).2.lotBals, b.Decomposed := by
  unfold processIncome
  split
  · have h1 := createLot_forall s (dividendLot txn) h (fun id => decomposed_initial id _ _)
    rcases hc : createLot s (dividendLot txn) with ⟨rc, s1⟩
    rw [hc] at h1
    cases rc with
    | error e => exact h1
    | ok l =>
      simp only
      split
      · exact h1
      · exact updateLotBal_forall h1 (by simp [LotBal.Decomposed])
  · exact h

theorem processSettle_forall (txn : Txn R) (s : Store R)
    (h : ∀ b ∈ s.lotBals, b.Decomposed) :
    ∀ b ∈ (processSettle txn s).2.lotBals, b.Decomposed ∨
      (b.lotDt = txn.settleDt ∧ ∃ a ∈ s.txns, a.txnType = TxnType.Allocation ∧
        a.parentId = txn.parentId ∧ a.tgtLotId = b.lotId) := by
  have h0 : ∀ b ∈ s.lotBals, b.Decomposed ∨
      (b.lotDt = txn.settleDt ∧ ∃ a ∈ s.txns, a.txnType = TxnType.Allocation ∧
        a.parentId = txn.parentId ∧ a.tgtLotId = b.lotId) := fun b hb => Or.inl (h b hb)
  unfold processSettle
  cases hp : getTxn s txn.parentId with
  | error e => exact h0
  | ok origTxn =>
    simp only
    split
    · exact h0
    · have hl := settleLoop_forall txn origTxn
        (fun b => b.Decomposed ∨ (b.lotDt = txn.settleDt ∧ ∃ a ∈ s.txns,
          a.txnType = TxnType.Allocation ∧ a.parentId = txn.parentId ∧ a.tgtLotId = b.lotId))
        (listTxns s [TxnType.Allocation] [origTxn.id])
        (by
          intro b hdt ⟨a, ha, hab⟩
          right
          refine ⟨hdt, a, ?_⟩
          simp only [listTxns, List.mem_filter, Bool.and_eq_true, List.contains_eq_any_beq,
            List.any_cons, List.any_nil, Bool.or_false, beq_iff_eq] at ha
          exact ⟨ha.1, ha.2.1, by rw [ha.2.2, (getTxn_ok hp).2], hab⟩)
        (listTxns s [TxnType.Allocation] [origTxn.id]) s (fun _ hx => hx) h0
      rcases hc : settleLoop txn origTxn (listTxns s [TxnType.Allocation] [origTxn.id]) s
        with ⟨rc, s1⟩
      rw [hc] at hl
      cases rc with
      | error e => exact hl
      | ok u => exact settlePayRec_forall txn _ s1 (fun b hb => Or.inl hb) hl

/-- The list the engine asks for in the settle branch (`TxnType` and `ParentID` set) is what
`TxnFilter.query` selects. -/
theorem query_eq_listTxns (s : Store R) (ts : List String) (p : Id) (ps : List Id)
    (hp : p ≠ 0) :
    TxnFilter.query { ID := none, TxnType := some ts, TxnTypeNEQ := none,
                      ParentID := some (p :: ps) } s.txns
      = .ok (listTxns s ts (p :: ps)) := by
  simp [TxnFilter.query, decodeIds, listTxns, List.filter_filter, Bool.and_comm, hp]

/-- The list the engine asks for the payable/receivable lot (`SrcTxnID` set) is what
`LotFilter.query` selects. -/
theorem query_eq_listLots (s : Store R) (p : Id) (ps : List Id) (hp : p ≠ 0) :
    LotFilter.query { ID := none, SrcTxnID := some (p :: ps) } s.lots
      = .ok (listLots s (p :: ps)) := by
  simp [LotFilter.query, decodeIds, listLots, hp]

/-- With an `UpdateLotBal` that does not fail, `ProcessTxnWith` is `ProcessTxn`. -/
theorem ProcessTxnWith_updateLotBal (s : Store R) (request : ProcessTxnRequest) :
    ProcessTxnWith (fun s b => (.ok (), updateLotBal s b)) s request = ProcessTxn s request := by
  unfold ProcessTxnWith ProcessTxn
  cases hg : getTxn s request.id with
  | error e => rfl
  | ok txn =>
    simp only
    by_cases ho : txn.state = TxnState.Open
    · by_cases hs : txn.txnType = TxnType.Sweep
      · have h1 : txn.txnType ≠ TxnType.Trade := by rw [hs]; decide
        have h2 : txn.txnType ≠ TxnType.Settle := by rw [hs]; decide
        simp only [if_pos ho, if_pos hs, dispatch, if_neg h1, if_neg h2]
        rfl
      · simp only [if_pos ho, if_neg hs]
    · simp only [if_neg ho]

/-- The sell loop does not touch the lot table. -/
theorem sellLoop_lots (txn : Txn R) (ids : List Id) :
    ∀ (r : R) (s : Store R), (sellLoop txn ids r s).2.lots = s.lots := by
  induction ids with
  | nil => intro r s; rfl
  | cons id rest ih =>
    intro r s
    unfold sellLoop
    cases hg : getLotBal s id txn.txnDt with
    | error e => rfl
    | ok lotBal =>
      simp only
      have hc : (createTxn (updateLotBal s (sellStep r lotBal).2.2)
          (allocTxnFor txn id (sellStep r lotBal).1)).2.lots = s.lots := by
        unfold createTxn
        simp only
        generalize (if (allocTxnFor txn id (sellStep r lotBal).1).id = 0
          then (updateLotBal s (sellStep r lotBal).2.2).nextId
          else (allocTxnFor txn id (sellStep r lotBal).1).id) = nid
        split <;> rfl
      rcases hct : createTxn (updateLotBal s (sellStep r lotBal).2.2)
          (allocTxnFor txn id (sellStep r lotBal).1) with ⟨res, s2⟩
      rw [hct] at hc
      cases res with
      | error e => exact hc
      | ok t =>
        simp only
        split
        · exact hc
        · rw [ih]; exact hc

/-- `CreateTxn` of a row without id succeeds when the id generator is ahead of every id in the
table, and appends the row under the generated id. -/
theorem createTxn_fresh (s : Store R) (t : Txn R) (hid : t.id = 0)
    (hfresh : ∀ x ∈ s.txns, x.id < s.nextId) :
    createTxn s t = (.ok { t with id := s.nextId },
      { s with txns := s.txns ++ [{ t with id := s.nextId }], nextId := s.nextId + 1 }) := by
  unfold createTxn
  simp only [hid, if_true]
  have hany : (s.txns.any fun x => decide (x.id = s.nextId)) = false := by
    rw [List.any_eq_false]
    intro x hx
    have := hfresh x hx
    simp only [decide_eq_true_eq]
    exact Nat.ne_of_lt this
  rw [if_neg (by rw [hany]; decide)]

/-- The sell loop when the lots suffice, that is when the running remainder reaches a lot that
covers it: the loop succeeds, appends one allocation per visited lot in caller order, the
remainder after the allocations is zero, every visited balance drops by its allocation, and
nothing else changes.  Every size in the statement is a value the loop itself computes, by its
own comparisons and subtractions. -/
theorem sellLoop_exact (txn : Txn R) :
    ∀ (ids : List Id) (S : R) (s : Store R),
      0 ≤ S → ids.Nodup →
      (∀ id ∈ ids, ∃ b, getLotBal s id txn.txnDt = .ok b ∧ 0 ≤ b.lotSize) →
      (∃ pre id post, ids = pre ++ id :: post ∧
        remainingAfter S (pre.map (lotSizeOn s txn.txnDt)) ≤ lotSizeOn s txn.txnDt id) →
      (∀ t ∈ s.txns, t.id < s.nextId) →
      ∃ (s' : Store R) (visited rest : List Id) (allocs : List (Txn R)),
        sellLoop txn ids S s = (.ok (), s') ∧
        ids = visited ++ rest ∧
        s'.txns = s.txns ++ allocs ∧
        allocs.map Txn.tgtLotId = visited ∧
        remainingAfter S (allocs.map Txn.txnSize) = 0 ∧
        (∀ a ∈ allocs, a.parentId = txn.id ∧ a.txnType = TxnType.Allocation ∧
          ∃ b b', getLotBal s a.tgtLotId txn.txnDt = .ok b ∧ 0 ≤ a.txnSize ∧
            a.txnSize ≤ b.lotSize ∧ getLotBal s' a.tgtLotId txn.txnDt = .ok b' ∧
            b'.lotSize = b.lotSize - a.txnSize) ∧
        (∀ p q : List (Txn R), allocs = p ++ q → p ≠ [] → q ≠ [] →
          remainingAfter S (p.map Txn.txnSize) ≠ 0) ∧
        (∀ id dt, (id ∉ visited ∨ dt ≠ txn.txnDt) → getLotBal s' id dt = getLotBal s id dt) ∧
        s'.lots = s.lots ∧
        (∀ t ∈ s'.txns, t.id < s'.nextId) := by
  intro ids
  induction ids with
  | nil =>
    intro S s _ _ _ hsuff _
    obtain ⟨pre, i, post, hsplit, _⟩ := hsuff
    cases pre <;> cases hsplit
  | cons id rest0 ih =>
    intro S s hS hnd hbal hsuff hfresh
    obtain ⟨b, hb, hb0⟩ := hbal id (List.mem_cons_self _ _)
    have hnotin : id ∉ rest0 := (List.nodup_cons.1 hnd).1
    have hnd0 : rest0.Nodup := (List.nodup_cons.1 hnd).2
    have hsz : lotSizeOn s txn.txnDt id = b.lotSize := by simp [lotSizeOn, hb]
    -- the store after the update of the balance and the insert of the allocation
    have hkey : (sellStep S b).2.2.lotId = id ∧ (sellStep S b).2.2.lotDt = txn.txnDt := by
      have h1 := (getLotBal_ok hb).2.1
      have h2 := (getLotBal_ok hb).2.2
      unfold sellStep
      split <;> exact ⟨h1, h2⟩
    have hfresh1 : ∀ t ∈ (updateLotBal s (sellStep S b).2.2).txns,
        t.id < (updateLotBal s (sellStep S b).2.2).nextId := hfresh
    have hct := createTxn_fresh (updateLotBal s (sellStep S b).2.2)
      (allocTxnFor txn id (sellStep S b).1) rfl hfresh1
    generalize hs2 : ({ updateLotBal s (sellStep S b).2.2 with
        txns := (updateLotBal s (sellStep S b).2.2).txns ++
          [{ allocTxnFor txn id (sellStep S b).1 with
              id := (updateLotBal s (sellStep S b).2.2).nextId }],
        nextId := (updateLotBal s (sellStep S b).2.2).nextId + 1 } : Store R) = s2 at hct
    generalize hrow : ({ allocTxnFor txn id (sellStep S b).1 with
        id := (updateLotBal s (sellStep S b).2.2).nextId } : Txn R) = row at hct hs2
    have hrow_tgt : row.tgtLotId = id := by rw [← hrow]; rfl
    have hrow_size : row.txnSize = (sellStep S b).1 := by rw [← hrow]; rfl
    have hrow_parent : row.parentId = txn.id := by rw [← hrow]; rfl
    have hrow_type : row.txnType = TxnType.Allocation := by rw [← hrow]; rfl
    have hrow_id : row.id = s.nextId := by rw [← hrow]; rfl
    have hs2_txns : s2.txns = s.txns ++ [row] := by rw [← hs2]; rfl
    have hs2_lots : s2.lots = s.lots := by rw [← hs2]; rfl
    have hs2_next : s2.nextId = s.nextId + 1 := by rw [← hs2]; rfl
    have hs2_get : ∀ i d, getLotBal s2 i d = getLotBal (updateLotBal s (sellStep S b).2.2) i d := by
      intro i d; rw [← hs2]; rfl
    have hs2_same : getLotBal s2 id txn.txnDt = .ok (sellStep S b).2.2 := by
      rw [hs2_get]
      have := @getLotBal_updateLotBal_same R _ s (sellStep S b).2.2 b (by rw [hkey.1, hkey.2]; exact hb)
      rw [hkey.1, hkey.2] at this
      exact this
    have hs2_other : ∀ i d, (i ≠ id ∨ d ≠ txn.txnDt) → getLotBal s2 i d = getLotBal s i d := by
      intro i d hne
      rw [hs2_get]
      apply getLotBal_updateLotBal_other
      rw [hkey.1, hkey.2]
      rintro ⟨h1, h2⟩
      rcases hne with h | h
      · exact h h1.symm
      · exact h h2.symm
    have hfresh2 : ∀ t ∈ s2.txns, t.id < s2.nextId := by
      intro t ht
      rw [hs2_txns] at ht
      rw [hs2_next]
      rcases List.mem_append.1 ht with h | h
      · exact Nat.lt_succ_of_lt (hfresh t h)
      · rw [List.mem_singleton] at h
        rw [h, hrow_id]; exact Nat.lt_succ_self _
    -- the facts about one step
    have halloc0 : 0 ≤ (sellStep S b).1 := by
      unfold sellStep; split
      · exact hS
      · exact hb0
    have hallocle : (sellStep S b).1 ≤ b.lotSize := by
      unfold sellStep; split
      · next h => exact le_of_lt h
      · exact le_refl _
    have hnewsize : (sellStep S b).2.2.lotSize = b.lotSize - (sellStep S b).1 := by
      unfold sellStep; split
      · rfl
      · simp
    have hrem : (sellStep S b).2.1 = S - (sellStep S b).1 := by
      unfold sellStep; split
      · simp
      · rfl
    have hrem0 : 0 ≤ (sellStep S b).2.1 := by
      unfold sellStep; split
      · exact le_refl _
      · next h => exact sub_nonneg.2 (not_lt.1 h)
    have hcont : (sellStep S b).2.1 ≠ 0 → (sellStep S b).1 = b.lotSize := by
      unfold sellStep; split
      · intro h; exact absurd rfl h
      · intro _; rfl
    -- unfold one pass of the loop
    have hloop : sellLoop txn (id :: rest0) S s
        = if (sellStep S b).2.1 = 0 then (.ok (), s2)
          else sellLoop txn rest0 (sellStep S b).2.1 s2 := by
      rw [sellLoop, hb]
      simp only
      rw [hct]
    by_cases hz : (sellStep S b).2.1 = 0
    · rw [if_pos hz] at hloop
      have hsizeS : (sellStep S b).1 = S := by
        have := hrem; rw [hz] at this
        exact (sub_eq_zero.1 this.symm).symm
      refine ⟨s2, [id], rest0, [row], hloop, rfl, hs2_txns, by simp [hrow_tgt],
        by simp [remainingAfter, hrow_size, hsizeS], ?_, ?_, ?_, hs2_lots, hfresh2⟩
      · intro a ha
        rw [List.mem_singleton] at ha
        subst ha
        refine ⟨hrow_parent, hrow_type, b, (sellStep S b).2.2, ?_, ?_, ?_, ?_, ?_⟩
        · rw [hrow_tgt]; exact hb
        · rw [hrow_size]; exact halloc0
        · rw [hrow_size]; exact hallocle
        · rw [hrow_tgt]; exact hs2_same
        · rw [hrow_size]; exact hnewsize
      · intro p q hpq hp hq
        exfalso
        have hlen : (p ++ q).length = 1 := by rw [← hpq]; rfl
        rw [List.length_append] at hlen
        have h1 : 0 < p.length := List.length_pos.2 hp
        have h2 : 0 < q.length := List.length_pos.2 hq
        omega
      · intro i d hne
        apply hs2_other
        rcases hne with h | h
        · left; intro hi; exact h (by rw [hi]; exact List.mem_singleton_self _)
        · right; exact h
    · rw [if_neg hz] at hloop
      have hfull := hcont hz
      have hbal2 : ∀ i ∈ rest0, ∃ b2, getLotBal s2 i txn.txnDt = .ok b2 ∧ 0 ≤ b2.lotSize := by
        intro i hi
        obtain ⟨b2, h1, h2⟩ := hbal i (List.mem_cons_of_mem _ hi)
        refine ⟨b2, ?_, h2⟩
        rw [hs2_other i txn.txnDt (Or.inl (fun h => hnotin (h ▸ hi)))]
        exact h1
      have hsize2 : ∀ i ∈ rest0, lotSizeOn s2 txn.txnDt i = lotSizeOn s txn.txnDt i := by
        intro i hi
        unfold lotSizeOn
        rw [hs2_other i txn.txnDt (Or.inl (fun h => hnotin (h ▸ hi)))]
      have hsum2 : ∃ pre i post, rest0 = pre ++ i :: post ∧
          remainingAfter (sellStep S b).2.1 (pre.map (lotSizeOn s2 txn.txnDt))
            ≤ lotSizeOn s2 txn.txnDt i := by
        obtain ⟨pre, i, post, hsplit, hle⟩ := hsuff
        cases pre with
        | nil =>
          exfalso
          rw [List.nil_append] at hsplit
          injection hsplit with hi _
          rw [← hi, hsz] at hle
          simp only [List.map_nil, remainingAfter, List.foldl_nil] at hle
          apply hz
          unfold sellStep
          split
          · rfl
          · next hlt => exact sub_eq_zero.2 (le_antisymm hle (not_lt.1 hlt))
        | cons p pre' =>
          rw [List.cons_append] at hsplit
          injection hsplit with hp hrest
          subst hp
          refine ⟨pre', i, post, hrest, ?_⟩
          have hi : i ∈ rest0 := by rw [hrest]; simp
          have hpre' : ∀ j ∈ pre', j ∈ rest0 := by
            intro j hj; rw [hrest]; exact List.mem_append_left _ hj
          have hmap' : pre'.map (lotSizeOn s2 txn.txnDt) = pre'.map (lotSizeOn s txn.txnDt) :=
            List.map_congr_left (fun j hj => hsize2 j (hpre' j hj))
          rw [hmap', hsize2 i hi, hrem, hfull]
          simp only [List.map_cons, remainingAfter, List.foldl_cons, hsz] at hle
          exact hle
      obtain ⟨s', visited, rest, allocs, hrun, hids, htx, htgt, hsumA, hall, hpre, hframe, hlots,
        hfr⟩ := ih (sellStep S b).2.1 s2 hrem0 hnd0 hbal2 hsum2 hfresh2
      have hvis : ∀ i ∈ visited, i ∈ rest0 := by
        intro i hi; rw [hids]; exact List.mem_append_left _ hi
      have hidnv : id ∉ visited := fun h => hnotin (hvis id h)
      refine ⟨s', id :: visited, rest, row :: allocs, by rw [hloop]; exact hrun,
        by rw [hids]; rfl, by rw [htx, hs2_txns]; simp, by simp [hrow_tgt, htgt], ?_, ?_, ?_, ?_,
        by rw [hlots, hs2_lots], hfr⟩
      · rw [List.map_cons]
        simp only [remainingAfter, List.foldl_cons]
        rw [hrow_size, ← hrem]
        exact hsumA
      · intro a ha
        rcases List.mem_cons.1 ha with h | h
        · subst h
          refine ⟨hrow_parent, hrow_type, b, (sellStep S b).2.2, ?_, ?_, ?_, ?_, ?_⟩
          · rw [hrow_tgt]; exact hb
          · rw [hrow_size]; exact halloc0
          · rw [hrow_size]; exact hallocle
          · rw [hrow_tgt, hframe id txn.txnDt (Or.inl hidnv)]; exact hs2_same
          · rw [hrow_size]; exact hnewsize
        · obtain ⟨h1, h2, b1, b1', h3, h4, h5, h6, h7⟩ := hall a h
          have hav : a.tgtLotId ∈ visited := by
            rw [← htgt]; exact List.mem_map_of_mem _ h
          have hane : a.tgtLotId ≠ id := fun he => hidnv (he ▸ hav)
          refine ⟨h1, h2, b1, b1', ?_, h4, h5, h6, h7⟩
          rw [← hs2_other a.tgtLotId txn.txnDt (Or.inl hane)]
          exact h3
      · intro p q hpq hp hq
        cases p with
        | nil => exact absurd rfl hp
        | cons x xs =>
          rw [List.cons_append] at hpq
          injection hpq with hx hxs
          subst hx
          rw [List.map_cons]
          simp only [remainingAfter, List.foldl_cons]
          rw [hrow_size, ← hrem]
          by_cases hxs0 : xs = []
          · subst hxs0
            simpa using hz
          · exact hpre xs q hxs hxs0 hq
      · intro i d hne
        have hne2 : i ∉ visited ∨ d ≠ txn.txnDt := by
          rcases hne with h | h
          · left; intro hi; exact h (List.mem_cons_of_mem _ hi)
          · right; exact h
        rw [hframe i d hne2]
        apply hs2_other
        rcases hne with h | h
        · left; intro hi; exact h (by rw [hi]; exact List.mem_cons_self _ _)
        · right; exact h

end EngineLemmas

/-! ## Lemmas on the identifier codec -/

namespace vxid

theorem ofDigits_toDigits (b k n : Nat) : ofDigits b (toDigits b k n) = n % b ^ k := by
  induction k generalizing n with
  | zero => simp [toDigits, ofDigits, Nat.mod_one]
  | succ k ih =>
    simp only [toDigits, ofDigits, ih]
    rw [pow_succ, mul_comm (b ^ k) b, Nat.mod_mul]

theorem toDigits_lt (b k n : Nat) (hb : 0 < b) : ∀ d ∈ toDigits b k n, d < b := by
  induction k generalizing n with
  | zero => simp [toDigits]
  | succ k ih =>
    intro d hd
    simp only [toDigits, List.mem_cons] at hd
    rcases hd with rfl | hd
    · exact Nat.mod_lt _ hb
    · exact ih _ d hd

theorem toDigits_length (b k n : Nat) : (toDigits b k n).length = k := by
  induction k generalizing n with
  | zero => rfl
  | succ k ih => simp [toDigits, ih]

theorem mapM_map_some {α β : Type} (f : α → β) (g : β → Option α) (l : List α)
    (h : ∀ x ∈ l, g (f x) = some x) : (l.map f).mapM g = some l := by
  induction l with
  | nil => rfl
  | cons x xs ih =>
    have hx := h x (List.mem_cons_self _ _)
    have hxs := ih (fun y hy => h y (List.mem_cons_of_mem _ hy))
    rw [List.map_cons, List.mapM_cons, hx, hxs]
    rfl

theorem hexValue_hexDigit : ∀ d : Nat, d < 16 → hexValue (hexDigit d) = some d := by
  decide

theorem alphaIndex_alphaChar : ∀ d : Nat, d < 57 → alphaIndex (alphaChar d) = some d := by
  decide

theorem alphaChar_ne_delim : ∀ d : Nat, d < 57 → alphaChar d ≠ '_' := by
  decide

theorem dropDashes_addDashes (h : List Char) (hl : h.length = 32) :
    dropDashes (addDashes h) = h ∧ (addDashes h).length = 36 ∧
      (addDashes h).get? 8 = some '-' ∧ (addDashes h).get? 13 = some '-' ∧
      (addDashes h).get? 18 = some '-' ∧ (addDashes h).get? 23 = some '-' := by
  iterate 32 (rcases h with _ | ⟨_, h⟩; · simp at hl)
  rcases h with _ | ⟨_, h⟩
  · exact ⟨rfl, rfl, rfl, rfl, rfl, rfl⟩
  · simp at hl

theorem uuidParse_uuidString (n : Nat) (hn : n < 2 ^ 128) : uuidParse (uuidString n) = some n := by
  have hlen : (((toDigits 16 32 n).reverse).map hexDigit).length = 32 := by
    simp [toDigits_length]
  obtain ⟨h1, h2, h3, h4, h5, h6⟩ := dropDashes_addDashes _ hlen
  unfold uuidParse uuidString
  rw [if_pos ⟨h2, h3, h4, h5, h6⟩, h1, mapM_map_some]
  · simp only [Option.map_some', List.reverse_reverse, ofDigits_toDigits]
    congr 1
    exact Nat.mod_eq_of_lt (by norm_num; exact hn)
  · intro d hd
    exact hexValue_hexDigit d (toDigits_lt 16 32 n (by norm_num) d (List.mem_reverse.mp hd))

theorem shortDecode_shortEncode (n : Nat) (hn : n < 2 ^ 128) :
    shortDecode (shortEncode n) = .ok n := by
  have h57 : alphabet.length = 57 := by decide
  unfold shortDecode shortEncode
  rw [mapM_map_some]
  · simp only [ofDigits_toDigits, h57, encodedLength]
    have hlt : n < 57 ^ 22 := lt_trans hn (by norm_num)
    rw [Nat.mod_eq_of_lt hlt, if_pos hn]
  · intro d hd
    rw [h57] at hd
    exact alphaIndex_alphaChar d (toDigits_lt 57 _ n (by norm_num) d hd)

theorem shortEncode_no_delim (n : Nat) : '_' ∉ shortEncode n := by
  have h57 : alphabet.length = 57 := by decide
  unfold shortEncode
  intro h
  rw [List.mem_map] at h
  obtain ⟨d, hd, he⟩ := h
  rw [h57] at hd
  exact alphaChar_ne_delim d (toDigits_lt 57 _ n (by norm_num) d hd) he

theorem split_no_sep (sep : Char) (l : List Char) (h : sep ∉ l) : split sep l = [l] := by
  induction l with
  | nil => rfl
  | cons c cs ih =>
    have hc : c ≠ sep := fun e => h (by rw [e]; exact List.mem_cons_self _ _)
    have hcs : sep ∉ cs := fun e => h (List.mem_cons_of_mem _ e)
    simp [split, hc, ih hcs]

theorem split_append_sep (sep : Char) (a b : List Char) (h : sep ∉ a) :
    split sep (a ++ sep :: b) = a :: split sep b := by
  induction a with
  | nil => simp [split]
  | cons c cs ih =>
    have hc : c ≠ sep := fun e => h (by rw [e]; exact List.mem_cons_self _ _)
    have hcs : sep ∉ cs := fun e => h (List.mem_cons_of_mem _ e)
    simp [split, hc, ih hcs]

theorem pfxTable_good : ∀ p ∈ pfxTable, p ≠ "" ∧ '_' ∉ p.data := by
  decide

theorem uuidString_length (n : Nat) : (uuidString n).length = 36 :=
  (dropDashes_addDashes _ (by simp [toDigits_length])).2.1

theorem alphaChar_alnum :
    ∀ d : Nat, d < 57 → alphaChar d ∈ alphabet ∧ (alphaChar d).isAlphanum = true := by
  decide

/-- The loop of `Decodes` succeeds when every element decodes, with the element-wise
results. -/
theorem decodesLoop_spec (xs : List String) (h : ∀ x ∈ xs, ∃ v, Decode x = .ok v) :
    ∃ vs, decodesLoop xs = .ok vs ∧ List.Forall₂ (fun x v => Decode x = .ok v) xs vs := by
  induction xs with
  | nil => exact ⟨[], rfl, List.Forall₂.nil⟩
  | cons x xs ih =>
    obtain ⟨v, hv⟩ := h x (List.mem_cons_self _ _)
    obtain ⟨vs, hvs, hall⟩ := ih (fun y hy => h y (List.mem_cons_of_mem _ hy))
    refine ⟨v :: vs, ?_, List.Forall₂.cons hv hall⟩
    simp only [decodesLoop, hv, hvs]

/-- The loop of `Decodes` fails when some element does not decode. -/
theorem decodesLoop_error (xs : List String) (x : String) (hx : x ∈ xs)
    (h : ∀ v, Decode x ≠ .ok v) : ∀ vs, decodesLoop xs ≠ .ok vs := by
  induction xs with
  | nil => simp at hx
  | cons y ys ih =>
    intro vs hvs
    simp only [decodesLoop] at hvs
    rcases List.mem_cons.1 hx with rfl | hmem
    · cases hd : Decode x with
      | error e => rw [hd] at hvs; simp at hvs
      | ok v => exact h v hd
    · cases hd : Decode y with
      | error e => rw [hd] at hvs; simp at hvs
      | ok v =>
        rw [hd] at hvs
        cases hl : decodesLoop ys with
        | error e => rw [hl] at hvs; simp at hvs
        | ok ws => exact ih hmem ws hl

/-- With a first id that is not empty and more than one tag, a number of tags other than the
number of ids makes `Encodes` fail with the length error. -/
theorem Encodes_lengthMismatch (vid0 : String) (vids pfxs : List String)
    (h0 : vid0 ≠ "") (h1 : pfxs.length > 1) (h2 : (vid0 :: vids).length ≠ pfxs.length) :
    Encodes (vid0 :: vids) pfxs = .error .lengthMismatch := by
  simp only [Encodes, if_neg h0]
  rw [if_pos ⟨h1, h2⟩]

/-- With a first element that is not empty, `Decodes` of a list whose elements all decode is
the list of the element-wise results. -/
theorem Decodes_elementwise (x0 : String) (xs : List String) (h0 : x0 ≠ "")
    (h : ∀ x ∈ x0 :: xs, ∃ v, Decode x = .ok v) :
    ∃ vs, Decodes (x0 :: xs) = .ok vs ∧ vs.length = (x0 :: xs).length ∧
      List.Forall₂ (fun x v => Decode x = .ok v) (x0 :: xs) vs := by
  obtain ⟨vs, hvs, hall⟩ := decodesLoop_spec (x0 :: xs) h
  refine ⟨vs, ?_, hall.length_eq.symm, hall⟩
  simp only [Decodes, if_neg h0]
  exact hvs

end vxid

/-! ## Lemmas on the calendar and the lot roll -/

section RollLemmas

variable {R : Type} [LinearOrderedRing R]

/-- The days before a year grow by 365, and by 366 after a leap year. -/
theorem daysBeforeYear_succ (y : Nat) :
    daysBeforeYear (y + 1) = daysBeforeYear y + (if isLeapYear y then 366 else 365) := by
  have e4 : (y + 1 + 3) / 4 = (y + 3) / 4 + (if y % 4 = 0 then 1 else 0) := by
    split <;> omega
  have e100 : (y + 1 + 99) / 100 = (y + 99) / 100 + (if y % 100 = 0 then 1 else 0) := by
    split <;> omega
  have e400 : (y + 1 + 399) / 400 = (y + 399) / 400 + (if y % 400 = 0 then 1 else 0) := by
    split <;> omega
  have hle : (y + 99) / 100 ≤ (y + 3) / 4 := by omega
  have h100_4 : y % 100 = 0 → y % 4 = 0 := by omega
  have h400_100 : y % 400 = 0 → y % 100 = 0 := by omega
  unfold daysBeforeYear isLeapYear
  rw [e4, e100, e400]
  generalize (y + 3) / 4 = a at hle ⊢
  generalize (y + 99) / 100 = b at hle ⊢
  generalize (y + 399) / 400 = c
  by_cases h4 : y % 4 = 0
  · by_cases h100 : y % 100 = 0
    · by_cases h400 : y % 400 = 0
      · simp only [h4, h100, h400, if_true, ne_eq, not_true_eq_false, or_true, and_self,
          decide_True, false_or]
        omega
      · simp only [h4, h100, h400, if_true, if_false, ne_eq, not_true_eq_false, or_self,
          and_false, decide_False, Bool.false_eq_true]
        omega
    · have h400 : ¬ y % 400 = 0 := fun h => h100 (h400_100 h)
      simp only [h4, h100, h400, if_true, if_false, ne_eq, not_false_eq_true, true_or,
        and_self, decide_True, or_false]
      omega
  · have h100 : ¬ y % 100 = 0 := fun h => h4 (h100_4 h)
    have h400 : ¬ y % 400 = 0 := fun h => h100 (h400_100 h)
    simp only [h4, h100, h400, if_false, false_and, decide_False, Bool.false_eq_true]
    omega

/-- The twelve months of a year have 365 days, and 366 in a leap year. -/
theorem daysBeforeMonth_december (y : Nat) :
    daysBeforeMonth y 12 + 31 = if isLeapYear y then 366 else 365 := by
  simp only [daysBeforeMonth, daysInMonth]
  cases isLeapYear y <;> simp

/-- The days before a month grow by the days of the month before. -/
theorem daysBeforeMonth_succ (y m : Nat) (hm : 1 ≤ m) :
    daysBeforeMonth y (m + 1) = daysBeforeMonth y m + daysInMonth y m := by
  cases m with
  | zero => omega
  | succ k => rfl

/-- The day after a date of the calendar has the next day number. -/
theorem dayNumber_nextDay (d : Date) (hm1 : 1 ≤ d.month) (hm2 : d.month ≤ 12) (hd1 : 1 ≤ d.day)
    (hd2 : d.day ≤ daysInMonth d.year d.month) : dayNumber (nextDay d) = dayNumber d + 1 := by
  unfold nextDay
  by_cases h1 : d.day < daysInMonth d.year d.month
  · rw [if_pos h1]
    unfold dayNumber
    show @Eq Nat _ _
    simp only
    omega
  · rw [if_neg h1]
    have hday : d.day = daysInMonth d.year d.month := by omega
    by_cases h2 : d.month < 12
    · rw [if_pos h2]
      unfold dayNumber
      show @Eq Nat _ _
      simp only
      rw [daysBeforeMonth_succ _ _ hm1]
      omega
    · rw [if_neg h2]
      have hmon : d.month = 12 := by omega
      unfold dayNumber
      show @Eq Nat _ _
      simp only
      rw [daysBeforeYear_succ, ← daysBeforeMonth_december, hmon]
      have h31 : daysInMonth d.year 12 = 31 := by simp [daysInMonth]
      rw [hmon, h31] at hday
      simp only [daysBeforeMonth]
      omega

/-- A decimal digit is read back from its character. -/
theorem decValue_decChar : ∀ d : Nat, d < 10 → decValue (decChar d) = some d := by
  decide

/-- The digits of a number are read back as the number, up to the number of digits. -/
theorem decNumber_decDigits (k n : Nat) : decNumber (decDigits k n) = some (n % 10 ^ k) := by
  unfold decNumber decDigits
  rw [vxid.mapM_map_some decChar decValue _ (fun d hd =>
    decValue_decChar d (vxid.toDigits_lt 10 k n (by norm_num) d (List.mem_reverse.1 hd)))]
  simp [vxid.ofDigits_toDigits]

/-- The text of a date of the calendar is parsed back to the date. -/
theorem parseDate_formatDate (d : Date) (hy : d.year ≤ 9999) (hm1 : 1 ≤ d.month)
    (hm2 : d.month ≤ 12) (hd1 : 1 ≤ d.day) (hd2 : d.day ≤ daysInMonth d.year d.month) :
    parseDate (formatDate d) = some d := by
  have hy4 := decNumber_decDigits 4 d.year
  have hm := decNumber_decDigits 2 d.month
  have hdd := decNumber_decDigits 2 d.day
  have hd31 : d.day ≤ 31 := by
    have : daysInMonth d.year d.month ≤ 31 := by
      unfold daysInMonth
      split
      · split <;> omega
      · split <;> omega
    omega
  rw [Nat.mod_eq_of_lt (by omega)] at hy4 hm hdd
  simp only [decDigits, vxid.toDigits, List.reverse_cons, List.reverse_nil, List.nil_append,
    List.cons_append, List.map_cons, List.map_nil] at hy4 hm hdd
  unfold parseDate formatDate
  simp only [decDigits, vxid.toDigits, List.reverse_cons, List.reverse_nil, List.nil_append,
    List.cons_append, List.map_cons, List.map_nil]
  rw [hy4, hm, hdd]
  simp only
  rw [if_pos ⟨hm1, hm2, hd1, hd2⟩]

/-- The database reads the text of a valid date as its day number. -/
theorem dateInput_formatDate (d : Date) (h : d.Valid) :
    dateInput (formatDate d) = some (dayNumber d) := by
  obtain ⟨hy1, hy, hm1, hm2, hd1, hd2⟩ := h
  unfold dateInput
  rw [parseDate_formatDate d hy hm1 hm2 hd1 hd2]
  simp only
  rw [if_pos hy1]

/-- The text of a date is not empty. -/
theorem formatDate_ne_empty (d : Date) : formatDate d ≠ "" := by
  intro h
  have := congrArg String.data h
  simp [formatDate, decDigits, vxid.toDigits] at this

/-- A lot the decoded list selects is a lot of the list as it was passed. -/
theorem decodeLots_sub {ids vids : Option (List Id)} (h : decodeLots ids = .ok vids) (id : Id)
    (hsel : lotSelected vids id = true) : lotSelected ids id = true := by
  unfold decodeLots at h
  cases ids with
  | none => rfl
  | some l =>
    cases l with
    | nil => simp [decodeIds] at h
    | cons x xs =>
      simp only [decodeIds] at h
      by_cases hx : x = 0
      · rw [if_pos hx] at h
        injection h with h
        rw [← h] at hsel
        simp [lotSelected] at hsel
      · rw [if_neg hx] at h
        injection h with h
        rw [← h] at hsel
        exact hsel

/-- The roll loop only appends balance rows: rows under the next date, of lots of the list. -/
theorem rollLoop_appends (n : Dt) (rows : List (LotBal R)) :
    ∀ s : Store R, ∃ added : List (LotBal R),
      (rollLoop n rows s).2 = { s with lotBals := s.lotBals ++ added } ∧
      ∀ b ∈ added, b.lotDt = n ∧ ∃ b0 ∈ rows, b.lotId = b0.lotId := by
  induction rows with
  | nil =>
    intro s
    exact ⟨[], by simp [rollLoop], by intro b hb; cases hb⟩
  | cons r rest ih =>
    intro s
    unfold rollLoop
    by_cases hnz : r.lotSize ≠ 0 ∨ r.settledSize ≠ 0 ∨ r.unsettledSize ≠ 0
    · rw [if_pos hnz]
      unfold createLotBal
      by_cases hdup : (s.lotBals.any fun b =>
          decide (b.lotId = ({ r with lotDt := n } : LotBal R).lotId ∧
            b.lotDt = ({ r with lotDt := n } : LotBal R).lotDt)) = true
      · rw [if_pos hdup]
        exact ⟨[], by simp, by intro b hb; cases hb⟩
      · rw [if_neg hdup]
        simp only
        obtain ⟨added, h1, h2⟩ := ih { s with lotBals := s.lotBals ++ [{ r with lotDt := n }] }
        rcases hr : rollLoop n rest { s with lotBals := s.lotBals ++ [{ r with lotDt := n }] }
          with ⟨res, s1⟩
        rw [hr] at h1
        simp only at h1
        refine ⟨{ r with lotDt := n } :: added, ?_, ?_⟩
        · cases res with
          | error e => simp only; rw [h1]; simp
          | ok u => simp only; rw [h1]; simp
        · intro b hb
          rcases List.mem_cons.1 hb with h | h
          · subst h
            exact ⟨rfl, r, List.mem_cons_self _ _, rfl⟩
          · obtain ⟨h3, b0, h4, h5⟩ := h2 b h
            exact ⟨h3, b0, List.mem_cons_of_mem _ h4, h5⟩
    · rw [if_neg hnz]
      obtain ⟨added, h1, h2⟩ := ih s
      refine ⟨added, h1, ?_⟩
      intro b hb
      obtain ⟨h3, b0, h4, h5⟩ := h2 b hb
      exact ⟨h3, b0, List.mem_cons_of_mem _ h4, h5⟩

/-- The roll loop over rows of distinct lots, none of which has a row under the next date: it
succeeds and appends the copy of every row that has a component other than zero. -/
theorem rollLoop_ok (n : Dt) (rows : List (LotBal R)) :
    ∀ s : Store R, (rows.map (fun b => b.lotId)).Nodup →
      (∀ b ∈ rows, ∀ x ∈ s.lotBals, ¬ (x.lotId = b.lotId ∧ x.lotDt = n)) →
      rollLoop n rows s = (.ok (), { s with
        lotBals := s.lotBals ++
          (rows.filter (fun b =>
            decide (b.lotSize ≠ 0 ∨ b.settledSize ≠ 0 ∨ b.unsettledSize ≠ 0))).map
            (fun b => { b with lotDt := n }) }) := by
  induction rows with
  | nil => intro s _ _; simp [rollLoop]
  | cons r rest ih =>
    intro s hnd hfree
    have hnd' := List.nodup_cons.1 (by simpa using hnd : (r.lotId :: rest.map (fun b => b.lotId)).Nodup)
    unfold rollLoop
    by_cases hnz : r.lotSize ≠ 0 ∨ r.settledSize ≠ 0 ∨ r.unsettledSize ≠ 0
    · rw [if_pos hnz]
      unfold createLotBal
      have hdup : ¬ (s.lotBals.any fun b =>
          decide (b.lotId = ({ r with lotDt := n } : LotBal R).lotId ∧
            b.lotDt = ({ r with lotDt := n } : LotBal R).lotDt)) = true := by
        rw [List.any_eq_true]
        rintro ⟨x, hx, hp⟩
        exact hfree r (List.mem_cons_self _ _) x hx (of_decide_eq_true hp)
      rw [if_neg hdup]
      simp only
      rw [ih _ hnd'.2]
      · rw [List.filter_cons_of_pos (by simpa using hnz)]
        simp
      · intro b hb x hx
        simp only [List.mem_append, List.mem_singleton] at hx
        rcases hx with hx | hx
        · exact hfree b (List.mem_cons_of_mem _ hb) x hx
        · rintro ⟨h1, _⟩
          apply hnd'.1
          rw [hx] at h1
          simp only at h1
          rw [h1]
          exact List.mem_map_of_mem _ hb
    · rw [if_neg hnz]
      rw [ih s hnd'.2 (fun b hb => hfree b (List.mem_cons_of_mem _ hb))]
      rw [List.filter_cons_of_neg (by simpa using hnz)]

/-- In a list of rows of distinct lots, the lookup of a row by its key finds that row. -/
theorem find_by_key (M : List (LotBal R)) (x : LotBal R)
    (hnd : (M.map (fun b => b.lotId)).Nodup) (hx : x ∈ M) :
    M.find? (fun b => decide (b.lotId = x.lotId ∧ b.lotDt = x.lotDt)) = some x := by
  induction M with
  | nil => cases hx
  | cons y ys ih =>
    have hnd' := List.nodup_cons.1 (by simpa using hnd : (y.lotId :: ys.map (fun b => b.lotId)).Nodup)
    rcases List.mem_cons.1 hx with h | h
    · subst h
      simp
    · have hne : ¬ (y.lotId = x.lotId ∧ y.lotDt = x.lotDt) := by
        rintro ⟨h1, _⟩
        apply hnd'.1
        rw [h1]
        exact List.mem_map_of_mem _ h
      rw [List.find?_cons_of_neg _ (by simpa using hne)]
      exact ih hnd'.2 h

/-- The forward roll of a valid date, by its steps. -/
theorem RollLots_forward (s : Store R) (D : Date) (ids : Option (List Id)) (direction : String)
    (hD : D.Valid) (hdir : direction ≠ "back") :
    RollLots s { dt := formatDate D, direction := direction, lots := ids }
      = match decodeLots ids with
        | .error e => (.error e, s)
        | .ok vids =>
          match rollLoop (dayNumber D + 1)
            (s.lotBals.filter (fun b => b.lotDt = dayNumber D && lotSelected vids b.lotId)) s with
          | (.error e, s1) => (.error e, s1)
          | (.ok _, s1) => (.ok "completed", s1) := by
  have hnext := dayNumber_nextDay D hD.2.2.1 hD.2.2.2.1 hD.2.2.2.2.1 hD.2.2.2.2.2
  have hparse := parseDate_formatDate D hD.2.1 hD.2.2.1 hD.2.2.2.1 hD.2.2.2.2.1 hD.2.2.2.2.2
  have hdate := dateInput_formatDate D hD
  unfold RollLots
  simp only
  rw [if_neg (formatDate_ne_empty D)]
  have hd2 : ¬ ((if direction ≠ "" then direction else "forward") = "back") := by
    split
    · exact hdir
    · decide
  rw [if_neg hd2]
  unfold listLotBals
  cases hdec : decodeLots ids with
  | error e => rfl
  | ok vids =>
    simp only
    rw [hdate]
    simp only
    rw [hparse]
    simp only
    rw [hnext]

/-- The back roll of a valid date, by its steps. -/
theorem RollLots_back (s : Store R) (D : Date) (ids : Option (List Id)) (hD : D.Valid) :
    RollLots s { dt := formatDate D, direction := "back", lots := ids }
      = match decodeLots ids with
        | .error e => (.error e, s)
        | .ok vids =>
          (.ok "completed", { s with
            lotBals := s.lotBals.filter
              (fun b => !(b.lotDt = dayNumber D && lotSelected vids b.lotId)) }) := by
  have hdate := dateInput_formatDate D hD
  unfold RollLots
  simp only
  rw [if_neg (formatDate_ne_empty D)]
  have hd2 : (if ("back" : String) ≠ "" then "back" else "forward") = "back" := by decide
  rw [if_pos hd2]
  unfold deleteLotBal
  cases hdec : decodeLots ids with
  | error e => rfl
  | ok vids =>
    simp only
    rw [hdate]

end RollLemmas

/-! ## The claims -/

section Claims

variable {R : Type} [LinearOrderedRing R]

/-- C1 (code at the failing input): the engine processes the sell of 100 against lots totalling
80 successfully, and the allocation transactions it created for the sell sum to 80, not 100. -/
theorem C1_short_sell_allocations_sum_to_80 :
    (ProcessTxn shortSellStore { id := 1, lotIds := [10, 11] }).1
        = .ok { id := 1, state := TxnState.Processed } ∧
      (getTxn shortSellStore 1).map Txn.txnSize = .ok 100 ∧
      listTxns shortSellStore [TxnType.Allocation] [1] = [] ∧
      ((listTxns (ProcessTxn shortSellStore { id := 1, lotIds := [10, 11] }).2
          [TxnType.Allocation] [1]).map Txn.txnSize) = [50, 30] ∧
      ((listTxns (ProcessTxn shortSellStore { id := 1, lotIds := [10, 11] }).2
          [TxnType.Allocation] [1]).map Txn.txnSize).sum ≠ 100 := by
  decide

/-- C2 (code at the failing input): for the sell of 100 against lots totalling 80 the engine
returns no error and stores the transaction with state processed. -/
theorem C2_short_sell_marked_processed :
    (ProcessTxn shortSellStore { id := 1, lotIds := [10, 11] }).1
        = .ok { id := 1, state := TxnState.Processed } ∧
      (getTxn (ProcessTxn shortSellStore { id := 1, lotIds := [10, 11] }).2 1).map Txn.state
        = .ok TxnState.Processed ∧
      ((ProcessTxn shortSellStore { id := 1, lotIds := [10, 11] }).2.lotBals.map LotBal.lotSize)
        = [0, 0, 5000] := by
  decide

/-- C3 (the claim as stated fails), three stores whose balances all satisfy
`lotSize = settledSize + unsettledSize` and on which `ProcessTxn` succeeds and leaves a balance
that does not: a sell of 100 against a fully settled lot of 100 writes (0, 100, 0); settling
the sell of 40 writes (60, -40, 60); a sweep of 50 into a lot holding 30 unsettled writes
(80, 80, 30). -/
theorem C3_decomposition_broken :
    ((∀ b ∈ settledLotSellStore.lotBals, b.Decomposed) ∧
      (ProcessTxn settledLotSellStore { id := 2, lotIds := [100] }).1
        = .ok { id := 2, state := TxnState.Processed } ∧
      mkBal 100 3 0 100 0 ∈ (ProcessTxn settledLotSellStore { id := 2, lotIds := [100] }).2.lotBals ∧
      ¬ (mkBal 100 3 0 100 0).Decomposed) ∧
    ((∀ b ∈ sellSettleStore.lotBals, b.Decomposed) ∧
      (ProcessTxn sellSettleStore { id := 3, lotIds := [] }).1
        = .ok { id := 3, state := TxnState.Processed } ∧
      mkBal 100 5 60 (-40) 60 ∈ (ProcessTxn sellSettleStore { id := 3, lotIds := [] }).2.lotBals ∧
      ¬ (mkBal 100 5 60 (-40) 60).Decomposed) ∧
    ((∀ b ∈ sweepStore.lotBals, b.Decomposed) ∧
      (ProcessTxn sweepStore { id := 4, lotIds := [] }).1
        = .ok { id := 4, state := TxnState.Processed } ∧
      mkBal 21 5 80 80 30 ∈ (ProcessTxn sweepStore { id := 4, lotIds := [] }).2.lotBals ∧
      ¬ (mkBal 21 5 80 80 30).Decomposed) := by
  decide

/-- C3 (amended): if every balance satisfies `lotSize = settledSize + unsettledSize` before a
`ProcessTxn` call, and, when the transaction is a sell, every balance of a candidate lot on the
transaction date has settled size 0, and, when it is a sweep, the balance of the target lot on
the settle date has unsettled size 0, then after the call (whatever its outcome) every balance
satisfies the decomposition, except possibly, for an open settle transaction, balances on the
settle date of lots targeted by an allocation of the parent. -/
theorem C3_decomposition_amended (s : Store R) (request : ProcessTxnRequest) (txn : Txn R)
    (hget : getTxn s request.id = .ok txn)
    (hinv : ∀ b ∈ s.lotBals, b.Decomposed)
    (hsell : txn.txnType = TxnType.Trade → txn.txnSubType = TxnSubType.Sell →
      ∀ b ∈ s.lotBals, b.lotId ∈ request.lotIds → b.lotDt = txn.txnDt → b.settledSize = 0)
    (hsweep : txn.txnType = TxnType.Sweep → ∀ b ∈ s.lotBals,
      b.lotId = (if txn.txnSubType = TxnSubType.In then txn.tgtLotId else txn.srcLotId) →
      b.lotDt = txn.settleDt → b.unsettledSize = 0) :
    ∀ b ∈ (ProcessTxn s request).2.lotBals,
      b.Decomposed ∨
        (txn.state = TxnState.Open ∧ txn.txnType = TxnType.Settle ∧ b.lotDt = txn.settleDt ∧
          ∃ a ∈ s.txns, a.txnType = TxnType.Allocation ∧ a.parentId = txn.parentId ∧
            a.tgtLotId = b.lotId) := by
  have hd : ∀ b ∈ (if txn.state = TxnState.Open then dispatch txn request.lotIds s
      else (.ok (), s)).2.lotBals,
      b.Decomposed ∨
        (txn.state = TxnState.Open ∧ txn.txnType = TxnType.Settle ∧ b.lotDt = txn.settleDt ∧
          ∃ a ∈ s.txns, a.txnType = TxnType.Allocation ∧ a.parentId = txn.parentId ∧
            a.tgtLotId = b.lotId) := by
    split
    · next hopen =>
      unfold dispatch
      split
      · next ht => exact fun b hb => Or.inl (processTrade_forall txn _ s hinv (hsell ht) b hb)
      · split
        · next ht =>
          intro b hb
          rcases processSettle_forall txn s hinv b hb with h | h
          · exact Or.inl h
          · exact Or.inr ⟨hopen, ht, h⟩
        · split
          · next ht => exact fun b hb => Or.inl (processSweep_forall txn s hinv (hsweep ht) b hb)
          · split
            · exact fun b hb => Or.inl (processIncome_forall txn s hinv b hb)
            · exact fun b hb => Or.inl (hinv b hb)
    · exact fun b hb => Or.inl (hinv b hb)
  unfold ProcessTxn
  rw [hget]
  simp only
  rcases hr : (if txn.state = TxnState.Open then dispatch txn request.lotIds s
      else (.ok (), s)) with ⟨r, s1⟩
  rw [hr] at hd
  cases r with
  | error e => exact hd
  | ok u => exact hd

/-- C3 (amended) at scenario S2: the sell of 40 against the unsettled lot of 100 leaves every
balance decomposed. -/
theorem C3_decomposition_amended_witness :
    (ProcessTxn sellStore { id := 2, lotIds := [100] }).2.lotBals
        = [mkBal 100 3 60 0 60, mkBal 201 3 4000 0 4000] ∧
    ∀ b ∈ (ProcessTxn sellStore { id := 2, lotIds := [100] }).2.lotBals,
      b.Decomposed ∨
        ((mkTxn 2 0 "trade" "sell" 3 5 40 0 0 4000).state = TxnState.Open ∧
          (mkTxn 2 0 "trade" "sell" 3 5 40 0 0 4000).txnType = TxnType.Settle ∧
          b.lotDt = (mkTxn 2 0 "trade" "sell" 3 5 40 0 0 4000).settleDt ∧
          ∃ a ∈ sellStore.txns, a.txnType = TxnType.Allocation ∧
            a.parentId = (mkTxn 2 0 "trade" "sell" 3 5 40 0 0 4000).parentId ∧
            a.tgtLotId = b.lotId) :=
  ⟨by decide,
    C3_decomposition_amended sellStore { id := 2, lotIds := [100] }
      (mkTxn 2 0 "trade" "sell" 3 5 40 0 0 4000) (by decide) (by decide)
      (fun _ _ => by decide) (fun h => absurd h (by decide))⟩

namespace vxid

/-- C4: for every 128-bit identifier `n`, written in canonical lower-case form `uuidString n`,
and every tag `p` of the table, `Encode` succeeds and `Decode` of its result is the canonical
form again; and the pair of `vxid_test.go` holds in both directions. -/
theorem C4_codec_round_trip :
    (∀ n : Nat, n < 2 ^ 128 → ∀ p ∈ pfxTable, ∃ x : String,
      Encode (String.mk (uuidString n)) p = .ok x ∧
      Decode x = .ok (String.mk (uuidString n))) ∧
    Encode "9dd05581-2562-4142-89b5-eaa601b8dcda" PfxMap.Instrument
      = .ok "inst_tjy87Sg2xF7dkXtFtrkU6W" ∧
    Decode "inst_tjy87Sg2xF7dkXtFtrkU6W" = .ok "9dd05581-2562-4142-89b5-eaa601b8dcda" := by
  refine ⟨?_, by decide, by decide⟩
  intro n hn p hp
  obtain ⟨hp1, hp2⟩ := pfxTable_good p hp
  have hvid : String.mk (uuidString n) ≠ "" := by
    intro h
    have := congrArg String.length h
    simp [String.length, uuidString_length] at this
  refine ⟨p ++ pfxDelim ++ String.mk (shortEncode n), ?_, ?_⟩
  · unfold Encode
    rw [if_neg hvid]
    simp only [ne_eq, hp1, not_false_eq_true, if_true, uuidParse_uuidString n hn]
  · have hdata : (p ++ pfxDelim ++ String.mk (shortEncode n)).data
        = p.data ++ '_' :: shortEncode n := by
      simp [String.data_append, pfxDelim]
    have hx : p ++ pfxDelim ++ String.mk (shortEncode n) ≠ "" := by
      intro h
      have := congrArg String.data h
      rw [hdata] at this
      simp at this
    unfold Decode
    rw [if_neg hx]
    simp only [hdata, split_append_sep _ _ _ hp2, split_no_sep _ _ (shortEncode_no_delim n)]
    simp [shortDecode_shortEncode n hn]

/-- C4 at the identifier of `vxid_test.go` and the instrument tag. -/
theorem C4_codec_round_trip_witness :
    String.mk (uuidString 0x9dd055812562414289b5eaa601b8dcda)
        = "9dd05581-2562-4142-89b5-eaa601b8dcda" ∧
    ∃ x : String,
      Encode (String.mk (uuidString 0x9dd055812562414289b5eaa601b8dcda)) PfxMap.Instrument = .ok x ∧
      Decode x = .ok (String.mk (uuidString 0x9dd055812562414289b5eaa601b8dcda)) :=
  ⟨by decide, C4_codec_round_trip.1 0x9dd055812562414289b5eaa601b8dcda (by decide) PfxMap.Instrument
    (by decide)⟩

end vxid

/-- C5 (the claim as stated fails): with 100 remaining against a balance of lot size 100 of which
40 is unsettled, the engine takes the second branch: it allocates 100 and writes unsettled size
0, where the claim asks for 40 - 100. -/
theorem C5_equal_size_zeroes_unsettled :
    (100 : ℤ) ≤ (mkBal 10 3 100 60 40).lotSize ∧
      sellStep 100 (mkBal 10 3 100 60 40) = (100, 0, mkBal 10 3 0 60 0) ∧
      (sellStep 100 (mkBal 10 3 100 60 40)).2.2.unsettledSize
        ≠ (mkBal 10 3 100 60 40).unsettledSize - (sellStep 100 (mkBal 10 3 100 60 40)).1 := by
  decide

/-- C5 (amended): a pass of the sell loop over one lot whose balance `bal` on the transaction
date exists persists a balance `newBal` and appends one allocation transaction of size `alloc`
for that lot.  When the remaining size `r` is strictly below `bal.lotSize`, `alloc = r` and
lot size and unsettled size each drop by `alloc`; when `bal.lotSize ≤ r`, `alloc = bal.lotSize`
and lot size and unsettled size are written as 0.  The settled size is unchanged in both. -/
theorem C5_sell_allocation_step (txn : Txn R) (lotID : Id) (r : R) (s : Store R) (bal : LotBal R)
    (hget : getLotBal s lotID txn.txnDt = .ok bal)
    (hfresh : s.txns.any (fun t => t.id = s.nextId) = false) :
    ∃ (alloc : R) (newBal : LotBal R),
      sellLoop txn [lotID] r s =
        (.ok (), { updateLotBal s newBal with
                   txns := s.txns ++ [{ allocTxnFor txn lotID alloc with id := s.nextId }],
                   nextId := s.nextId + 1 }) ∧
      (sellStep r bal).1 = alloc ∧ (sellStep r bal).2.2 = newBal ∧
      newBal.lotId = bal.lotId ∧ newBal.lotDt = bal.lotDt ∧
      newBal.settledSize = bal.settledSize ∧
      (r < bal.lotSize → alloc = r ∧ newBal.lotSize = bal.lotSize - alloc ∧
        newBal.unsettledSize = bal.unsettledSize - alloc) ∧
      (bal.lotSize ≤ r → alloc = bal.lotSize ∧ newBal.lotSize = 0 ∧
        newBal.unsettledSize = 0) := by
  refine ⟨(sellStep r bal).1, (sellStep r bal).2.2, ?_, rfl, rfl, ?_, ?_, ?_, ?_, ?_⟩
  · have h0 : (allocTxnFor txn lotID (sellStep r bal).1).id = 0 := rfl
    have h1 : (updateLotBal s (sellStep r bal).2.2).txns = s.txns := rfl
    have h2 : (updateLotBal s (sellStep r bal).2.2).nextId = s.nextId := rfl
    simp only [sellLoop, hget, createTxn, h0, h1, h2, if_true, hfresh]
    by_cases hz : (sellStep r bal).2.1 = 0 <;> simp [hz, sellLoop]
  · unfold sellStep; split <;> rfl
  · unfold sellStep; split <;> rfl
  · unfold sellStep; split <;> rfl
  · intro h
    simp [sellStep, h]
  · intro h
    simp [sellStep, not_lt.mpr h]

/-- C5 at scenario S2: 40 sold against lot 100 holding 100 unsettled leaves lot size 60,
unsettled 60 and settled 0. -/
theorem C5_sell_allocation_step_witness :
    sellStep (40 : ℤ) (mkBal 100 3 100 0 100) = (40, 0, mkBal 100 3 60 0 60) ∧
    ∃ (alloc : ℤ) (newBal : LotBal ℤ),
      sellLoop (mkTxn 2 0 "trade" "sell" 3 5 40 0 0 4000) [100] 40 sellStore =
        (.ok (), { updateLotBal sellStore newBal with
                   txns := sellStore.txns ++
                     [{ allocTxnFor (mkTxn 2 0 "trade" "sell" 3 5 40 0 0 4000) 100 alloc with
                        id := sellStore.nextId }],
                   nextId := sellStore.nextId + 1 }) ∧
      (sellStep 40 (mkBal 100 3 100 0 100)).1 = alloc ∧
      (sellStep 40 (mkBal 100 3 100 0 100)).2.2 = newBal ∧
      newBal.lotId = (mkBal 100 3 100 0 100).lotId ∧ newBal.lotDt = (mkBal 100 3 100 0 100).lotDt ∧
      newBal.settledSize = (mkBal 100 3 100 0 100).settledSize ∧
      ((40 : ℤ) < (mkBal 100 3 100 0 100).lotSize → alloc = 40 ∧
        newBal.lotSize = (mkBal 100 3 100 0 100).lotSize - alloc ∧
        newBal.unsettledSize = (mkBal 100 3 100 0 100).unsettledSize - alloc) ∧
      ((mkBal 100 3 100 0 100).lotSize ≤ 40 → alloc = (mkBal 100 3 100 0 100).lotSize ∧
        newBal.lotSize = 0 ∧ newBal.unsettledSize = 0) :=
  ⟨by decide,
    C5_sell_allocation_step (mkTxn 2 0 "trade" "sell" 3 5 40 0 0 4000) 100 40 sellStore
      (mkBal 100 3 100 0 100) (by decide) (by decide)⟩

/-- C6: a successful `ProcessTxn` of an open buy appends exactly two lots, both with
`srcTxnId` the buy: the instrument lot (`instId`, `txnSize`, `txnDt`) and the
payable/receivable lot (`settleAmtCcyId`, `settleAmtNet`, `txnDt`); it appends exactly one
balance for each, dated `txnDt`, with lot size the original size, all of it unsettled and
settled size 0; and the transaction table keeps its rows, the buy now processed, so no
allocation transaction is created. -/
theorem C6_buy_effects (s s' : Store R) (request : ProcessTxnRequest) (txn : Txn R)
    (resp : ProcessTxnResponse)
    (hget : getTxn s request.id = .ok txn) (hopen : txn.state = TxnState.Open)
    (htype : txn.txnType = TxnType.Trade) (hsub : txn.txnSubType = TxnSubType.Buy)
    (hok : ProcessTxn s request = (.ok resp, s')) :
    txn.id = request.id ∧
    s'.lots = s.lots ++
      [{ id := s.nextId, instId := txn.instId, srcTxnId := txn.id, leOrgId := 0, acctId := 0,
         origDt := txn.txnDt, origSize := txn.txnSize },
       { id := s.nextId + 1, instId := txn.settleAmtCcyId, srcTxnId := txn.id, leOrgId := 0,
         acctId := 0, origDt := txn.txnDt, origSize := txn.settleAmtNet }] ∧
    s'.lotBals = s.lotBals ++
      [{ lotId := s.nextId, lotDt := txn.txnDt, lotSize := txn.txnSize, settledSize := 0,
         unsettledSize := txn.txnSize },
       { lotId := s.nextId + 1, lotDt := txn.txnDt, lotSize := txn.settleAmtNet,
         settledSize := 0, unsettledSize := txn.settleAmtNet }] ∧
    s'.txns = s.txns.map
      (fun t => if t.id = txn.id then { txn with state := TxnState.Processed } else t) ∧
    resp = { id := request.id, state := TxnState.Processed } := by
  have hbr : ¬ (TxnSubType.Buy = TxnSubType.Reinvest) := by decide
  unfold ProcessTxn at hok
  simp only [hget, hopen, if_true, dispatch, htype, processTrade, tradeSwitch, hsub, processBuy,
    ne_eq, hbr,
    not_false_eq_true] at hok
  rcases h1 : createLot s (tradeLot txn) with ⟨r1, s1⟩
  rw [h1] at hok
  cases r1 with
  | error e => simp at hok
  | ok l1 =>
    simp only at hok
    rcases h2 : createLot s1 (payRecLotFor txn) with ⟨r2, s2⟩
    rw [h2] at hok
    cases r2 with
    | error e => simp at hok
    | ok l2 =>
      simp only [Prod.mk.injEq, Except.ok.injEq] at hok
      obtain ⟨hresp, hs'⟩ := hok
      obtain ⟨hl1, hs1⟩ := createLot_ok h1
      obtain ⟨hl2, hs2⟩ := createLot_ok h2
      subst hs'
      subst hs2
      subst hs1
      subst hl1
      subst hl2
      refine ⟨(getTxn_ok hget).2, ?_, ?_, ?_, hresp.symm⟩
      · simp [updateTxn, tradeLot, payRecLotFor, Lot.zero]
      · simp [updateTxn, tradeLot, payRecLotFor, Lot.zero]
      · simp [updateTxn, htype, hsub]

/-- C6 at scenario S1: the buy of 100 for 10000 on day 2 creates lots 100 and 101 with their
balances on day 2. -/
theorem C6_buy_effects_witness :
    (ProcessTxn buyStore { id := 1, lotIds := [] }).2.lots
        = [mkLot 100 7 1 2 100, mkLot 101 8 1 2 10000] ∧
      (ProcessTxn buyStore { id := 1, lotIds := [] }).2.lotBals
        = [mkBal 100 2 100 0 100, mkBal 101 2 10000 0 10000] ∧
      ((ProcessTxn buyStore { id := 1, lotIds := [] }).2.txns.map Txn.id) = [1] :=
  have h := C6_buy_effects buyStore (ProcessTxn buyStore { id := 1, lotIds := [] }).2
    { id := 1, lotIds := [] } (mkTxn 1 0 "trade" "buy" 2 4 100 0 0 10000)
    { id := 1, state := TxnState.Processed } (by decide) (by decide) (by decide) (by decide)
    (by decide)
  ⟨h.2.1, h.2.2.1, by rw [h.2.2.2.1]; decide⟩

/-- C7: for an open settle transaction whose parent's allocation transactions do not sum to
the parent's size, `ProcessTxn` returns the size-mismatch error and leaves the store as it was
(no balance is written, the settle transaction keeps its state). -/
theorem C7_settle_size_check (s : Store R) (request : ProcessTxnRequest) (txn origTxn : Txn R)
    (hget : getTxn s request.id = .ok txn) (hopen : txn.state = TxnState.Open)
    (htype : txn.txnType = TxnType.Settle) (hparent : getTxn s txn.parentId = .ok origTxn)
    (hsum : ((s.txns.filter (fun a => a.txnType = TxnType.Allocation ∧
              a.parentId = origTxn.id)).map Txn.txnSize).sum ≠ origTxn.txnSize) :
    ProcessTxn s request = (.error .sizeMismatch, s) ∧ Fault.isPanic .sizeMismatch = false := by
  have hne : origTxn.txnSize ≠ allocTotTxnSize (listTxns s [TxnType.Allocation] [origTxn.id]) := by
    rw [allocTotTxnSize_eq_sum]
    intro h
    apply hsum
    rw [h]
    congr 2
    unfold listTxns
    congr 1
    funext a
    simp
  have hts : ¬ (TxnType.Settle = TxnType.Trade) := by decide
  simp [ProcessTxn, hget, hopen, dispatch, htype, hts, processSettle, hparent, hne, Fault.isPanic]

/-- C7 at the store of the buy scenario: the buy has size 100 and no allocation. -/
theorem C7_settle_size_check_witness :
    ProcessTxn buySettleStore { id := 2, lotIds := [] } = (.error .sizeMismatch, buySettleStore) ∧
      Fault.isPanic .sizeMismatch = false :=
  C7_settle_size_check buySettleStore { id := 2, lotIds := [] }
    (mkTxn 2 1 "settle" "" 4 4 0 0 0 0)
    { mkTxn 1 0 "trade" "buy" 2 4 100 0 0 10000 with state := TxnState.Processed }
    (by decide) (by decide) (by decide) (by decide) (by decide)

/-- C8: in the settle branch, once the size check has passed and the balance of every
allocation's target lot exists on the settle date, the allocation loop succeeds and hands the
store `s'` to the payable/receivable step; it writes no transaction and no lot; on the settle date
every balance has its settled size changed by the signed total of the allocations targeting its
lot (minus the allocation size for a sell parent, plus otherwise, accumulated over allocations
of the same lot), lot size and unsettled size unchanged; balances on other dates are
unchanged. -/
theorem C8_settle_allocations (txn origTxn : Txn R) (s : Store R)
    (hparent : getTxn s txn.parentId = .ok origTxn)
    (hsize : origTxn.txnSize = allocTotTxnSize (listTxns s [TxnType.Allocation] [origTxn.id]))
    (hbal : ∀ a ∈ listTxns s [TxnType.Allocation] [origTxn.id],
      ∃ b, getLotBal s a.tgtLotId txn.settleDt = .ok b) :
    ∃ s' : Store R,
      settleLoop txn origTxn (listTxns s [TxnType.Allocation] [origTxn.id]) s = (.ok (), s') ∧
      processSettle txn s = settlePayRec txn s' ∧
      s'.txns = s.txns ∧ s'.lots = s.lots ∧
      (∀ lot b, getLotBal s lot txn.settleDt = .ok b →
        getLotBal s' lot txn.settleDt =
          .ok { b with settledSize := b.settledSize +
                  settleDelta origTxn (listTxns s [TxnType.Allocation] [origTxn.id]) lot }) ∧
      (∀ lot dt, dt ≠ txn.settleDt → getLotBal s' lot dt = getLotBal s lot dt) := by
  obtain ⟨s', hrun, htx, hlots, -, hsame, hdiff⟩ := settleLoop_spec txn origTxn _ s hbal
  refine ⟨s', hrun, ?_, htx, hlots, hsame, hdiff⟩
  simp [processSettle, hparent, hsize.symm, hrun]

/-- C8 at scenario S3: settling the sell of 40 lowers the settled size of lot 100 on day 5 by
40, from 0 to -40, and leaves lot size 60 and unsettled size 60. -/
theorem C8_settle_allocations_witness :
    ∃ s' : Store ℤ,
      settleLoop (mkTxn 3 2 "settle" "" 5 5 0 0 0 0)
        { mkTxn 2 0 "trade" "sell" 3 5 40 0 0 4000 with state := TxnState.Processed }
        (listTxns sellSettleStore [TxnType.Allocation] [2]) sellSettleStore = (.ok (), s') ∧
      getLotBal s' 100 5 = .ok (mkBal 100 5 60 (-40) 60) := by
  obtain ⟨s', h1, -, -, -, h5, -⟩ := C8_settle_allocations (mkTxn 3 2 "settle" "" 5 5 0 0 0 0)
    { mkTxn 2 0 "trade" "sell" 3 5 40 0 0 4000 with state := TxnState.Processed }
    sellSettleStore (by decide) (by decide)
    (by
      intro a ha
      have h : listTxns sellSettleStore [TxnType.Allocation] [2]
          = [{ allocTxnFor (mkTxn 2 0 "trade" "sell" 3 5 40 0 0 4000) 100 40 with id := 200 }] := by
        decide
      rw [show (({ mkTxn 2 0 "trade" "sell" 3 5 40 0 0 4000 with
                   state := TxnState.Processed } : Txn ℤ).id) = 2 from rfl, h] at ha
      simp only [List.mem_singleton] at ha
      subst ha
      exact ⟨mkBal 100 5 60 0 60, by decide⟩)
  exact ⟨s', h1, (h5 100 (mkBal 100 5 60 0 60) (by decide)).trans (by decide)⟩

/-- C9: after a successful `ProcessTxn` of an open settle transaction, every lot whose
`srcTxnId` is the settled parent (the parent's payable/receivable lot) has a balance on the
settle date that existed before the call, keeps its lot size, and now has settled size equal
to lot size and unsettled size 0. -/
theorem C9_settle_payable_receivable (s s' : Store R) (request : ProcessTxnRequest)
    (txn : Txn R) (resp : ProcessTxnResponse) (payRec : Lot R)
    (hget : getTxn s request.id = .ok txn) (hopen : txn.state = TxnState.Open)
    (htype : txn.txnType = TxnType.Settle)
    (hok : ProcessTxn s request = (.ok resp, s'))
    (hlot : payRec ∈ s.lots) (hsrc : payRec.srcTxnId = txn.parentId) :
    ∃ b0 b' : LotBal R,
      getLotBal s payRec.id txn.settleDt = .ok b0 ∧
      getLotBal s' payRec.id txn.settleDt = .ok b' ∧
      b'.lotSize = b0.lotSize ∧ b'.settledSize = b'.lotSize ∧ b'.unsettledSize = 0 := by
  have hts : ¬ (TxnType.Settle = TxnType.Trade) := by decide
  unfold ProcessTxn at hok
  simp only [hget, hopen, if_true, dispatch, htype, hts, if_false, processSettle] at hok
  cases hp : getTxn s txn.parentId with
  | error e => rw [hp] at hok; simp at hok
  | ok origTxn =>
    rw [hp] at hok
    simp only at hok
    by_cases hsz : origTxn.txnSize ≠ allocTotTxnSize (listTxns s [TxnType.Allocation] [origTxn.id])
    · rw [if_pos hsz] at hok
      simp at hok
    · rw [if_neg hsz] at hok
      rcases hl : settleLoop txn origTxn (listTxns s [TxnType.Allocation] [origTxn.id]) s
        with ⟨r1, s1⟩
      rw [hl] at hok
      cases r1 with
      | error e => simp at hok
      | ok u =>
        simp only at hok
        rcases hpr : settlePayRec txn s1 with ⟨r2, s2⟩
        rw [hpr] at hok
        cases r2 with
        | error e => simp at hok
        | ok u2 =>
          simp only [Prod.mk.injEq] at hok
          obtain ⟨-, hs'⟩ := hok
          obtain ⟨-, hlots, hframe⟩ := settleLoop_frame _ _ _ _ _ _ hl
          obtain ⟨p, b1, hlist, hb1, hs2⟩ := settlePayRec_ok hpr
          have hmem : payRec ∈ listLots s1 [txn.parentId] := by
            simp [listLots, hlots, hlot, hsrc]
          rw [hlist, List.mem_singleton] at hmem
          subst hmem
          obtain ⟨-, hid1, hdt1⟩ := getLotBal_ok hb1
          have hfr := hframe payRec.id txn.settleDt
          rw [hb1] at hfr
          cases hb0 : getLotBal s payRec.id txn.settleDt with
          | error e => rw [hb0] at hfr; simp [Except.map] at hfr
          | ok b0 =>
            rw [hb0] at hfr
            simp only [Except.map, Except.ok.injEq, Prod.mk.injEq] at hfr
            refine ⟨b0, { b1 with settledSize := b1.lotSize, unsettledSize := 0 }, rfl, ?_,
              hfr.1, rfl, rfl⟩
            subst hs'
            subst hs2
            have := @getLotBal_updateLotBal_same R _ s1
              { b1 with settledSize := b1.lotSize, unsettledSize := 0 } b1
              (by show getLotBal s1 b1.lotId b1.lotDt = .ok b1; rw [hid1, hdt1]; exact hb1)
            show getLotBal (updateLotBal s1
              { b1 with settledSize := b1.lotSize, unsettledSize := 0 }) payRec.id txn.settleDt = _
            rw [← hid1, ← hdt1]
            exact this

/-- C9 at scenario S3: settling the sell of 40 leaves the sell's payable/receivable lot 201 on
day 5 with lot size 4000, all of it settled. -/
theorem C9_settle_payable_receivable_witness :
    (ProcessTxn sellSettleStore { id := 3, lotIds := [] }).1
        = .ok { id := 3, state := TxnState.Processed } ∧
    ∃ b0 b' : LotBal ℤ,
      getLotBal sellSettleStore 201 5 = .ok b0 ∧
      getLotBal (ProcessTxn sellSettleStore { id := 3, lotIds := [] }).2 201 5 = .ok b' ∧
      b'.lotSize = b0.lotSize ∧ b'.settledSize = b'.lotSize ∧ b'.unsettledSize = 0 :=
  ⟨by decide,
    C9_settle_payable_receivable sellSettleStore
      (ProcessTxn sellSettleStore { id := 3, lotIds := [] }).2 { id := 3, lotIds := [] }
      (mkTxn 3 2 "settle" "" 5 5 0 0 0 0) { id := 3, state := TxnState.Processed }
      (mkLot 201 8 2 3 4000) (by decide) (by decide) (by decide) (by decide) (by decide)
      (by decide)⟩

/-- C10 (code at the failing input): after the engine processed a buy of 100, processing an open
settle transaction for that buy fails with the size-mismatch error and changes nothing; the
buy has no allocation transactions and two lots. -/
theorem C10_settle_of_buy_fails :
    (ProcessTxn buyStore { id := 1, lotIds := [] }).1
        = .ok { id := 1, state := TxnState.Processed } ∧
      ProcessTxn buySettleStore { id := 2, lotIds := [] }
        = (.error .sizeMismatch, buySettleStore) ∧
      listTxns buySettleStore [TxnType.Allocation] [1] = [] ∧
      (listLots buySettleStore [1]).map Lot.id = [100, 101] := by
  decide

/-- C11 (code at the failing input): the sell 2 passes the size check (one allocation of 40) and
no lot has `srcTxnId = 2`; processing the open settle 3 ends in the index-out-of-range panic of
`payRecLots[0]`, not in a returned error, after the allocation loop has already written the
balance of lot 100 on day 5. -/
theorem C11_settle_without_payable_receivable_panics :
    (getTxn noPayRecStore 2).map Txn.txnSize = .ok 40 ∧
      (listTxns noPayRecStore [TxnType.Allocation] [2]).map Txn.txnSize = [40] ∧
      listLots noPayRecStore [2] = [] ∧
      (ProcessTxn noPayRecStore { id := 3, lotIds := [] }).1 = .error .indexOutOfRange ∧
      Fault.isPanic .indexOutOfRange = true ∧
      (ProcessTxn noPayRecStore { id := 3, lotIds := [] }).2.lotBals
        = [mkBal 100 3 60 0 60, mkBal 100 5 60 (-40) 60] := by
  decide

/-- C12 (code at the failing input): an open reinvest with trade date 2 and settle date 4 whose
funding lot 30 holds exactly the settle amount 50 on day 4.  `ProcessTxn` creates lot 400 with
its balance on day 2, does not find that balance on day 4 and returns NotFound: the
new balance stays unsettled, the funding balance is not zeroed, the reinvest stays open. -/
theorem C12_reinvest_on_other_settle_date_fails :
    getLotBal reinvestStore 30 4 = .ok (mkBal 30 4 50 50 0) ∧
      (getTxn reinvestStore 5).map Txn.settleAmtNet = .ok 50 ∧
      (ProcessTxn reinvestStore { id := 5, lotIds := [] }).1 = .error .notFound ∧
      (ProcessTxn reinvestStore { id := 5, lotIds := [] }).2.lots
        = [mkLot 30 8 90 1 50, mkLot 400 7 5 2 2] ∧
      (ProcessTxn reinvestStore { id := 5, lotIds := [] }).2.lotBals
        = [mkBal 30 4 50 50 0, mkBal 400 2 2 0 2] ∧
      (getTxn (ProcessTxn reinvestStore { id := 5, lotIds := [] }).2 5).map Txn.state
        = .ok TxnState.Open := by
  decide

/-- C13: for an open sweep whose source cash balance on the settle date exists with unsettled
size different from 0 (the source is `srcLotId` for sub-type in and `tgtLotId` otherwise),
`ProcessTxn` returns the unsettled-sweep error and leaves the store as it was: no balance is
changed and the transaction keeps its state. -/
theorem C13_sweep_precondition (s : Store R) (request : ProcessTxnRequest) (txn : Txn R)
    (cashLotBal : LotBal R)
    (hget : getTxn s request.id = .ok txn) (hopen : txn.state = TxnState.Open)
    (htype : txn.txnType = TxnType.Sweep)
    (hcash : getLotBal s (if txn.txnSubType = TxnSubType.In then txn.srcLotId else txn.tgtLotId)
      txn.settleDt = .ok cashLotBal)
    (hun : cashLotBal.unsettledSize ≠ 0) :
    ProcessTxn s request = (.error .unsettledSweep, s) ∧
      Fault.isPanic .unsettledSweep = false := by
  have h1 : ¬ (TxnType.Sweep = TxnType.Trade) := by decide
  have h2 : ¬ (TxnType.Sweep = TxnType.Settle) := by decide
  simp [ProcessTxn, hget, hopen, dispatch, htype, h1, h2, processSweep, hcash, hun, Fault.isPanic]

/-- C13 at a sweep from cash lot 20, which has 50 unsettled on day 5. -/
theorem C13_sweep_precondition_witness :
    ProcessTxn unsettledSweepStore { id := 4, lotIds := [] }
        = (.error .unsettledSweep, unsettledSweepStore) ∧
      Fault.isPanic .unsettledSweep = false :=
  C13_sweep_precondition unsettledSweepStore { id := 4, lotIds := [] }
    (mkTxn 4 0 "sweep" "in" 5 5 50 20 21 0) (mkBal 20 5 50 0 50)
    (by decide) (by decide) (by decide) (by decide) (by decide)

/-- C14: for an open sweep whose source balance on the settle date exists with unsettled size 0
and whose target balance on the settle date exists, source and target being distinct lots
(source is `srcLotId` and target `tgtLotId` for sub-type in, swapped otherwise), `ProcessTxn`
succeeds; afterwards the target balance has lot size old target plus old source lot size and
settled size equal to that new lot size, the source balance has all three components 0,
every other balance is as before, the lot table is unchanged and the transaction table has
the same rows with the sweep now processed (no allocation transaction, no lot). -/
theorem C14_sweep_effects (s : Store R) (request : ProcessTxnRequest) (txn : Txn R)
    (cashLotBal sweepLotBal : LotBal R)
    (hget : getTxn s request.id = .ok txn) (hopen : txn.state = TxnState.Open)
    (htype : txn.txnType = TxnType.Sweep)
    (hne : (if txn.txnSubType = TxnSubType.In then txn.srcLotId else txn.tgtLotId)
      ≠ (if txn.txnSubType = TxnSubType.In then txn.tgtLotId else txn.srcLotId))
    (hcash : getLotBal s (if txn.txnSubType = TxnSubType.In then txn.srcLotId else txn.tgtLotId)
      txn.settleDt = .ok cashLotBal)
    (hun : cashLotBal.unsettledSize = 0)
    (hsweep : getLotBal s (if txn.txnSubType = TxnSubType.In then txn.tgtLotId else txn.srcLotId)
      txn.settleDt = .ok sweepLotBal) :
    ∃ s' : Store R,
      ProcessTxn s request = (.ok { id := request.id, state := TxnState.Processed }, s') ∧
      getLotBal s' (if txn.txnSubType = TxnSubType.In then txn.tgtLotId else txn.srcLotId)
          txn.settleDt
        = .ok { sweepLotBal with lotSize := sweepLotBal.lotSize + cashLotBal.lotSize,
                                 settledSize := sweepLotBal.lotSize + cashLotBal.lotSize } ∧
      getLotBal s' (if txn.txnSubType = TxnSubType.In then txn.srcLotId else txn.tgtLotId)
          txn.settleDt
        = .ok { cashLotBal with lotSize := 0, settledSize := 0, unsettledSize := 0 } ∧
      (∀ id dt,
        ¬ ((if txn.txnSubType = TxnSubType.In then txn.srcLotId else txn.tgtLotId) = id ∧
            txn.settleDt = dt) →
        ¬ ((if txn.txnSubType = TxnSubType.In then txn.tgtLotId else txn.srcLotId) = id ∧
            txn.settleDt = dt) →
        getLotBal s' id dt = getLotBal s id dt) ∧
      s'.lots = s.lots ∧
      s'.txns = s.txns.map
        (fun t => if t.id = txn.id then { txn with state := TxnState.Processed } else t) := by
  generalize hsrc : (if txn.txnSubType = TxnSubType.In then txn.srcLotId else txn.tgtLotId)
    = source at *
  generalize htgt : (if txn.txnSubType = TxnSubType.In then txn.tgtLotId else txn.srcLotId)
    = target at *
  obtain ⟨-, hcid, hcdt⟩ := getLotBal_ok hcash
  obtain ⟨-, hsid, hsdt⟩ := getLotBal_ok hsweep
  have h1 : ¬ (TxnType.Sweep = TxnType.Trade) := by decide
  have h2 : ¬ (TxnType.Sweep = TxnType.Settle) := by decide
  let sweep' : LotBal R :=
    { sweepLotBal with lotSize := sweepLotBal.lotSize + cashLotBal.lotSize,
                       settledSize := sweepLotBal.lotSize + cashLotBal.lotSize }
  let cash' : LotBal R := { cashLotBal with lotSize := 0, settledSize := 0 }
  have hrun : ProcessTxn s request =
      (.ok { id := request.id, state := TxnState.Processed },
        updateTxn (updateLotBal (updateLotBal s sweep') cash')
          { txn with state := TxnState.Processed }) := by
    simp [ProcessTxn, hget, hopen, dispatch, htype, h1, h2, processSweep, hsrc, htgt, hcash,
      hsweep, hun, sweep', cash']
  have hs1t : getLotBal (updateLotBal s sweep') target txn.settleDt = .ok sweep' := by
    have := @getLotBal_updateLotBal_same R _ s sweep' sweepLotBal
      (by show getLotBal s sweepLotBal.lotId sweepLotBal.lotDt = _; rw [hsid, hsdt]; exact hsweep)
    have e1 : sweep'.lotId = target := hsid
    have e2 : sweep'.lotDt = txn.settleDt := hsdt
    rw [e1, e2] at this
    exact this
  have hs1o : ∀ id dt, ¬ (target = id ∧ txn.settleDt = dt) →
      getLotBal (updateLotBal s sweep') id dt = getLotBal s id dt := by
    intro id dt h
    apply getLotBal_updateLotBal_other
    show ¬ (sweepLotBal.lotId = id ∧ sweepLotBal.lotDt = dt)
    rw [hsid, hsdt]
    exact h
  have hs2o : ∀ id dt, ¬ (source = id ∧ txn.settleDt = dt) →
      getLotBal (updateLotBal (updateLotBal s sweep') cash') id dt
        = getLotBal (updateLotBal s sweep') id dt := by
    intro id dt h
    apply getLotBal_updateLotBal_other
    show ¬ (cashLotBal.lotId = id ∧ cashLotBal.lotDt = dt)
    rw [hcid, hcdt]
    exact h
  have hs2c : getLotBal (updateLotBal (updateLotBal s sweep') cash') source txn.settleDt
      = .ok cash' := by
    have := @getLotBal_updateLotBal_same R _ (updateLotBal s sweep') cash' cashLotBal
      (by
        show getLotBal (updateLotBal s sweep') cashLotBal.lotId cashLotBal.lotDt = _
        rw [hcid, hcdt, hs1o _ _ (fun h => hne h.1.symm)]
        exact hcash)
    have e1 : cash'.lotId = source := hcid
    have e2 : cash'.lotDt = txn.settleDt := hcdt
    rw [e1, e2] at this
    exact this
  refine ⟨_, hrun, ?_, ?_, ?_, rfl, rfl⟩
  · show getLotBal (updateLotBal (updateLotBal s sweep') cash') target txn.settleDt = _
    rw [hs2o _ _ (fun h => hne h.1), hs1t]
  · show getLotBal (updateLotBal (updateLotBal s sweep') cash') source txn.settleDt = _
    rw [hs2c]
    simp only [cash', ← hun]
  · intro id dt hns hnt
    show getLotBal (updateLotBal (updateLotBal s sweep') cash') id dt = _
    rw [hs2o _ _ hns, hs1o _ _ hnt]

/-- C14 for both directions: the sweep in from cash lot 20 (50, settled) into lot 21, and the
sweep out whose `srcLotId` is 21 and `tgtLotId` is 20, which also moves lot 20 into lot 21. -/
theorem C14_sweep_effects_witness :
    (ProcessTxn sweepOutStore { id := 4, lotIds := [] }).2.lotBals
        = [mkBal 20 5 0 0 0, mkBal 21 5 80 80 0] ∧
    ∃ s' : Store ℤ,
      ProcessTxn sweepStore { id := 4, lotIds := [] }
        = (.ok { id := 4, state := TxnState.Processed }, s') ∧
      getLotBal s' 21 5 = .ok (mkBal 21 5 80 80 30) ∧
      getLotBal s' 20 5 = .ok (mkBal 20 5 0 0 0) := by
  refine ⟨by decide, ?_⟩
  obtain ⟨s', h1, h2, h3, -⟩ := C14_sweep_effects sweepStore { id := 4, lotIds := [] }
    (mkTxn 4 0 "sweep" "in" 5 5 50 20 21 0) (mkBal 20 5 50 50 0) (mkBal 21 5 30 0 30)
    (by decide) (by decide) (by decide) (by decide) (by decide) (by decide) (by decide)
  exact ⟨s', h1, h2, h3⟩

/-- C15: the forward roll of a valid date `D` over a balance table that satisfies its primary
key and has no row on the day after `D`, with no lot list or with a list that starts with an
id.  `RollLots` answers `completed`; the day it writes is the next day number, `D + 1`; it
only appends rows, all dated `D + 1`, so the rows on `D` are as before; for every balance `B`
on `D` of a selected lot, the row `(B.lotId, D + 1)` exists with the three sizes of `B` when one
of them is not zero, and no row of `B.lotId` is dated `D + 1` when all three are zero. -/
theorem C15_forward_roll (s : Store R) (D : Date) (ids : Option (List Id)) (direction : String)
    (hD : D.Valid) (hdir : direction ≠ "back")
    (hids : ∀ l, ids = some l → ∃ x xs, l = x :: xs ∧ x ≠ 0)
    (hkey : (s.lotBals.map (fun b => (b.lotId, b.lotDt))).Nodup)
    (hfree : ∀ b ∈ s.lotBals, b.lotDt ≠ dayNumber D + 1) :
    dayNumber (nextDay D) = dayNumber D + 1 ∧
    ∃ s' : Store R,
      RollLots s { dt := formatDate D, direction := direction, lots := ids }
        = (.ok "completed", s') ∧
      s'.txns = s.txns ∧ s'.lots = s.lots ∧
      (∃ added, s'.lotBals = s.lotBals ++ added ∧ ∀ b ∈ added, b.lotDt = dayNumber D + 1) ∧
      ∀ B ∈ s.lotBals, B.lotDt = dayNumber D → lotSelected ids B.lotId = true →
        ((B.lotSize ≠ 0 ∨ B.settledSize ≠ 0 ∨ B.unsettledSize ≠ 0) →
          getLotBal s' B.lotId (dayNumber D + 1) = .ok { B with lotDt := dayNumber D + 1 }) ∧
        ((B.lotSize = 0 ∧ B.settledSize = 0 ∧ B.unsettledSize = 0) →
          ∀ b ∈ s'.lotBals, ¬ (b.lotId = B.lotId ∧ b.lotDt = dayNumber D + 1)) := by
  refine ⟨dayNumber_nextDay D hD.2.2.1 hD.2.2.2.1 hD.2.2.2.2.1 hD.2.2.2.2.2, ?_⟩
  have hdec : decodeLots ids = .ok ids := by
    unfold decodeLots
    cases ids with
    | none => rfl
    | some l =>
      obtain ⟨x, xs, hl, hx⟩ := hids l rfl
      subst hl
      simp [decodeIds, hx]
  -- the rows the roll lists
  generalize hrows : s.lotBals.filter
    (fun b => b.lotDt = dayNumber D && lotSelected ids b.lotId) = rows
  have hmem : ∀ b, b ∈ rows ↔ b ∈ s.lotBals ∧ b.lotDt = dayNumber D ∧
      lotSelected ids b.lotId = true := by
    intro b
    rw [← hrows, List.mem_filter]
    simp
  have hnd : (rows.map (fun b => b.lotId)).Nodup := by
    have hsub : (rows.map (fun b => (b.lotId, b.lotDt))).Nodup := by
      rw [← hrows]
      exact hkey.sublist ((List.filter_sublist _).map _)
    have heq : rows.map (fun b => (b.lotId, b.lotDt))
        = (rows.map (fun b => b.lotId)).map (fun i => (i, dayNumber D)) := by
      rw [List.map_map]
      apply List.map_congr_left
      intro b hb
      simp only [Function.comp]
      rw [((hmem b).1 hb).2.1]
    rw [heq] at hsub
    exact hsub.of_map _
  have hfree' : ∀ b ∈ rows, ∀ x ∈ s.lotBals, ¬ (x.lotId = b.lotId ∧ x.lotDt = dayNumber D + 1) :=
    fun b _ x hx h => hfree x hx h.2
  have hrun := rollLoop_ok (dayNumber D + 1) rows s hnd hfree'
  generalize hadded : (rows.filter (fun b =>
      decide (b.lotSize ≠ 0 ∨ b.settledSize ≠ 0 ∨ b.unsettledSize ≠ 0))).map
      (fun b => ({ b with lotDt := dayNumber D + 1 } : LotBal R)) = added at hrun
  have haddnd : (added.map (fun b => b.lotId)).Nodup := by
    rw [← hadded, List.map_map]
    exact hnd.sublist ((List.filter_sublist _).map _)
  refine ⟨{ s with lotBals := s.lotBals ++ added }, ?_, rfl, rfl, ⟨added, rfl, ?_⟩, ?_⟩
  · rw [RollLots_forward s D ids direction hD hdir, hdec]
    simp only
    rw [hrows, hrun]
  · intro b hb
    rw [← hadded] at hb
    obtain ⟨b0, _, h0⟩ := List.mem_map.1 hb
    rw [← h0]
  · intro B hB hBdt hBsel
    have hBrows : B ∈ rows := (hmem B).2 ⟨hB, hBdt, hBsel⟩
    constructor
    · intro hnz
      have hin : ({ B with lotDt := dayNumber D + 1 } : LotBal R) ∈ added := by
        rw [← hadded]
        exact List.mem_map.2 ⟨B, List.mem_filter.2 ⟨hBrows, by simpa using hnz⟩, rfl⟩
      unfold getLotBal
      simp only
      rw [List.find?_append]
      have hnone : s.lotBals.find?
          (fun b => decide (b.lotId = B.lotId ∧ b.lotDt = dayNumber D + 1)) = none := by
        rw [List.find?_eq_none]
        intro x hx
        have := hfree x hx
        simp [this]
      rw [hnone]
      have := find_by_key added _ haddnd hin
      simp only at this
      rw [Option.none_or, this]
    · intro hz b hb hk
      simp only [List.mem_append] at hb
      rcases hb with hb | hb
      · exact hfree b hb hk.2
      · rw [← hadded] at hb
        obtain ⟨b0, hb0, h0⟩ := List.mem_map.1 hb
        obtain ⟨hb0rows, hb0nz⟩ := List.mem_filter.1 hb0
        have hid : b0.lotId = B.lotId := by rw [← hk.1, ← h0]
        have : b0 = B := List.inj_on_of_nodup_map hnd hb0rows hBrows hid
        rw [this] at hb0nz
        simp [hz.1, hz.2.1, hz.2.2] at hb0nz

/-- C15 at scenario S6 on the 28th of February 2024, a leap year: the row of lot 10 is written
again under the 29th, lot 11 of three zeros gets no row; and the next day at the ends of a
month, of February and of a year. -/
theorem C15_forward_roll_witness :
    (formatDate { year := 2024, month := 2, day := 28 } = "2024-02-28" ∧
     nextDay { year := 2024, month := 2, day := 28 } = { year := 2024, month := 2, day := 29 } ∧
     nextDay { year := 2024, month := 2, day := 29 } = { year := 2024, month := 3, day := 1 } ∧
     nextDay { year := 2023, month := 2, day := 28 } = { year := 2023, month := 3, day := 1 } ∧
     nextDay { year := 1900, month := 2, day := 28 } = { year := 1900, month := 3, day := 1 } ∧
     nextDay { year := 2023, month := 4, day := 30 } = { year := 2023, month := 5, day := 1 } ∧
     nextDay { year := 2023, month := 12, day := 31 } = { year := 2024, month := 1, day := 1 }) ∧
    ∃ s' : Store ℤ,
      RollLots rollStore { dt := "2024-02-28", direction := "forward", lots := none }
        = (.ok "completed", s') ∧
      getLotBal s' 10 (dayNumber { year := 2024, month := 2, day := 29 })
        = .ok (mkBal 10 (dayNumber { year := 2024, month := 2, day := 29 }) 10 0 10) ∧
      ∀ b ∈ s'.lotBals,
        ¬ (b.lotId = 11 ∧ b.lotDt = dayNumber { year := 2024, month := 2, day := 29 }) := by
  refine ⟨by decide, ?_⟩
  obtain ⟨hnext, s', hrun, -, -, -, hall⟩ :=
    C15_forward_roll rollStore { year := 2024, month := 2, day := 28 } none "forward"
      (by decide) (by decide) (fun l h => by cases h) (by decide) (by decide)
  have h29 : dayNumber { year := 2024, month := 2, day := 29 }
      = dayNumber { year := 2024, month := 2, day := 28 } + 1 := by decide
  have hfmt : formatDate { year := 2024, month := 2, day := 28 } = "2024-02-28" := by decide
  rw [hfmt] at hrun
  refine ⟨s', hrun, ?_, ?_⟩
  · rw [h29]
    exact (hall (mkBal 10 (dayNumber { year := 2024, month := 2, day := 28 }) 10 0 10)
      (by decide) rfl rfl).1 (by decide)
  · rw [h29]
    exact (hall (mkBal 11 (dayNumber { year := 2024, month := 2, day := 28 }) 0 0 0)
      (by decide) rfl rfl).2 (by decide)

/-- C16 (code at the failing input): processing a buy whose state is pending creates no lot and
no balance, but it rewrites the stored state from pending to processed and answers
processed, not the pending state the transaction had. -/
theorem C16_pending_transaction_marked_processed :
    (getTxn pendingStore 1).map Txn.state = .ok TxnState.Pending ∧
      (ProcessTxn pendingStore { id := 1, lotIds := [] }).1
        = .ok { id := 1, state := TxnState.Processed } ∧
      (getTxn (ProcessTxn pendingStore { id := 1, lotIds := [] }).2 1).map Txn.state
        = .ok TxnState.Processed ∧
      (ProcessTxn pendingStore { id := 1, lotIds := [] }).2.lots = [] ∧
      (ProcessTxn pendingStore { id := 1, lotIds := [] }).2.lotBals = [] := by
  decide

namespace vxid

/-- C17: for every 128-bit identifier `n` in canonical form and every tag `p`, `Encode` gives
`p`, then `_`, then the short form when `p` is not empty, and the bare short form when `p` is
empty; the short form has exactly 22 characters, each one a character of the 57 character
alphabet, alphanumeric and different from `_`; and the vector of `vxid_test.go` holds. -/
theorem C17_encoded_form :
    (∀ n : Nat, n < 2 ^ 128 → ∀ p : String,
      (p ≠ "" → Encode (String.mk (uuidString n)) p
        = .ok (p ++ "_" ++ String.mk (shortEncode n))) ∧
      Encode (String.mk (uuidString n)) "" = .ok (String.mk (shortEncode n)) ∧
      (shortEncode n).length = 22 ∧
      ∀ c ∈ shortEncode n, c ∈ alphabet ∧ c.isAlphanum = true ∧ c ≠ '_') ∧
    alphabet.length = 57 ∧
    Encode "9dd05581-2562-4142-89b5-eaa601b8dcda" "inst" = .ok "inst_tjy87Sg2xF7dkXtFtrkU6W" := by
  refine ⟨?_, by decide, by decide⟩
  intro n hn p
  have hvid : String.mk (uuidString n) ≠ "" := by
    intro h
    have := congrArg String.length h
    simp [String.length, uuidString_length] at this
  have h57 : alphabet.length = 57 := by decide
  refine ⟨?_, ?_, ?_, ?_⟩
  · intro hp
    unfold Encode
    rw [if_neg hvid]
    simp only [ne_eq, hp, not_false_eq_true, if_true, uuidParse_uuidString n hn]
    rfl
  · unfold Encode
    rw [if_neg hvid]
    simp [uuidParse_uuidString n hn]
  · simp [shortEncode, toDigits_length, encodedLength]
  · intro c hc
    have hc' := hc
    unfold shortEncode at hc'
    rw [List.mem_map] at hc'
    obtain ⟨d, hd, rfl⟩ := hc'
    rw [h57] at hd
    have hlt := toDigits_lt 57 _ n (by norm_num) d hd
    exact ⟨(alphaChar_alnum d hlt).1, (alphaChar_alnum d hlt).2, alphaChar_ne_delim d hlt⟩

/-- C17 at the identifier of `vxid_test.go`, with the instrument tag and with the empty tag. -/
theorem C17_encoded_form_witness :
    String.mk (shortEncode 0x9dd055812562414289b5eaa601b8dcda) = "tjy87Sg2xF7dkXtFtrkU6W" ∧
    (("inst" : String) ≠ "" → Encode (String.mk (uuidString 0x9dd055812562414289b5eaa601b8dcda)) "inst"
      = .ok ("inst" ++ "_" ++ String.mk (shortEncode 0x9dd055812562414289b5eaa601b8dcda))) ∧
    Encode (String.mk (uuidString 0x9dd055812562414289b5eaa601b8dcda)) ""
      = .ok (String.mk (shortEncode 0x9dd055812562414289b5eaa601b8dcda)) :=
  ⟨by decide,
    (C17_encoded_form.1 0x9dd055812562414289b5eaa601b8dcda (by decide) "inst").1,
    (C17_encoded_form.1 0x9dd055812562414289b5eaa601b8dcda (by decide) "inst").2.1⟩

end vxid

namespace EntityStore

/-- C18 (code at the failing input): the stored portfolio `…21` has the parent `9dd0…`; an
update with the field mask `name` and a body without parent hands the database a row whose
`parentId` is still the external form `prt_tjy87Sg2xF7dkXtFtrkU6W` that `GetPort` produced,
because `UpdatePort` tests the parent of the body.  `UpdateAcct`, which tests the parent of the
target, hands over the internal identifier on the same input. -/
theorem C18_update_port_writes_external_parent :
    (UpdatePort sampleTable
        { id := "prt_b222222222222222222222", parentId := "", name := "renamed" }
        (some ["name"])).map Prod.fst
      = .ok { id := "00000000-0000-0000-0000-000000000021",
              parentId := "prt_tjy87Sg2xF7dkXtFtrkU6W", name := "renamed" } ∧
    vxid.Decode "prt_tjy87Sg2xF7dkXtFtrkU6W" = .ok "9dd05581-2562-4142-89b5-eaa601b8dcda" ∧
    (UpdateAcct sampleTable
        { id := "acct_b222222222222222222222", parentId := "", name := "renamed" }
        (some ["name"])).map Prod.fst
      = .ok { id := "00000000-0000-0000-0000-000000000021",
              parentId := "9dd05581-2562-4142-89b5-eaa601b8dcda", name := "renamed" } := by
  decide

/-- C19 (code at the failing input): for the stored strategy `…21` with parent `9dd0…`,
`GetStrat` renders the parent with the organization tag, `org_tjy87Sg2xF7dkXtFtrkU6W`, and
`ListStrats` renders the same parent with the strategy tag, `str_tjy87Sg2xF7dkXtFtrkU6W`. -/
theorem C19_get_strat_renders_parent_with_org_tag :
    (GetStrat sampleTable "str_b222222222222222222222").map Row.parentId
      = .ok "org_tjy87Sg2xF7dkXtFtrkU6W" ∧
    (ListStrats sampleTable).map (fun rows => rows.map Row.parentId)
      = .ok ["", "str_tjy87Sg2xF7dkXtFtrkU6W"] ∧
    vxid.Encode "9dd05581-2562-4142-89b5-eaa601b8dcda" vxid.PfxMap.Strategy
      = .ok "str_tjy87Sg2xF7dkXtFtrkU6W" := by
  decide

end EntityStore

/-- C20 (the claim as stated fails): a `CreateLot` request whose body carries the id 100 and
one balance is not refused: the store is called and inserts the balance for lot 100. -/
theorem C20_create_lot_with_id_and_balance_reaches_store :
    (Service.CreateLot storeCreateLot sellStore
        (some { lot := mkLot 100 0 0 0 0, bal := [mkBal 0 4 10 5 5] })).1
      = .ok { lot := mkLot 100 0 0 0 0, bal := [mkBal 100 4 10 0 10] } ∧
    (Service.CreateLot storeCreateLot sellStore
        (some { lot := mkLot 100 0 0 0 0, bal := [mkBal 0 4 10 5 5] })).2.lotBals
      = sellStore.lotBals ++ [mkBal 100 4 10 0 10] := by
  decide

/-- C20 (amended): whatever the store is, the Create handler of the organization, account,
portfolio, strategy, instrument and transaction services answers a body with a non-empty id
with InvalidArgument and leaves the state as it was (the store is not called); `CreateLot`
does so when the body has a non-empty id and no balance; a body with one or more balances
goes to the store, with or without an id. -/
theorem C20_create_rejects_supplied_id :
    (∀ (β σ : Type) (hasId : β → Bool) (storeCreate : σ → β → Except Fault β × σ) (s : σ)
        (body : β), hasId body = true →
        Service.CreateEntity hasId storeCreate s (some body) = (.error .invalidArgument, s)) ∧
    (∀ (σ : Type) (storeCreate : σ → LotMsg R → Except Fault (LotMsg R) × σ) (s : σ)
        (body : LotMsg R), body.lot.id ≠ 0 → body.bal = [] →
        Service.CreateLot storeCreate s (some body) = (.error .invalidArgument, s)) ∧
    (∀ (σ : Type) (storeCreate : σ → LotMsg R → Except Fault (LotMsg R) × σ) (s : σ)
        (body : LotMsg R), body.bal ≠ [] →
        Service.CreateLot storeCreate s (some body) = storeCreate s body) := by
  refine ⟨?_, ?_, ?_⟩
  · intro β σ hasId storeCreate s body h
    simp [Service.CreateEntity, h]
  · intro σ storeCreate s body hid hbal
    simp [Service.CreateLot, hid, hbal]
  · intro σ storeCreate s body hbal
    have : body.bal.length ≠ 0 := fun h => hbal (List.length_eq_zero.mp h)
    simp [Service.CreateLot, this]

/-- C20 (amended) at a transaction body with id 9 over the transaction store, and at a lot
body with id 100 and no balance over the lot store. -/
theorem C20_create_rejects_supplied_id_witness :
    Service.CreateEntity (fun (t : Txn ℤ) => decide (t.id ≠ 0)) createTxn sellStore
        (some (mkTxn 9 0 "trade" "buy" 2 4 100 0 0 10000))
      = (.error .invalidArgument, sellStore) ∧
    Service.CreateLot storeCreateLot sellStore (some { lot := mkLot 100 0 0 0 0, bal := [] })
      = (.error .invalidArgument, sellStore) :=
  ⟨(C20_create_rejects_supplied_id (R := ℤ)).1 (Txn ℤ) (Store ℤ) _ createTxn sellStore
      (mkTxn 9 0 "trade" "buy" 2 4 100 0 0 10000) (by decide),
   (C20_create_rejects_supplied_id (R := ℤ)).2.1 (Store ℤ) storeCreateLot sellStore
      { lot := mkLot 100 0 0 0 0, bal := [] } (by decide) rfl⟩

/-- C21 (code at the failing input): an update of the portfolio `…21` (the id of the request)
whose body carries the id of the portfolio `9dd0…`.  `UpdatePort` of the service passes the
body on with the id it carried, so the store renames the portfolio `9dd0…`; `UpdateAcct`, which
overwrites the id, updates the row `…21` on the same input. -/
theorem C21_update_port_keeps_body_id :
    Service.UpdatePort (fun (body : EntityStore.Row) (_ : Option (List String)) => body.id)
        "prt_b222222222222222222222"
        { id := "prt_tjy87Sg2xF7dkXtFtrkU6W", parentId := "", name := "renamed" } none
      = "prt_tjy87Sg2xF7dkXtFtrkU6W" ∧
    Service.UpdateStrat (fun (body : EntityStore.Row) (_ : Option (List String)) => body.id)
        "str_b222222222222222222222"
        { id := "str_tjy87Sg2xF7dkXtFtrkU6W", parentId := "", name := "renamed" } none
      = "str_tjy87Sg2xF7dkXtFtrkU6W" ∧
    (Service.UpdatePort (EntityStore.UpdatePort EntityStore.sampleTable)
        "prt_b222222222222222222222"
        { id := "prt_tjy87Sg2xF7dkXtFtrkU6W", parentId := "", name := "renamed" } none).map
        (fun r => r.2.map EntityStore.Row.name)
      = .ok ["renamed", "child"] ∧
    (Service.UpdateAcct (EntityStore.UpdateAcct EntityStore.sampleTable)
        "acct_b222222222222222222222"
        { id := "acct_tjy87Sg2xF7dkXtFtrkU6W", parentId := "", name := "renamed" } none).map
        (fun r => r.2.map EntityStore.Row.name)
      = .ok ["parent", "renamed"] := by
  decide

/-- C22 (the claim as stated fails): the text `not json` is not a JSON object, the decoder
rejects it, and `ListTxns` and `ListLots` return every row of the table instead of an
error. -/
theorem C22_malformed_filter_lists_all_rows :
    ListTxns (fun _ => .rejected) sellSettleStore "not json" = .ok sellSettleStore.txns ∧
    sellSettleStore.txns.map (fun t => t.id) = [2, 200, 3] ∧
    ListLots (fun _ => .rejected) sellSettleStore "not json" = .ok sellSettleStore.lots ∧
    sellSettleStore.lots.map (fun l => l.id) = [100, 201] := by
  decide

/-- C22 (amended): a filter text the JSON decoder rejects is ignored: `ListTxns` and `ListLots`
return the whole table, which is what the zero filter selects. -/
theorem C22_malformed_filter_ignored (unmarshalTxn : String → Unmarshalled TxnFilter)
    (unmarshalLot : String → Unmarshalled LotFilter) (s : Store R) (filter : String)
    (hTxn : unmarshalTxn filter = .rejected) (hLot : unmarshalLot filter = .rejected) :
    ListTxns unmarshalTxn s filter = .ok s.txns ∧
    ListLots unmarshalLot s filter = .ok s.lots ∧
    ListTxns unmarshalTxn s filter = TxnFilter.query TxnFilter.zero s.txns ∧
    ListLots unmarshalLot s filter = LotFilter.query LotFilter.zero s.lots := by
  simp [ListTxns, ListLots, hTxn, hLot, TxnFilter.query, LotFilter.query, TxnFilter.zero,
    LotFilter.zero]

/-- C22 at the text `not json`, with decoders that reject every text other than `null`. -/
theorem C22_malformed_filter_ignored_witness :
    (if ("not json" : String) = "null" then Unmarshalled.null else .rejected)
      = (Unmarshalled.rejected : Unmarshalled TxnFilter) ∧
    ListTxns (fun t => if t = "null" then .null else .rejected) sellSettleStore
        "not json" = .ok sellSettleStore.txns ∧
    ListLots (fun t => if t = "null" then .null else .rejected) sellSettleStore
        "not json" = .ok sellSettleStore.lots :=
  ⟨by decide,
    (C22_malformed_filter_ignored (fun t => if t = "null" then .null else .rejected)
      (fun t => if t = "null" then .null else .rejected) sellSettleStore "not json"
      (by decide) (by decide)).1,
    (C22_malformed_filter_ignored (fun t => if t = "null" then .null else .rejected)
      (fun t => if t = "null" then .null else .rejected) sellSettleStore "not json"
      (by decide) (by decide)).2.1⟩

namespace vxid

/-- C23 (code at the failing input): `Encodes` returns a list whose first id is empty as it
came, for every list of tags, before it looks at the number of tags.  With the two ids `""` and
`9dd0…` and the three tags `a`, `b`, `c` (neither one tag nor one per id) it answers with no
error and hands back the internal id `9dd0…` where `Encode` with its tag gives
`b_tjy87Sg2xF7dkXtFtrkU6W`; the same ids with one tag per id are returned unencoded too.  With
no tag and a first id that is not empty it reads `pfxs[0]` and panics. -/
theorem C23_encodes_empty_first_id_skips_check :
    (∀ vids pfxs : List String, Encodes ("" :: vids) pfxs = .ok ("" :: vids)) ∧
    Encodes ["", "9dd05581-2562-4142-89b5-eaa601b8dcda"] ["a", "b", "c"]
      = .ok ["", "9dd05581-2562-4142-89b5-eaa601b8dcda"] ∧
    Encodes ["", "9dd05581-2562-4142-89b5-eaa601b8dcda"] ["a", "b"]
      = .ok ["", "9dd05581-2562-4142-89b5-eaa601b8dcda"] ∧
    Encode "9dd05581-2562-4142-89b5-eaa601b8dcda" "b" = .ok "b_tjy87Sg2xF7dkXtFtrkU6W" ∧
    Encodes ["9dd05581-2562-4142-89b5-eaa601b8dcda"] [] = .error .indexOutOfRange := by
  refine ⟨fun vids pfxs => ?_, by decide, by decide, by decide, by decide⟩
  simp [Encodes]

/-- C24 (code at the failing input): `Decodes` returns a list whose first element is empty as
it came, whatever follows.  For `""` followed by the well-formed external id
`inst_tjy87Sg2xF7dkXtFtrkU6W` the second element of the result is still the external id, where
`Decode` gives `9dd0…`; `Decode` itself maps the empty id to the empty id, and the same two
elements in the other order are decoded one by one. -/
theorem C24_decodes_empty_first_returns_input :
    (∀ xs : List String, Decodes ("" :: xs) = .ok ("" :: xs)) ∧
    Decodes ["", "inst_tjy87Sg2xF7dkXtFtrkU6W"] = .ok ["", "inst_tjy87Sg2xF7dkXtFtrkU6W"] ∧
    Decode "inst_tjy87Sg2xF7dkXtFtrkU6W" = .ok "9dd05581-2562-4142-89b5-eaa601b8dcda" ∧
    Decode "" = .ok "" ∧
    Decodes ["inst_tjy87Sg2xF7dkXtFtrkU6W", ""]
      = .ok ["9dd05581-2562-4142-89b5-eaa601b8dcda", ""] := by
  refine ⟨fun xs => ?_, by decide, by decide, by decide, by decide⟩
  simp [Decodes]

end vxid

/-- C25 (code at the failing input): a filter whose `ID`, `ParentID` or `SrcTxnID` slice is
present and empty makes the query fail with an index out of range, which is a panic, while the
same filter with the slice absent lists the table. -/
theorem C25_empty_identifier_array_panics :
    TxnFilter.query { ID := some [], TxnType := none, TxnTypeNEQ := none, ParentID := none }
        sellSettleStore.txns = .error .indexOutOfRange ∧
    TxnFilter.query { ID := none, TxnType := none, TxnTypeNEQ := none, ParentID := some [] }
        sellSettleStore.txns = .error .indexOutOfRange ∧
    TxnFilter.query { ID := none, TxnType := none, TxnTypeNEQ := none, ParentID := none }
        sellSettleStore.txns = .ok sellSettleStore.txns ∧
    LotFilter.query { ID := some [], SrcTxnID := none } sellSettleStore.lots
      = .error .indexOutOfRange ∧
    LotFilter.query { ID := none, SrcTxnID := some [] } sellSettleStore.lots
      = .error .indexOutOfRange ∧
    LotFilter.query { ID := none, SrcTxnID := none } sellSettleStore.lots
      = .ok sellSettleStore.lots ∧
    ListTxns (fun _ => .value { ID := some [], TxnType := none, TxnTypeNEQ := none,
                                ParentID := none }) sellSettleStore "filter with an empty ID array"
      = .error .indexOutOfRange ∧
    Fault.isPanic .indexOutOfRange = true := by
  decide

/-- C26 (code at the failing inputs): with an `UpdateLotBal` that fails on every call, the
sweep of `sweepStore` still answers `processed`, marks the transaction processed and leaves both
balances as they were; and the settle of scenario S3, when `GetLotBal` finds no balance of the
payable/receivable lot on the settle date, ends in a nil dereference, which is a panic and not a
returned error. -/
theorem C26_sweep_drops_update_error :
    (ProcessTxnWith failingUpdateLotBal sweepStore { id := 4, lotIds := [] }).1
      = .ok { id := 4, state := TxnState.Processed } ∧
    (ProcessTxnWith failingUpdateLotBal sweepStore { id := 4, lotIds := [] }).2.lotBals
      = sweepStore.lotBals ∧
    (ProcessTxnWith failingUpdateLotBal sweepStore { id := 4, lotIds := [] }).2.txns.map
        (fun t => (t.id, t.state)) = [(4, TxnState.Processed)] ∧
    listLots payRecNotRolledStore [2] = [mkLot 201 8 2 3 4000] ∧
    getLotBal payRecNotRolledStore 201 5 = .error .notFound ∧
    (ProcessTxn payRecNotRolledStore { id := 3, lotIds := [] }).1 = .error .nilDereference ∧
    Fault.isPanic .nilDereference = true := by
  decide

/-- C27 (the claim as stated fails): a sell of 100 against the list `[10, 10]`, where lot 10
holds 60: counted once per entry the list holds 120, yet the loop allocates 60 and then 0,
because the second visit finds the lot already emptied. -/
theorem C27_repeated_lot_is_counted_once :
    ((([10, 10] : List Id).map (lotSizeOn repeatedLotStore 3)).sum = 120) ∧
    (ProcessTxn repeatedLotStore { id := 1, lotIds := [10, 10] }).1
      = .ok { id := 1, state := TxnState.Processed } ∧
    (listTxns (ProcessTxn repeatedLotStore { id := 1, lotIds := [10, 10] }).2
        [TxnType.Allocation] [1]).map (fun a => (a.tgtLotId, a.txnSize)) = [(10, 60), (10, 0)] ∧
    getLotBal (ProcessTxn repeatedLotStore { id := 1, lotIds := [10, 10] }).2 10 3
      = .ok (mkBal 10 3 0 0 0) := by
  decide

/-- C27 (amended): a sell of size `S ≥ 0` against a list of distinct lots whose balances on
`txnDt` exist with `lotSize ≥ 0`, in a store whose id generator is ahead of the transaction ids,
when the lots suffice: at some lot of the list the remainder (`S` less the sizes of the lots
before it, taken off one by one) is at most that lot's `lotSize`.  The sell block succeeds; it
appends one allocation per visited lot, in caller order, the visited lots being a prefix of the
list; each allocation `a` has `0 ≤ a.txnSize ≤` the lot's `lotSize` before the call; taking the
allocations off `S` one by one leaves zero, and does not leave zero before the last one; each
visited balance's `lotSize` is its old value less its allocation; every other balance and the
lot table are as before.  The sizes are compared and subtracted as the loop does it; no sum of
sizes is formed. -/
theorem C27_sell_allocation_exact (txn : Txn R) (ids : List Id) (s : Store R)
    (hS : 0 ≤ txn.txnSize) (hnd : ids.Nodup)
    (hbal : ∀ id ∈ ids, ∃ b, getLotBal s id txn.txnDt = .ok b ∧ 0 ≤ b.lotSize)
    (hsuff : ∃ pre id post, ids = pre ++ id :: post ∧
      remainingAfter txn.txnSize (pre.map (lotSizeOn s txn.txnDt)) ≤ lotSizeOn s txn.txnDt id)
    (hfresh : ∀ t ∈ s.txns, t.id < s.nextId) :
    ∃ (s' : Store R) (visited rest : List Id) (allocs : List (Txn R)),
      processSell txn ids s = (.ok (), s') ∧
      ids = visited ++ rest ∧
      s'.txns = s.txns ++ allocs ∧
      allocs.map Txn.tgtLotId = visited ∧
      remainingAfter txn.txnSize (allocs.map Txn.txnSize) = 0 ∧
      (∀ a ∈ allocs, a.parentId = txn.id ∧ a.txnType = TxnType.Allocation ∧
        ∃ b b', getLotBal s a.tgtLotId txn.txnDt = .ok b ∧ 0 ≤ a.txnSize ∧
          a.txnSize ≤ b.lotSize ∧ getLotBal s' a.tgtLotId txn.txnDt = .ok b' ∧
          b'.lotSize = b.lotSize - a.txnSize) ∧
      (∀ p q : List (Txn R), allocs = p ++ q → p ≠ [] → q ≠ [] →
        remainingAfter txn.txnSize (p.map Txn.txnSize) ≠ 0) ∧
      (∀ id dt, (id ∉ visited ∨ dt ≠ txn.txnDt) → getLotBal s' id dt = getLotBal s id dt) ∧
      s'.lots = s.lots := by
  obtain ⟨s', visited, rest, allocs, h1, h2, h3, h4, h5, h6, h7, h8, h9, _⟩ :=
    sellLoop_exact txn ids txn.txnSize s hS hnd hbal hsuff hfresh
  exact ⟨s', visited, rest, allocs, h1, h2, h3, h4, h5, h6, h7, h8, h9⟩

/-- C27 at a sell of 60 against lot 10 of 50 and lot 11 of 30: the allocations are 50 and
10. -/
theorem C27_sell_allocation_exact_witness :
    ((processSell (mkTxn 1 0 "trade" "sell" 3 5 60 0 0 5000) [10, 11] shortSellStore).2.txns.drop
        1).map (fun a => (a.tgtLotId, a.txnSize)) = [(10, 50), (11, 10)] ∧
    ∃ (s' : Store ℤ) (visited rest : List Id) (allocs : List (Txn ℤ)),
      processSell (mkTxn 1 0 "trade" "sell" 3 5 60 0 0 5000) [10, 11] shortSellStore
        = (.ok (), s') ∧
      [10, 11] = visited ++ rest ∧
      s'.txns = shortSellStore.txns ++ allocs ∧
      allocs.map Txn.tgtLotId = visited ∧
      remainingAfter 60 (allocs.map Txn.txnSize) = 0 := by
  refine ⟨by decide, ?_⟩
  obtain ⟨s', visited, rest, allocs, h1, h2, h3, h4, h5, -⟩ :=
    C27_sell_allocation_exact (mkTxn 1 0 "trade" "sell" 3 5 60 0 0 5000) [10, 11] shortSellStore
      (by decide) (by decide)
      (by
        intro id hid
        rcases List.mem_cons.1 hid with h | h
        · subst h
          exact ⟨mkBal 10 3 50 0 50, by decide, by decide⟩
        · rw [List.mem_singleton] at h
          subst h
          exact ⟨mkBal 11 3 30 0 30, by decide, by decide⟩)
      ⟨[10], 11, [], rfl, by decide⟩ (by decide)
  exact ⟨s', visited, rest, allocs, h1, h2, h3, h4, h5⟩

/-- C28 (code at the failing input): a sweep of lot 20 into itself succeeds and leaves the lot
with `lotSize = 0` where it held 50, because the cash balance read before the first write is
written last; between the two distinct lots of `sweepStore` the total of 80 is kept. -/
theorem C28_sweep_into_same_lot_zeroes_it :
    getLotBal sameLotSweepStore 20 5 = .ok (mkBal 20 5 50 50 0) ∧
    (ProcessTxn sameLotSweepStore { id := 4, lotIds := [] }).1
      = .ok { id := 4, state := TxnState.Processed } ∧
    getLotBal (ProcessTxn sameLotSweepStore { id := 4, lotIds := [] }).2 20 5
      = .ok (mkBal 20 5 0 0 0) ∧
    (sweepStore.lotBals.map (fun b => b.lotSize)).sum = 80 ∧
    ((ProcessTxn sweepStore { id := 4, lotIds := [] }).2.lotBals.map (fun b => b.lotSize)).sum
      = 80 := by
  decide

/-- C29 (the claim as stated fails): an open trade without a sub-type creates the
payable/receivable lot: lot 100 in the settle currency 8 with `srcTxnId = 1` and size 10000. -/
theorem C29_trade_without_sub_type_creates_lot :
    plainTradeStore.lots = [] ∧
    (ProcessTxn plainTradeStore { id := 1, lotIds := [] }).1
      = .ok { id := 1, state := TxnState.Processed } ∧
    (ProcessTxn plainTradeStore { id := 1, lotIds := [] }).2.lots
      = [mkLot 100 8 1 2 10000] := by
  decide

/-- C29 (amended): for every open trade that `ProcessTxn` processes with success, the lot table
ends with the payable/receivable lot (instrument `settleAmtCcyId`, `srcTxnId` the transaction,
origin date `txnDt`, size `settleAmtNet`) when the sub-type is not reinvest, whatever else the
sub-type is; for a reinvest the only lot added is the reinvested lot in `instId` of size
`txnSize`. -/
theorem C29_payable_receivable_unless_reinvest (s s' : Store R) (request : ProcessTxnRequest)
    (txn : Txn R) (resp : ProcessTxnResponse)
    (hget : getTxn s request.id = .ok txn) (hopen : txn.state = TxnState.Open)
    (htype : txn.txnType = TxnType.Trade)
    (hok : ProcessTxn s request = (.ok resp, s')) :
    (txn.txnSubType ≠ TxnSubType.Reinvest →
      ∃ (pre : List (Lot R)) (id : Id),
        s'.lots = pre ++ [{ payRecLotFor txn with id := id }] ∧
        (txn.txnSubType ≠ TxnSubType.Buy → pre = s.lots) ∧
        (txn.txnSubType = TxnSubType.Buy → ∃ id1, pre = s.lots ++ [{ tradeLot txn with id := id1 }])) ∧
    (txn.txnSubType = TxnSubType.Reinvest →
      ∃ id, s'.lots = s.lots ++ [{ tradeLot txn with id := id }]) := by
  unfold ProcessTxn at hok
  rw [hget] at hok
  simp only [if_pos hopen, dispatch, if_pos htype] at hok
  rcases hpt : processTrade txn request.lotIds s with ⟨res, s1⟩
  rw [hpt] at hok
  cases res with
  | error e => simp at hok
  | ok u =>
    simp only at hok
    injection hok with _ hs'
    have hlots : s'.lots = s1.lots := by rw [← hs']; rfl
    rw [hlots]
    unfold processTrade at hpt
    rcases hts : tradeSwitch txn request.lotIds s with ⟨res0, s0⟩
    rw [hts] at hpt
    cases res0 with
    | error e => simp at hpt
    | ok u0 =>
      simp only at hpt
      constructor
      · intro hne
        rw [if_pos hne] at hpt
        rcases hcl : createLot s0 (payRecLotFor txn) with ⟨res2, s2⟩
        rw [hcl] at hpt
        cases res2 with
        | error e => simp at hpt
        | ok l =>
          simp only at hpt
          injection hpt with _ hs1
          obtain ⟨hl, hs2⟩ := createLot_ok hcl
          have h1 : s1.lots = s0.lots ++ [l] := by rw [← hs1, hs2]
          refine ⟨s0.lots, l.id, ?_, ?_, ?_⟩
          · rw [h1, hl]
          · intro hnb
            unfold tradeSwitch at hts
            rw [if_neg hnb] at hts
            by_cases hsell : txn.txnSubType = TxnSubType.Sell
            · rw [if_pos hsell] at hts
              have := sellLoop_lots txn request.lotIds txn.txnSize s
              unfold processSell at hts
              rw [hts] at this
              exact this
            · rw [if_neg hsell, if_neg hne] at hts
              injection hts with _ h0
              rw [← h0]
          · intro hb
            unfold tradeSwitch at hts
            rw [if_pos hb] at hts
            unfold processBuy at hts
            rcases hc0 : createLot s (tradeLot txn) with ⟨res3, s3⟩
            rw [hc0] at hts
            cases res3 with
            | error e => simp at hts
            | ok l0 =>
              simp only at hts
              injection hts with _ h0
              obtain ⟨hl0, hs3⟩ := createLot_ok hc0
              refine ⟨l0.id, ?_⟩
              rw [← h0, hs3, hl0]
      · intro hre
        have hnn : ¬ (txn.txnSubType ≠ TxnSubType.Reinvest) := fun h => h hre
        rw [if_neg hnn] at hpt
        injection hpt with _ hs1
        rw [← hs1]
        unfold tradeSwitch at hts
        have hnb : txn.txnSubType ≠ TxnSubType.Buy := by rw [hre]; decide
        have hns : txn.txnSubType ≠ TxnSubType.Sell := by rw [hre]; decide
        rw [if_neg hnb, if_neg hns, if_pos hre] at hts
        unfold processReinvest at hts
        rcases hc0 : createLot s (tradeLot txn) with ⟨res3, s3⟩
        rw [hc0] at hts
        cases res3 with
        | error e => simp at hts
        | ok l0 =>
          obtain ⟨hl0, hs3⟩ := createLot_ok hc0
          simp only at hts
          have hfin : s0.lots = s3.lots := by
            cases hg1 : getLotBal s3 l0.id txn.settleDt with
            | error e => rw [hg1] at hts; simp at hts
            | ok b1 =>
              rw [hg1] at hts
              simp only at hts
              cases hg2 : getLotBal (updateLotBal s3
                  { b1 with settledSize := b1.lotSize, unsettledSize := 0 }) txn.srcLotId
                  txn.settleDt with
              | error e => rw [hg2] at hts; simp at hts
              | ok b2 =>
                rw [hg2] at hts
                simp only at hts
                split at hts
                · simp at hts
                · injection hts with _ h0
                  rw [← h0]
                  rfl
          refine ⟨l0.id, ?_⟩
          rw [hfin, hs3, hl0]

/-- C29 at the trade without a sub-type of `plainTradeStore`. -/
theorem C29_payable_receivable_unless_reinvest_witness :
    getTxn plainTradeStore 1 = .ok (mkTxn 1 0 "trade" "" 2 4 100 0 0 10000) ∧
    (∃ (pre : List (Lot ℤ)) (id : Id),
      (ProcessTxn plainTradeStore { id := 1, lotIds := [] }).2.lots
        = pre ++ [{ payRecLotFor (mkTxn 1 0 "trade" "" 2 4 100 0 0 10000) with id := id }] ∧
      ((mkTxn 1 0 "trade" "" 2 4 100 0 0 10000).txnSubType ≠ TxnSubType.Buy
        → pre = plainTradeStore.lots) ∧
      ((mkTxn 1 0 "trade" "" 2 4 100 0 0 10000).txnSubType = TxnSubType.Buy
        → ∃ id1, pre = plainTradeStore.lots
            ++ [{ tradeLot (mkTxn 1 0 "trade" "" 2 4 100 0 0 10000) with id := id1 }])) :=
  ⟨by decide,
    (C29_payable_receivable_unless_reinvest plainTradeStore
      (ProcessTxn plainTradeStore { id := 1, lotIds := [] }).2 { id := 1, lotIds := [] }
      (mkTxn 1 0 "trade" "" 2 4 100 0 0 10000) { id := 1, state := TxnState.Processed }
      (by decide) (by decide) (by decide) (by decide)).1 (by decide)⟩

/-- C30: for every valid date `D` whose next day is a valid date, every lot list and every
store whose balance table has no row dated `D + 1` for a selected lot, the forward roll of `D`
followed by the back roll of `D + 1` with the same list leaves the store as it was; with no list
or a list that is not empty both calls take their course (the back roll answers
`completed`). -/
theorem C30_roll_forward_then_back (s : Store R) (D : Date) (ids : Option (List Id))
    (hD : D.Valid) (hD1 : (nextDay D).Valid)
    (hfree : ∀ b ∈ s.lotBals, b.lotDt = dayNumber D + 1 → lotSelected ids b.lotId = false) :
    (RollLots (RollLots s { dt := formatDate D, direction := "forward", lots := ids }).2
        { dt := formatDate (nextDay D), direction := "back", lots := ids }).2 = s ∧
    (ids ≠ some [] →
      (RollLots (RollLots s { dt := formatDate D, direction := "forward", lots := ids }).2
        { dt := formatDate (nextDay D), direction := "back", lots := ids }).1
        = .ok "completed") := by
  have hnext := dayNumber_nextDay D hD.2.2.1 hD.2.2.2.1 hD.2.2.2.2.1 hD.2.2.2.2.2
  rw [RollLots_back _ (nextDay D) ids hD1, RollLots_forward s D ids "forward" hD (by decide)]
  cases hdec : decodeLots ids with
  | error e =>
    simp only
    refine ⟨trivial, ?_⟩
    intro hne
    exfalso
    unfold decodeLots at hdec
    cases ids with
    | none => cases hdec
    | some l =>
      cases l with
      | nil => exact hne rfl
      | cons x xs =>
        simp only [decodeIds] at hdec
        by_cases hx : x = 0
        · rw [if_pos hx] at hdec
          cases hdec
        · rw [if_neg hx] at hdec
          cases hdec
  | ok vids =>
    have hsub := decodeLots_sub hdec
    simp only
    obtain ⟨added, h1, h2⟩ := rollLoop_appends (dayNumber D + 1)
      (s.lotBals.filter (fun b => b.lotDt = dayNumber D && lotSelected vids b.lotId)) s
    have hstore : (match rollLoop (dayNumber D + 1)
        (s.lotBals.filter (fun b => b.lotDt = dayNumber D && lotSelected vids b.lotId)) s with
        | (.error e, s1) => ((.error e : Except Fault String), s1)
        | (.ok _, s1) => (.ok "completed", s1)).2
        = { s with lotBals := s.lotBals ++ added } := by
      rw [← h1]
      rcases rollLoop (dayNumber D + 1)
        (s.lotBals.filter (fun b => b.lotDt = dayNumber D && lotSelected vids b.lotId)) s
        with ⟨res, s1⟩
      cases res <;> rfl
    rw [hstore]
    simp only
    refine ⟨?_, fun _ => trivial⟩
    have hold : s.lotBals.filter
        (fun b => !(b.lotDt = dayNumber (nextDay D) && lotSelected vids b.lotId)) = s.lotBals := by
      rw [List.filter_eq_self]
      intro b hb
      by_cases hdt : b.lotDt = dayNumber (nextDay D)
      · have hns := hfree b hb (by rw [← hnext]; exact hdt)
        have : lotSelected vids b.lotId = false := by
          cases hv : lotSelected vids b.lotId with
          | false => rfl
          | true => rw [hsub b.lotId hv] at hns; cases hns
        simp [this]
      · simp [hdt]
    have hnew : added.filter
        (fun b => !(b.lotDt = dayNumber (nextDay D) && lotSelected vids b.lotId)) = [] := by
      rw [List.filter_eq_nil_iff]
      intro b hb
      obtain ⟨hdt, b0, hb0, hid⟩ := h2 b hb
      have hsel : lotSelected vids b0.lotId = true := by
        have := (List.mem_filter.1 hb0).2
        simp only [Bool.and_eq_true] at this
        exact this.2
      rw [hid, hsel, hdt, hnext]
      simp
    rw [List.filter_append, hold, hnew, List.append_nil]

/-- C30 at scenario S6: the roll of the 28th of February 2024 forward and of the 29th back. -/
theorem C30_roll_forward_then_back_witness :
    (RollLots rollStore { dt := "2024-02-28", direction := "forward", lots := none }).2
      ≠ rollStore ∧
    (RollLots (RollLots rollStore
        { dt := formatDate { year := 2024, month := 2, day := 28 }, direction := "forward",
          lots := none }).2
      { dt := formatDate (nextDay { year := 2024, month := 2, day := 28 }), direction := "back",
        lots := none }).2 = rollStore :=
  ⟨by decide,
    (C30_roll_forward_then_back rollStore { year := 2024, month := 2, day := 28 } none
      (by decide) (by decide) (by decide)).1⟩

end Claims

end Varangian
